import Mathlib

/-!
Line rendering of the `o` editor (`Editor.WriteLines`, `highlight.go`).

A shallow embedding of the line renderer and of the string primitives it uses.

* A Go `string` is a list of bytes (`GoString`); a `rune` is a code point (`Rune`).
* The canvas (`vt100.Canvas`), the tokenizer (`syntax.AsText`), the tag painter
  (`textoutput`) and the helpers of the editor that `WriteLines` calls are
  collaborators: they are the fields of `Deps`.
* What `WriteLines` does to the outside world is recorded as the ordered list of
  calls it issues (`Effect`): `c.Write`, `c.WriteRune` and `fmt.Println`.
-/

namespace OEditor

/-! ## Go strings, runes and UTF-8 -/

/-- A code point (Go `rune`). -/
abbrev Rune := Nat

/-- A Go string: a sequence of bytes, not necessarily valid UTF-8. -/
abbrev GoString := List Nat

/-- The rune `utf8.RuneError` (U+FFFD). -/
def RuneError : Rune := 0xFFFD

/-- A UTF-8 continuation byte, `10xxxxxx`. -/
def isCont (b : Nat) : Bool := decide (0x80 ≤ b) && decide (b ≤ 0xBF)

/-- Go `utf8.RuneStart`: the byte is not a continuation byte. -/
def RuneStart (b : Nat) : Bool := !(isCont b)

/-- Go `utf8.DecodeRune`: the first rune of the bytes and its width in bytes.
Invalid or truncated encodings give `(RuneError, 1)`, the empty input `(RuneError, 0)`. -/
def DecodeRune : GoString → Rune × Nat
  | [] => (RuneError, 0)
  | b0 :: rest =>
    if b0 < 0x80 then (b0, 1)
    else if 0xC2 ≤ b0 ∧ b0 ≤ 0xDF then
      match rest with
      | b1 :: _ =>
        if isCont b1 then ((b0 % 32) * 64 + b1 % 64, 2) else (RuneError, 1)
      | [] => (RuneError, 1)
    else if 0xE0 ≤ b0 ∧ b0 ≤ 0xEF then
      match rest with
      | b1 :: b2 :: _ =>
        let lo := if b0 = 0xE0 then 0xA0 else 0x80
        let hi := if b0 = 0xED then 0x9F else 0xBF
        if lo ≤ b1 ∧ b1 ≤ hi ∧ isCont b2 = true then
          ((b0 % 16) * 4096 + (b1 % 64) * 64 + b2 % 64, 3)
        else (RuneError, 1)
      | _ => (RuneError, 1)
    else if 0xF0 ≤ b0 ∧ b0 ≤ 0xF4 then
      match rest with
      | b1 :: b2 :: b3 :: _ =>
        let lo := if b0 = 0xF0 then 0x90 else 0x80
        let hi := if b0 = 0xF4 then 0x8F else 0xBF
        if lo ≤ b1 ∧ b1 ≤ hi ∧ isCont b2 = true ∧ isCont b3 = true then
          ((b0 % 8) * 262144 + (b1 % 64) * 4096 + (b2 % 64) * 64 + b3 % 64, 4)
        else (RuneError, 1)
      | _ => (RuneError, 1)
    else (RuneError, 1)

/-- Worker of `runes`: `skip` bytes of the rune decoded last are still to be passed over. -/
def runesAux : Nat → GoString → List Rune
  | _, [] => []
  | 0, b :: rest => (DecodeRune (b :: rest)).1 :: runesAux ((DecodeRune (b :: rest)).2 - 1) rest
  | k + 1, _ :: rest => runesAux k rest

/-- Go `[]rune(s)` (also the runes visited by `for _, r := range s`). -/
def runes (s : GoString) : List Rune := runesAux 0 s

/-- Go `utf8.DecodeLastRune`: the last rune of the bytes and its width. The backward
scan for a start byte looks at most `UTFMax = 4` bytes back. -/
def DecodeLastRune (s : GoString) : Rune × Nat :=
  let e := s.length
  if e = 0 then (RuneError, 0)
  else
    let last := s.getD (e - 1) 0
    if last < 0x80 then (last, 1)
    else
      let start :=
        if 2 ≤ e ∧ RuneStart (s.getD (e - 2) 0) = true then e - 2
        else if 3 ≤ e ∧ RuneStart (s.getD (e - 3) 0) = true then e - 3
        else if 4 ≤ e ∧ RuneStart (s.getD (e - 4) 0) = true then e - 4
        else e - 5
      let rs := DecodeRune (s.drop start)
      if start + rs.2 ≠ e then (RuneError, 1) else rs

/-- Go `unicode.IsSpace`. -/
def IsSpace (r : Rune) : Bool :=
  if r ≤ 0xFF then
    r = 0x09 || r = 0x0A || r = 0x0B || r = 0x0C || r = 0x0D || r = 0x20 || r = 0x85 || r = 0xA0
  else
    r = 0x1680 || (decide (0x2000 ≤ r) && decide (r ≤ 0x200A)) || r = 0x2028 || r = 0x2029
      || r = 0x202F || r = 0x205F || r = 0x3000

/-- Go `unicode.IsControl`: the category Cc, which lies within Latin-1. -/
def IsControl (r : Rune) : Bool :=
  decide (r ≤ 0x1F) || (decide (0x7F ≤ r) && decide (r ≤ 0x9F))

/-- The loop of Go `strings.lastIndexFunc s IsSpace false`, started at byte index `i`:
the index of the last rune of `s[0:i]` that is not a space, if any. -/
def lastIndexNotSpace (s : GoString) : Nat → Nat → Option Nat
  | 0, _ => none
  | fuel + 1, i =>
    if i = 0 then none
    else
      let rs := DecodeLastRune (s.take i)
      if IsSpace rs.1 = false then some (i - rs.2)
      else lastIndexNotSpace s fuel (i - rs.2)

/-- Go `strings.TrimRightFunc(s, unicode.IsSpace)`. -/
def TrimRightSpace (s : GoString) : GoString :=
  match lastIndexNotSpace s (s.length + 1) s.length with
  | some i =>
    if s.getD i 0 ≥ 0x80 then s.take (i + (DecodeRune (s.drop i)).2) else s.take (i + 1)
  | none => s.take 0

/-- Worker of `TrimLeftSpace`, with the same byte skipping as `runesAux`. -/
def trimLeftAux : Nat → GoString → GoString
  | _, [] => []
  | 0, b :: rest =>
    if IsSpace (DecodeRune (b :: rest)).1 = true then
      trimLeftAux ((DecodeRune (b :: rest)).2 - 1) rest
    else b :: rest
  | k + 1, _ :: rest => trimLeftAux k rest

/-- Go `strings.TrimLeftFunc(s, unicode.IsSpace)`. -/
def TrimLeftSpace (s : GoString) : GoString := trimLeftAux 0 s

/-- Go `strings.TrimSpace`. -/
def TrimSpace (s : GoString) : GoString := TrimRightSpace (TrimLeftSpace s)

/-- Go `strings.HasPrefix`. -/
def HasPrefix (s p : GoString) : Bool := s.take p.length == p

/-- Go `strings.HasSuffix`. -/
def HasSuffix (s p : GoString) : Bool := s.drop (s.length - p.length) == p

/-- Worker of `Count`: non-overlapping occurrences, `skip` bytes of the last match pending. -/
def countAux (sep : GoString) : Nat → GoString → Nat
  | _, [] => 0
  | 0, b :: rest =>
    if HasPrefix (b :: rest) sep = true then 1 + countAux sep (sep.length - 1) rest
    else countAux sep 0 rest
  | k + 1, _ :: rest => countAux sep k rest

/-- Go `strings.Count(s, sep)` for a non-empty `sep`. -/
def Count (s sep : GoString) : Nat := countAux sep 0 s

/-- Go `strings.Contains`. -/
def Contains (s sub : GoString) : Bool := decide (0 < Count s sub)

/-- Byte index of the first occurrence of a non-empty `sep` in `s` (Go `strings.Index`). -/
def Index (s sep : GoString) : Option Nat :=
  match s with
  | [] => none
  | b :: rest =>
    if HasPrefix (b :: rest) sep = true then some 0
    else (Index rest sep).map (· + 1)

/-- Go `strings.SplitN(s, sep, 2)` for a non-empty `sep`. -/
def SplitN2 (s sep : GoString) : List GoString :=
  match Index s sep with
  | some i => [s.take i, s.drop (i + sep.length)]
  | none => [s]

/-- Go `strings.Repeat(" ", n)`. -/
def RepeatSpace (n : Nat) : GoString := List.replicate n 0x20

/-- Go `strings.Replace(line, "\t", tabString, -1)`: every tab byte is replaced. -/
def ReplaceTabs (line tabString : GoString) : GoString :=
  line.flatMap fun b => if b = 0x09 then tabString else [b]

/-! ## Data model of the renderer -/

/-- The editor modes, `ftdetect.go`, in the order of the `iota` block. -/
inductive Mode
  | modeBlank | modeGit | modeMarkdown | modeMakefile | modeShell | modeConfig
  | modeAssembly | modeGo | modeHaskell | modeOCaml | modeStandardML | modePython
  | modeText | modeCMake | modeVim | modeLisp | modeZig | modeKotlin | modeJava
  | modeHIDL | modeSQL | modeOak | modeRust | modeLua | modeCrystal | modeNim
  | modeObjectPascal | modeBat | modeCpp | modeC | modeAda | modeHTML | modeOdin
  | modeXML | modePolicyLanguage | modeNroff | modeScala | modeJSON
deriving DecidableEq, Repr

open Mode

/-- A terminal colour attribute (`vt100.AttributeColor`), identified by a number. -/
abbrev AttributeColor := Nat

/-- One extracted character with its colour (`textoutput.CharAttribute`). -/
structure CharAttribute where
  R : Rune
  A : AttributeColor
deriving DecidableEq, Repr

/-- The lexical state carried from line to line (`QuoteState`). The fields named here
are the ones `WriteLines` reads or assigns; `rest` stands for the remaining fields,
which only `Process`, `None` and `rainbowParen` look at. -/
structure QuoteState where
  singleLineComment : Bool
  multiLineComment : Bool
  startedMultiLineString : Bool
  backtick : Int
  doubleQuote : Int
  singleQuote : Int
  parCount : Int
  rest : List Int
deriving DecidableEq, Repr

/-- The fields of `Editor` that `WriteLines` reads. `Line` is the line accessor
`e.Line(LineIndex(i))`, `drawMode` the value returned by `e.DrawMode()`, `spacesPerTab`
a count (`strings.Repeat` takes no negative one). `WriteLines` assigns no field of the
editor. -/
structure Editor where
  Line : Int → GoString
  mode : Mode
  drawMode : Bool
  spacesPerTab : Nat
  syntaxHighlight : Bool
  rainbowParenthesis : Bool
  searchTerm : GoString
  fg : AttributeColor
  bg : AttributeColor
  searchFg : AttributeColor
  multiLineComment : AttributeColor
  multiLineString : AttributeColor

/-- The collaborators of `WriteLines`: the tokenizer `syntax.AsText` (`none` is its
error result), the tag painter `o.DarkTags` and `o.Extract`, the colour wrapper
`AttributeColor.Get`, the environment (`NO_COLOR` set and non-empty), and the helpers of
the editor that live outside `highlight.go`. `Process` returns the updated state with the
two previous runes; `rainbowParen` returns the updated counter and characters. -/
structure Deps where
  noColor : Bool
  AsText : GoString → Bool → Option GoString
  DarkTags : GoString → GoString
  Extract : GoString → List CharAttribute
  Get : AttributeColor → GoString → GoString
  Escape : GoString → GoString
  UnEscape : GoString → GoString
  gitHighlight : GoString → GoString
  markdownHighlight : GoString → Bool → Bool → GoString × Bool × Bool
  isListItem : GoString → Bool
  SingleLineCommentMarker : Mode → GoString
  NewQuoteState : GoString → QuoteState
  Process : QuoteState → GoString → Rune → Rune → Bool → QuoteState × Rune × Rune
  None : QuoteState → Bool
  rainbowParen : Int → List CharAttribute → GoString → Bool → Int × List CharAttribute

/-- One call issued by `WriteLines`: `c.Write(x, y, fg, bg, s)`,
`c.WriteRune(x, y, fg, bg, r)` or `fmt.Println(s)`. The coordinates are the values
handed to the `uint` conversions. -/
inductive Effect
  | Write (x y : Int) (fg bg : AttributeColor) (s : GoString)
  | WriteRune (x y : Int) (fg bg : AttributeColor) (r : Rune)
  | Println (s : GoString)
deriving DecidableEq, Repr

/-- The variables of `WriteLines` that live across the iterations of the drawing loop. -/
structure LoopState where
  q : QuoteState
  prevRune : Rune
  prevPrevRune : Rune
  inCodeBlock : Bool
  prevLineIsListItem : Bool
deriving DecidableEq, Repr

/-- What a call of `WriteLines` returns and does: the error (`none` is `nil`) and the
calls issued, in order. -/
structure Outcome where
  err : Option String
  effects : List Effect
deriving DecidableEq, Repr

/-- The placeholder glyph for control characters, the inverted question mark. -/
def controlRuneReplacement : Rune := 0xBF

/-! ## `WriteLines` -/

/-- The string a tab is replaced by: one space in draw mode, else `spacesPerTab` spaces. -/
def tabString (e : Editor) : GoString :=
  if e.drawMode then [0x20] else RepeatSpace e.spacesPerTab

/-- The line after the tab replacement at the top of the drawing loop. -/
def expandLine (e : Editor) (line : GoString) : GoString :=
  if Contains line [0x09] = true then ReplaceTabs line (tabString e) else line

/-- The displayed copy: trailing space trimmed, then cut when it has `w` runes or more.
The cut `screenLine[:w]` is a byte slice. -/
def screenLineOf (w : Nat) (line : GoString) : GoString :=
  let screenLine := TrimRightSpace line
  if (runes screenLine).length ≥ w then screenLine.take w else screenLine

/-- The first loop over `[0, fromline)`, Markdown only: the code block flag at `fromline`. -/
def scanCodeBlock (e : Editor) (fromline : Int) : Bool :=
  if e.mode = modeMarkdown then
    (List.range fromline.toNat).foldl
      (fun (inCodeBlock : Bool) (i : Nat) =>
        let contents := e.Line (i : Int)
        if HasPrefix contents [0x7E, 0x7E, 0x7E] || HasPrefix contents [0x60, 0x60, 0x60]
        then !inCodeBlock else inCodeBlock)
      false
  else false

/-- One iteration of the second loop over `[0, offset)`, which replays the quote state. -/
def prescanStep (d : Deps) (e : Editor) (s : QuoteState × Rune × Rune) (i : Nat) :
    QuoteState × Rune × Rune :=
  let trimmedLine := TrimSpace (e.Line (i : Int))
  if e.mode = modeVim ∧ HasPrefix trimmedLine [0x22] = true then
    ({ s.1 with singleLineComment := true, startedMultiLineString := false,
                backtick := 0, doubleQuote := 0, singleQuote := 0 }, s.2.1, s.2.2)
  else
    d.Process s.1 trimmedLine s.2.1 s.2.2 (decide (e.mode = modeLisp))

/-- The state with which the drawing loop starts at `fromline`. -/
def prescan (d : Deps) (e : Editor) (fromline : Int) : LoopState :=
  let s := (List.range fromline.toNat).foldl (prescanStep d e)
    (d.NewQuoteState (d.SingleLineCommentMarker e.mode), 0x0A, 0x0A)
  { q := s.1, prevRune := s.2.1, prevPrevRune := s.2.2,
    inCodeBlock := scanCodeBlock e fromline, prevLineIsListItem := false }

/-- The result of the `switch e.mode` with the `runDefault` block behind it: the
coloured string, the parentheses added on this line and the state after it. -/
structure Colored where
  coloredString : GoString
  addedPar : Int
  st : LoopState

/-- The `runDefault` block: advance the quote state over the trimmed line and pick the
colouring from it. -/
def runDefaultBlock (d : Deps) (e : Editor) (st : LoopState) (line textWithTags : GoString) :
    Colored :=
  let trimmedLine := TrimSpace line
  let previousParCount := st.q.parCount
  let p := d.Process st.q trimmedLine st.prevRune st.prevPrevRune (decide (e.mode = modeLisp))
  let q := p.1
  let coloredString :=
    if q.singleLineComment then d.UnEscape (d.DarkTags textWithTags)
    else if q.multiLineComment then d.UnEscape (d.Get e.multiLineComment line)
    else if !q.startedMultiLineString && decide (q.backtick > 0) then
      d.UnEscape (d.Get e.multiLineString line)
    else d.UnEscape (d.DarkTags textWithTags)
  { coloredString := coloredString, addedPar := q.parCount - previousParCount,
    st := { st with q := q, prevRune := p.2.1, prevPrevRune := p.2.2 } }

/-- The split-at-the-marker colouring shared by the Lisp and Vim cases: the part before
the first `marker` is tokenized again, the marker and the rest get the comment colour. -/
def splitComment (d : Deps) (e : Editor) (line textWithTags marker : GoString) : GoString :=
  let parts := SplitN2 line marker
  match d.AsText (d.Escape (parts.getD 0 [])) false with
  | none => d.UnEscape (d.DarkTags textWithTags)
  | some newTextWithTags =>
    d.UnEscape (d.DarkTags newTextWithTags ++ d.Get e.multiLineComment (marker ++ parts.getD 1 []))

/-- The `switch e.mode` of the highlighted path, followed by the `runDefault` block. -/
def highlightLine (d : Deps) (e : Editor) (st : LoopState) (line textWithTags : GoString) :
    Colored :=
  let regular := d.UnEscape (d.DarkTags textWithTags)
  match e.mode with
  | modeGit => { coloredString := d.gitHighlight line, addedPar := 0, st := st }
  | modeMarkdown =>
    let r := d.markdownHighlight line st.inCodeBlock st.prevLineIsListItem
    let st1 : LoopState := { st with prevLineIsListItem := d.isListItem line }
    if r.2.1 then
      { coloredString := r.1, addedPar := 0,
        st := if r.2.2 then { st1 with inCodeBlock := !st.inCodeBlock } else st1 }
    else { coloredString := regular, addedPar := 0, st := st1 }
  | modeConfig | modeShell | modeCMake =>
    if Contains line [0x2F, 0x2A] || Contains line [0x2A, 0x2F] then
      { coloredString := line, addedPar := 0, st := st }
    else { coloredString := regular, addedPar := 0, st := st }
  | modeStandardML | modeOCaml =>
    let trimmedLine := TrimSpace line
    if HasPrefix trimmedLine [0x28, 0x2A] && HasSuffix trimmedLine [0x2A, 0x29] then
      { coloredString := d.UnEscape (d.Get e.multiLineComment trimmedLine), addedPar := 0,
        st := st }
    else { coloredString := regular, addedPar := 0, st := st }
  | modeLisp =>
    let st1 : LoopState := { st with q := { st.q with singleQuote := 0 } }
    let trimmedLine := TrimSpace line
    if Count trimmedLine [0x3B, 0x3B] = 1 then
      if HasPrefix trimmedLine [0x3B] = true then
        { coloredString := d.UnEscape (d.Get e.multiLineComment line), addedPar := 0, st := st1 }
      else if Count trimmedLine [0x3B, 0x3B] = 1 then
        { coloredString := splitComment d e line textWithTags [0x3B, 0x3B], addedPar := 0,
          st := st1 }
      else if Count trimmedLine [0x3B] = 1 then
        { coloredString := splitComment d e line textWithTags [0x3B], addedPar := 0, st := st1 }
      else { coloredString := [], addedPar := 0, st := st1 }
    else runDefaultBlock d e st1 line textWithTags
  | modeVim =>
    let trimmedLine := TrimSpace line
    if Count trimmedLine [0x22] = 1 then
      if HasPrefix trimmedLine [0x22] = true then
        { coloredString := d.UnEscape (d.Get e.multiLineComment line), addedPar := 0, st := st }
      else
        { coloredString := splitComment d e line textWithTags [0x22], addedPar := 0, st := st }
    else runDefaultBlock d e st line textWithTags
  | _ => runDefaultBlock d e st line textWithTags

/-- The rainbow step: applied when `e.rainbowParenthesis` and `q.None()`. With
`addedPar != 0` it works on a local copy of the counter, else on `q.parCount` itself. -/
def rainbowStep (d : Deps) (e : Editor) (q : QuoteState) (addedPar : Int)
    (cas : List CharAttribute) : QuoteState × List CharAttribute :=
  let marker := d.SingleLineCommentMarker e.mode
  let ignoreSingleQuotes := decide (e.mode = modeLisp)
  if e.rainbowParenthesis && d.None q then
    if addedPar ≠ 0 then
      (q, (d.rainbowParen (q.parCount + (addedPar - 1)) cas marker ignoreSingleQuotes).2)
    else
      let r := d.rainbowParen q.parCount cas marker ignoreSingleQuotes
      ({ q with parCount := r.1 }, r.2)
  else (q, cas)

/-- The inner loop over `i` in `[characterIndex, characterIndex + length)`: does the term
stand at the head of the remaining characters? It stops at the end of the characters and
at the first differing rune. -/
def matchAt : List Rune → List CharAttribute → Bool
  | [], _ => true
  | _ :: _, [] => false
  | t :: ts, c :: cs => if c.R ≠ t then false else matchAt ts cs

/-- The foreground of one character and the new `matchForAnotherN`; `cas` are the
characters from the current one on. -/
def searchFgStep (e : Editor) (matchForAnotherN : Nat) (cas : List CharAttribute)
    (ca : CharAttribute) : AttributeColor × Nat :=
  let searchTermRunes := runes e.searchTerm
  let fg := if ca.R = 0x20 then e.fg else ca.A
  if matchForAnotherN > 0 then (e.searchFg, matchForAnotherN - 1)
  else if e.searchTerm.length > 0 ∧ searchTermRunes.head? = some ca.R then
    if matchAt searchTermRunes cas = true then (e.searchFg, searchTermRunes.length - 1)
    else (fg, matchForAnotherN)
  else (fg, matchForAnotherN)

/-- The loop over `charactersAndAttributes`, from the characters still to draw, the column
`counter` and `matchForAnotherN`: the calls issued and the final `counter`. -/
def writeCells (e : Editor) (cx cy : Int) (y : Nat) :
    List CharAttribute → Nat → Nat → List Effect × Nat
  | [], counter, _ => ([], counter)
  | ca :: rest, counter, matchForAnotherN =>
    let s := searchFgStep e matchForAnotherN (ca :: rest) ca
    if ca.R = 0x09 then
      let r := writeCells e cx cy y rest
        (if e.drawMode then counter + 1 else counter + e.spacesPerTab) s.2
      (Effect.Write (cx + counter) (cy + y) s.1 e.bg (tabString e) :: r.1, r.2)
    else
      let letter := if IsControl ca.R = true then controlRuneReplacement else ca.R
      let r := writeCells e cx cy y rest (counter + 1) s.2
      (Effect.WriteRune (cx + counter) (cy + y) s.1 e.bg letter :: r.1, r.2)

/-- The closing loop of an iteration: blanks from column `counter` up to the width. -/
def blanks (e : Editor) (w : Nat) (cx cy : Int) (y counter : Nat) : List Effect :=
  (List.range' counter (w - counter)).map
    fun (x : Nat) => Effect.WriteRune (cx + x) (cy + y) e.fg e.bg 0x20

/-- The slice `charactersAndAttributes` as it enters the loop over the characters, for
a line the tokenizer accepted, and the state after the line: the mode switch, the
extraction and the rainbow step. -/
def lineCells (d : Deps) (e : Editor) (st : LoopState) (line textWithTags : GoString) :
    List CharAttribute × LoopState :=
  let h := highlightLine d e st line textWithTags
  let r := rainbowStep d e h.st.q h.addedPar (d.Extract h.coloredString)
  (r.2, { h.st with q := r.1 })

/-- The content part of one iteration of the drawing loop, for row `y`: the calls issued
before the closing loop of blanks, the value of `counter` reached and the state. -/
def lineContent (d : Deps) (e : Editor) (w : Nat) (offset cx cy : Int) (st : LoopState)
    (y : Nat) : List Effect × Nat × LoopState :=
  let line := expandLine e (e.Line (y + offset))
  let screenLine := screenLineOf w line
  if e.syntaxHighlight && !d.noColor then
    match d.AsText (d.Escape line)
        (decide (e.mode = modeAssembly) || decide (e.mode = modeLisp)) with
    | none => ([Effect.Println screenLine], (runes screenLine).length, st)
    | some textWithTags =>
      let lc := lineCells d e st line textWithTags
      let c := writeCells e cx cy y lc.1 0 0
      (c.1, c.2, lc.2)
  else
    ([Effect.Write cx (cy + y) e.fg e.bg screenLine], (runes screenLine).length, st)

/-- One iteration of the drawing loop, for row `y`: the content, then the blanks. -/
def drawLine (d : Deps) (e : Editor) (w : Nat) (offset cx cy : Int) (st : LoopState)
    (y : Nat) : List Effect × LoopState :=
  let c := lineContent d e w offset cx cy st y
  (c.1 ++ blanks e w cx cy y c.2.1, c.2.2)

/-- The drawing loop over the rows `ys`. -/
def drawLoop (d : Deps) (e : Editor) (w : Nat) (offset cx cy : Int) :
    List Nat → LoopState → List Effect × LoopState
  | [], st => ([], st)
  | y :: ys, st =>
    let r := drawLine d e w offset cx cy st y
    let r2 := drawLoop d e w offset cx cy ys r.2
    (r.1 ++ r2.1, r2.2)

/-- The embedding of `Editor.WriteLines`, for a canvas of width `w`. -/
def WriteLines (d : Deps) (e : Editor) (w : Nat) (fromline toline cx cy : Int) : Outcome :=
  if fromline ≥ toline then
    { err := some "fromline >= toline in WriteLines", effects := [] }
  else
    { err := none,
      effects := (drawLoop d e w fromline cx cy (List.range (toline - fromline).toNat)
        (prescan d e fromline)).1 }

/-! ## Reading the calls, and the scan of the specification -/

/-- The foreground a call paints with; `fmt.Println` paints nothing. -/
def Effect.fg : Effect → Option AttributeColor
  | .Write _ _ fg _ _ => some fg
  | .WriteRune _ _ fg _ _ => some fg
  | .Println _ => none

/-- A call with its foreground colour forgotten. -/
def Effect.eraseFg : Effect → Effect
  | .Write x y _ bg s => .Write x y 0 bg s
  | .WriteRune x y _ bg r => .WriteRune x y 0 bg r
  | .Println s => .Println s

/-- The canvas cells `(column, row)` a call addresses: `c.Write` lays the runes of its
string out from `(x, y)` to the right, one per column. -/
def Effect.cells : Effect → List (Int × Int)
  | .Write x y _ _ s => (List.range (runes s).length).map fun (i : Nat) => (x + (i : Int), y)
  | .WriteRune x y _ _ _ => [(x, y)]
  | .Println _ => []

/-- The runes a call puts on the canvas. -/
def Effect.shown : Effect → List Rune
  | .Write _ _ _ _ s => runes s
  | .WriteRune _ _ _ _ r => [r]
  | .Println _ => []

/-- The number of columns a tab takes: by how much the loop advances `counter` for it. -/
def tabWidth (e : Editor) : Nat := if e.drawMode then 1 else e.spacesPerTab

/-- The number of columns the characters take: by how much the loop over the characters
advances `counter`. -/
def cellsWidth (e : Editor) (cas : List CharAttribute) : Nat :=
  (cas.map fun ca => if ca.R = 0x09 then tabWidth e else 1).sum

/-- The foreground of a character when no search match covers it: the colour of the
editor for a space, else the colour the character was extracted with. -/
def baseFg (e : Editor) (ca : CharAttribute) : AttributeColor :=
  if ca.R = 0x20 then e.fg else ca.A

/-- The foregrounds the loop over the characters paints with, one per character, from
the characters still to draw and `matchForAnotherN`. -/
def cellFgs (e : Editor) : List CharAttribute → Nat → List AttributeColor
  | [], _ => []
  | ca :: rest, matchForAnotherN =>
    (searchFgStep e matchForAnotherN (ca :: rest) ca).1
      :: cellFgs e rest (searchFgStep e matchForAnotherN (ca :: rest) ca).2

/-- The left-to-right scan in the words of the specification, at position `pos` with
`rs` the runes from `pos` on: test a full match of `t`; on success record `pos` and skip
past the match, on failure advance by one character. -/
def scanAt (t : List Rune) : Nat → Nat → List Rune → List Nat
  | 0, _, _ => []
  | _ + 1, _, [] => []
  | fuel + 1, pos, r :: rest =>
    if t.isPrefixOf (r :: rest) = true then
      pos :: scanAt t fuel (pos + t.length) ((r :: rest).drop t.length)
    else scanAt t fuel (pos + 1) rest

/-- The start columns of the matches of the term `t` in the runes `rs`. -/
def searchMatches (t rs : List Rune) : List Nat := scanAt t (rs.length + 1) 0 rs

/-- The same scan, one rune at a time: `k` runes of the last match are still to be passed. -/
def scanFrom (t : List Rune) : Nat → Nat → List Rune → List Nat
  | _, _, [] => []
  | 0, pos, r :: rest =>
    if t.isPrefixOf (r :: rest) = true then pos :: scanFrom t (t.length - 1) (pos + 1) rest
    else scanFrom t 0 (pos + 1) rest
  | k + 1, pos, _ :: rest => scanFrom t k (pos + 1) rest

/-- Column `i` lies in one of the spans `[m, m + n)` of the matches `ms`. -/
def inSpans (ms : List Nat) (n i : Nat) : Bool :=
  ms.any fun m => decide (m ≤ i) && decide (i < m + n)

/-! ## The plain path and the fence count, in the words of the specification -/

/-- The calls of the plain path for row `y`: the trimmed, clipped line written with the
colours of the editor, then the blanks. It reads the editor through its lines, its tab
settings and its two colours only. -/
def plainRow (e : Editor) (w : Nat) (offset cx cy : Int) (y : Nat) : List Effect :=
  Effect.Write cx (cy + y) e.fg e.bg (screenLineOf w (expandLine e (e.Line (y + offset))))
    :: blanks e w cx cy y (runes (screenLineOf w (expandLine e (e.Line (y + offset))))).length

/-- The text starts with a fence marker, three tildes or three backticks. -/
def startsWithFence (s : GoString) : Bool :=
  HasPrefix s [0x7E, 0x7E, 0x7E] || HasPrefix s [0x60, 0x60, 0x60]

/-- The number of lines `i < n` whose stored text starts with a fence marker. -/
def fenceCount (e : Editor) (n : Nat) : Nat :=
  (List.range n).countP fun (i : Nat) => startsWithFence (e.Line (i : Int))

/-- The number of lines `i < n` whose trimmed text starts with a fence marker. -/
def trimmedFenceCount (e : Editor) (n : Nat) : Nat :=
  (List.range n).countP fun (i : Nat) => startsWithFence (TrimSpace (e.Line (i : Int)))

/-- The colouring of a line split at a comment marker, in the words of the specification:
the part before the marker is tokenized on its own and painted, the marker and the rest
get the comment colour. When the tokenizer fails on the part before the marker, it is the
regular painting of the whole line. -/
def splitColoring (d : Deps) (e : Editor) (textWithTags pre marker suf : GoString) :
    GoString :=
  match d.AsText (d.Escape pre) false with
  | none => d.UnEscape (d.DarkTags textWithTags)
  | some newTextWithTags =>
    d.UnEscape (d.DarkTags newTextWithTags ++ d.Get e.multiLineComment (marker ++ suf))

/-- The state with which row `k` is drawn by a call of `WriteLines` that starts at
`fromline = j`: the state after the loops over `[0, j)` and the drawing of `[j, k)`. -/
def stateAtLine (d : Deps) (e : Editor) (w : Nat) (cx cy j k : Int) : LoopState :=
  (drawLoop d e w j cx cy (List.range (k - j).toNat) (prescan d e j)).2

/-! ## The keyword table and the search (`v2/syntax.go`, `v2/search.go`, `v2/initialize.go`) -/

namespace V2

/-- The modes of the package `mode` that the files under `v2` name. The `default` case of
`adjustSyntaxHighlightingKeywords` treats every mode it does not list alike. -/
inductive Mode
  | AIDL | Ada | Agda | Algol68 | Amber | Arduino | Assembly | Basic | Bat | Battlestar
  | Bazel | Blank | C | CMake | CS | Clojure | Config | Cpp | Crystal | D | Dart | Elm
  | Email | Erlang | FSharp | Fortran77 | Fortran90 | GDScript | Garnet | Git | Go
  | GoAssembly | HIDL | HTML | Hare | Haskell | Haxe | JSON | Jakt | Java | JavaScript
  | Just | Koka | Kotlin | Lisp | Lua | M4 | Make | ManPage | Markdown | Mojo | Nim | Nroff
  | OCaml | Oak | ObjectPascal | Odin | Perl | PolicyLanguage | Prolog | Python
  | ReStructured | Rust | SQL | Scala | Shader | Shell | StandardML | Teal | Terra | Text
  | TypeScript | V | Vim | Zig
deriving DecidableEq, Repr

/-- The keyword table `syntax.Keywords`, a set of words, as its membership test. -/
abbrev Keywords := String → Bool

/-- The word list `asmWords` of `syntax.go`. -/
def asmWords : List String :=
  ["A0", "A1", "A2", "A3", "A4", "A5", "A6", "A7", "AC", "ADDWATCH", "ALIGN", "AUTO", "BAC0",
   "BAC1", "BAC2", "BAC3", "BAC4", "BAC5", "BAC6", "BAC7", "BAD0", "BAD1", "BAD2", "BAD3", "BAD4",
   "BAD5", "BAD6", "BAD7", "BASEREG", "BLK.B", "BLK.D", "BLK.L", "BLK.P", "BLK.S", "BLK.W",
   "BLK.X", "BUSCR", "CAAR", "CACR", "CAL", "CCR", "CMEXIT", "CNOP", "CRP", "D0", "D1", "D2", "D3",
   "D4", "D5", "D6", "D7", "DACR0", "DACR1", "DC.B", "DC.D", "DC.L", "DC.P", "DC.S", "DC.W",
   "DC.X", "DCB.B", "DCB.D", "DCB.L", "DCB.P", "DCB.S", "DCB.W", "DCB.X", "DFC", "DR.B", "DR.L",
   "DR.W", "DRP", "DS.B", "DS.D", "DS.L", "DS.P", "DS.S", "DS.W", "DS.X", "DTT0", "DTT1", "ELSE",
   "END", "ENDB", "ENDC", "ENDIF", "ENDM", "ENDOFF", "ENDR", "ENTRY", "EQU", "EQUC", "EQUD",
   "EQUP", "EQUR", "EQUS", "EQUX", "EREM", "ETEXT", "EVEN", "EXTERN", "EXTRN", "FAIL", "FILESIZE",
   "FP0", "FP1", "FP2", "FP3", "FP4", "FP5", "FP6", "FP7", "FPCR", "FPIAR", "FPSR", "FileSize",
   "GLOBAL", "IACR0", "IACR1", "IDNT", "IF1", "IF2", "IFB", "IFC", "IFD", "IFEQ", "IFGE", "IFGT",
   "IFLE", "IFLT", "IFNB", "IFNC", "IFND", "IFNE", "IMAGE", "INCBIN", "INCDIR", "INCIFF",
   "INCIFFP", "INCLUDE", "INCSRC", "ISP", "ITT0", "ITT1", "JUMPERR", "JUMPPTR", "LINEA", "LINEF",
   "LINE_A", "LINE_F", "LIST", "LLEN", "LOAD", "MACRO", "MASK2", "MEXIT", "MMUSR", "MSP", "NOLIST",
   "NOPAGE", "ODD", "OFFSET", "ORG", "PAGE", "PCR", "PCSR", "PLEN", "PRINTT", "PRINTV", "PSR",
   "REG", "REGF", "REM", "REPT", "RORG", "RS.B", "RS.L", "RS.W", "RSRESET", "RSSET", "SCC",
   "SECTION", "SET", "SETCPU", "SETFPU", "SETMMU", "SFC", "SP", "SPC", "SR", "SRP", "TC", "TEXT",
   "TT0", "TT1", "TTL", "URP", "USP", "VAL", "VBR", "XDEF", "XREF", "ZPC", "_start", "a0", "a1",
   "a2", "a3", "a4", "a5", "a6", "a7", "abcd", "add", "add", "adda", "addi", "addq", "addx", "and",
   "andi", "asl", "asr", "bcc", "bchg", "bclr", "bcs", "beq", "bge", "bgt", "bhi", "bhs", "bits",
   "ble", "blo", "bls", "blt", "bmi", "bne", "bpl", "bra", "bset", "bsr", "btst", "bvc", "bvs",
   "chk", "clr", "cmp", "cmpa", "cmpi", "cmpm", "d0", "d1", "d2", "d3", "d4", "d5", "d6", "d7",
   "db", "dbcc", "dbeq", "dbf", "dbra", "dd", "div", "divs", "divu", "dq", "dw", "eor", "eori",
   "equ", "exg", "ext", "global", "illegal", "inc", "int", "jmp", "jsr", "lea", "lea", "link",
   "lsl", "lsr", "mov", "move", "movea", "movem", "movep", "moveq", "muls", "mulu", "nbcd", "neg",
   "negx", "nop", "not", "or", "org", "ori", "out", "pea", "pop", "push", "reset", "rol", "rol",
   "ror", "ror", "roxl", "roxr", "rte", "rtr", "rts", "sbcd", "scc", "scs", "section", "seq", "sf",
   "sge", "sgt", "shi", "shl", "shr", "sle", "sls", "slt", "smi", "sne", "sp", "spl", "st", "stop",
   "sub", "sub", "suba", "subi", "subq", "subx", "svc", "svs", "swap", "syscall", "tas", "trap",
   "trapv", "tst", "unlk", "xor"]

/-- The word list `battlestarWords` of `syntax.go`. -/
def battlestarWords : List String :=
  ["address", "asm", "bootable", "break", "call", "chr", "const", "continue", "counter", "end",
   "exit", "extern", "fun", "funparam", "halt", "int", "len", "loop", "loopwrite", "mem",
   "membyte", "memdouble", "memword", "noret", "print", "rawloop", "read", "readbyte",
   "readdouble", "readword", "ret", "syscall", "sysparam", "use", "value", "var", "write"]

/-- The word list `clojureWords` of `syntax.go`. -/
def clojureWords : List String :=
  ["*1", "*2", "*3", "*agent*", "*clojure-version*", "*command-line-args*", "*compile-files*",
   "*compile-path*", "*e", "*err*", "*file*", "*in*", "*ns*", "*out*", "*print-dup*",
   "*print-length*", "*print-level*", "*print-meta*", "*print-readably*", "*warn on reflection*",
   "accessor", "aclone", "add-watch", "agent", "agent-error", "agent-errors", "aget", "alength",
   "alias", "all-ns", "alter", "alter-meta!", "alter-var-root", "amap", "ancestors", "and",
   "apply", "areduce", "array-map", "as->", "aset", "aset-boolean", "aset-byte", "aset-char",
   "aset-double", "aset-float", "aset-int", "aset-long", "aset-short", "assert", "assoc", "assoc",
   "assoc", "assoc!", "assoc-in", "associative?", "atom", "await", "await-for", "bases", "bean",
   "bigdec", "bigdec?", "bigint", "binding", "bit-and", "bit-and-not", "bit-clear", "bit-flip",
   "bit-not", "bit-or", "bit-set", "bit-shift-left", "bit-shift-right", "bit-test", "bit-xor",
   "boolean", "boolean-array", "booleans", "bound-fn", "bound-fn*", "bound?", "butlast", "byte",
   "byte-array", "bytes", "case", "cast", "catch", "char", "char-array", "char?", "chars", "class",
   "class?", "clojure-version", "coll?", "commute", "comp", "comparator", "compare",
   "compare-and-set!", "compile", "complement", "concat", "cond", "cond->", "cond->>", "condp",
   "conj", "conj", "conj", "conj", "conj", "conj!", "cons", "constantly", "construct-proxy",
   "contains?", "count", "count", "counted?", "create-ns", "create-struct", "cycle", "dec",
   "decimal?", "declare", "dedupe", "def", "definline", "defmacro", "defmoethod", "defmulti",
   "defn", "defonce", "defprotocol", "defrecord", "defstruct", "deftype", "delay", "delay?",
   "deliver", "denominator", "deref", "deref", "derive", "descendants", "disj", "disj!", "dissoc",
   "dissoc!", "distinct", "distinct?", "do", "eval", "doall", "doall", "dorun", "dorun", "doseq",
   "doseq", "dosync", "dotimes", "doto", "double", "double-array", "double?", "doubles", "drop",
   "drop-last", "drop-while", "eduction", "empty", "empty?", "ensure", "enumeration-seq",
   "error-handler", "error-mode", "even?", "every-pred", "every?", "extend", "extend-protocol",
   "extend-type", "extenders", "extends?", "false?", "ffirst", "file-seq", "filter", "filterv",
   "finally", "find", "find-ns", "find-var", "first", "first", "flatten", "float", "float-array",
   "float?", "floats", "flush", "fn", "fn?", "fnext", "fnil", "for", "for", "force", "format",
   "frequencies", "future", "future-call", "future-cancel", "future-cancelled?", "future-done?",
   "future?", "gen-class", "gen-interface", "gensym", "gensym", "get", "get", "get", "get", "get",
   "get-in", "get-method", "get-proxy-class", "get-thread-bindings", "get-validator", "group-by",
   "hash", "hash-map", "hash-set", "ident?", "identical?", "identity", "if", "if-let", "if-not",
   "if-some", "ifn?", "import", "in-ns", "inc", "init-proxy", "instance?", "int", "int-array",
   "int?", "integer?", "interleave", "intern", "intern", "interpose", "into", "into-array", "ints",
   "io!", "isa?", "isa?", "iterate", "iterate", "iterator-seq", "juxt", "keep", "keep-indexed",
   "key", "keys", "keyword", "keyword?", "last", "lazy-cat", "lazy-cat", "lazy-seq", "lazy-seq",
   "let", "letfn", "line-seq", "list", "list?", "load", "load-file", "load-reader", "load-string",
   "loaded-libs", "locking", "long", "long-array", "longs", "loop", "macroexpand", "macroexpand-1",
   "make-array", "make-hierarchy", "map", "map-indexed", "map?", "mapcat", "mapv", "max",
   "max-key", "memfn", "memoize", "merge", "merge-with", "meta", "methods", "min", "min-key",
   "mod", "name", "namespace", "namespace-munge", "nat-int?", "neg?", "newline", "next", "nfirst",
   "nil?", "nnext", "non-empty", "not", "not", "not-any?", "not-every?", "ns", "ns-aliases",
   "ns-imports", "ns-interns", "ns-map", "ns-name", "ns-publics", "ns-refers", "ns-resolve",
   "ns-resolve", "ns-unalias", "ns-unmap", "nth", "nthnext", "nthrest", "num", "number?",
   "numerator", "object-array", "odd?", "or", "parents", "partial", "partition", "partition-all",
   "partition-by", "pcalls", "peek", "peek", "persistent!", "pmap", "pop", "pop", "pop!",
   "pop-thread-bindings", "pos-int?", "pos?", "pr", "pr-str", "pr-str", "prefer-method", "prefers",
   "print", "print-str", "print-str", "printf", "println", "println-str", "println-str", "prn",
   "prn-str", "prn-str", "promise", "proxy", "proxy-mappings", "proxy-super",
   "push-thread-bindings", "pvalues", "qualified-ident?", "qualified-keyword?",
   "qualified-symbol?", "quot", "rand", "rand-int", "rand-nth", "random-sample", "range", "ratio?",
   "rational?", "rationalize", "re-find", "re-groups", "re-matcher", "re-matches", "re-pattern",
   "re-seq", "read", "read-line", "read-string", "recur", "reduce", "reduce-kv", "reductions",
   "ref", "ref-history-count", "ref-max-history", "ref-min-history", "ref-set", "refer",
   "refer-clojure", "reify", "release-pending", "rem", "remove", "remove-all-methods",
   "remove-method", "remove-ns", "remove-watch", "repeat", "repeatedly", "repeatedly", "replace",
   "replicate", "require", "reset!", "reset-meta!", "resolve", "rest", "rest", "restart-agent",
   "resultset-seq", "reverse", "reversible?", "rseq", "rseq", "rsubseq", "satisfies?", "second",
   "select-keys", "send", "send-off", "seq", "seq?", "seqable?", "seque", "sequence",
   "sequential?", "set", "set", "set!", "set-error-handler", "set-error-mode", "set-validator",
   "set?", "short", "short-array", "shorts", "shuffle", "shutdonw-agents", "simple-ident?",
   "simple-keyword?", "simple-symbol?", "slurp", "some", "some->", "some->>", "some-fn", "sort",
   "sort-by", "sorted-map", "sorted-map-by", "sorted-set", "sorted-set-by", "sorted?",
   "special-symbol?", "spit", "split-at", "split-with", "str", "string?", "struct", "struct-map",
   "subs", "subseq", "subvec", "supers", "swap!", "symbol", "symbol?", "sync", "take", "take-last",
   "take-nth", "take-while", "test", "the-ns", "thread-bound?", "throw", "time", "to-array",
   "to-array-2d", "trampoline", "transduce", "transient", "tree-seq", "true?", "try", "type",
   "underive", "update", "update-in", "update-proxy", "use", "val", "vals", "var", "var-get",
   "var?", "vec", "vector", "vector-of", "vector?", "very-meta", "volatile!", "vreset!", "vswap!",
   "when", "when-first", "when-let", "when-not", "when-some", "while", "with-bindings",
   "with-bindings*", "with-in-str", "with-local-vars", "with-meta", "with-open", "with-out-str",
   "with-out-str", "with-precision", "xml-seq", "zero?", "zipmap"]

/-- The word list `cmakeWords` of `syntax.go`. -/
def cmakeWords : List String :=
  ["add_compile_options", "add_custom_command", "add_custom_target", "add_definitions",
   "add_dependencies", "add_executable", "add_library", "add_subdirectory", "add_test",
   "build_command", "build_name", "cmake_host_system_information", "cmake_minimum_required",
   "cmake_parse_arguments", "cmake_policy", "configure_file", "create_test_sourcelist",
   "ctest_build", "ctest_configure", "ctest_coverage", "ctest_memcheck", "ctest_run_script",
   "ctest_start", "ctest_submit", "ctest_test", "ctest_update", "ctest_upload", "define_property",
   "enable_language", "endforeach", "endfunction", "endif", "exec_program", "execute_process",
   "export", "export_library_dependencies", "file", "find_file", "find_library", "find_package",
   "find_path", "find_program", "fltk_wrap_ui", "foreach", "function", "get_cmake_property",
   "get_directory_property", "get_filename_component", "get_property", "get_source_file_property",
   "get_target_property", "get_test_property", "if", "include", "include_directories",
   "include_external_msproject", "include_guard", "install", "install_files", "install_programs",
   "install_targets", "list", "load_cache", "load_command", "macro", "make_directory",
   "mark_as_advanced", "math", "message", "option", "project", "remove", "separate_arguments",
   "set", "set_directory_properties", "set_package_properties", "set_property",
   "set_source_files_properties", "set_target_properties", "set_tests_properties", "source_group",
   "string", "subdirs", "target_compile_definitions", "target_compile_features",
   "target_compile_options", "target_include_directories", "target_link_libraries",
   "target_sources", "try_compile", "try_run", "unset", "use_mangled_mesa", "variable_requires",
   "variable_watch", "while", "write_file"]

/-- The word list `csWords` of `syntax.go`. -/
def csWords : List String :=
  ["Boolean", "Byte", "Char", "Decimal", "Double", "Int16", "Int32", "Int64", "IntPtr", "Object",
   "Short", "Single", "String", "UInt16", "UInt32", "UInt64", "UIntPtr", "abstract", "as", "base",
   "bool", "break", "byte", "case", "catch", "char", "checked", "class", "const", "continue",
   "decimal", "default", "delegate", "do", "double", "dynamic", "else", "enum", "event",
   "explicit", "extern", "false", "finally", "fixed", "float", "for", "foreach", "goto", "if",
   "implicit", "in", "int", "interface", "internal", "is", "lock", "long", "namespace", "new",
   "nint", "nuint", "null", "object", "operator", "out", "override", "params", "readonly", "ref",
   "return", "sbyte", "sealed", "short", "sizeof", "stackalloc", "static", "string", "struct",
   "switch", "this", "throw", "true", "try", "typeof", "uint", "ulong", "unchecked", "unsafe",
   "ushort", "using", "virtual", "void", "volatile", "while"]

/-- The word list `dartWords` of `syntax.go`. -/
def dartWords : List String :=
  ["ArrayType", "BigInt", "DateTime", "Deprecated", "Double", "Duration", "Float", "Function",
   "Future", "Int16", "Int32", "Int64", "Int8", "Iterable", "List", "Map", "Null", "Object",
   "Pointer", "Queue", "Set", "Stream", "String", "Struct", "Uint16", "Uint32", "Uint64", "Uint8",
   "Uri", "Void", "abstract", "as", "assert", "async", "await", "bool", "break", "case", "catch",
   "class", "const", "continue", "covariant", "default", "deferred", "do", "double", "dynamic",
   "else", "enum", "export", "extends", "extension", "external", "factory", "false", "final",
   "finally", "for", "get", "hide", "if", "implements", "import", "in", "int", "interface", "is",
   "late", "library", "mixin", "new", "null", "num", "on", "operator", "override", "part",
   "required", "rethrow", "return", "set", "show", "static", "super", "switch", "sync", "this",
   "throw", "true", "try", "typedef", "var", "void", "while", "with", "yield"]

/-- The word list `emacsWords` of `syntax.go`. -/
def emacsWords : List String :=
  ["add-to-list", "defconst", "defun", "defvar", "if", "lambda", "let", "load", "nil", "require",
   "setq", "when"]

/-- The word list `fortran77Words` of `syntax.go`. -/
def fortran77Words : List String :=
  ["assign", "backspace", "block data", "call", "close", "common", "continue", "data", "dimension",
   "do", "else", "else if", "end", "endfile", "endif", "entry", "equivalence", "external",
   "format", "function", "goto", "if", "implicit", "inquire", "intrinsic", "open", "parameter",
   "pause", "print", "program", "read", "return", "rewind", "rewrite", "save", "stop",
   "subroutine", "then", "write"]

/-- The word list `fortran90Words` of `syntax.go`. -/
def fortran90Words : List String :=
  ["allocatable", "allocate", "assign", "backspace", "block data", "call", "case", "close",
   "common", "contains", "continue", "cycle", "data", "deallocate", "dimension", "do", "else",
   "else if", "elsewhere", "end", "endfile", "endif", "entry", "equivalence", "exit", "external",
   "format", "function", "goto", "if", "implicit", "include", "inquire", "intent", "interface",
   "intrinsic", "module", "namelist", "nullify", "only", "open", "operator", "optional",
   "parameter", "pause", "pointer", "print", "private", "procedure", "program", "public", "read",
   "recursive", "result", "return", "rewind", "rewrite", "save", "select", "sequence", "stop",
   "subroutine", "target", "then", "use", "where", "while", "write"]

/-- The word list `fsharpWords` of `syntax.go`. -/
def fsharpWords : List String :=
  ["abstract", "and", "as", "asr", "assert", "base", "begin", "break", "checked", "class",
   "component", "const", "const", "constraint", "continue", "default", "delegate", "do", "done",
   "downcast", "downto", "elif", "else", "end", "event", "exception", "extern", "external",
   "false", "finally", "fixed", "for", "fun", "function", "global", "if", "in", "include",
   "inherit", "inline", "interface", "internal", "land", "lazy", "let!", "let", "lor", "lsl",
   "lsr", "lxor", "match!", "match", "member", "mixin", "mod", "module", "mutable", "namespace",
   "new", "not", "null", "of", "open", "or", "override", "parallel", "private", "process",
   "protected", "public", "pure", "rec", "return!", "return", "sealed", "select", "sig", "static",
   "struct", "tailcall", "then", "to", "trait", "true", "try", "type", "upcast", "use!", "use",
   "val", "virtual", "void", "when", "while", "with", "yield!", "yield"]

/-- The word list `gdscriptWords` of `syntax.go`. -/
def gdscriptWords : List String :=
  ["as", "assert", "await", "break", "breakpoint", "class", "class_name", "const", "continue",
   "elif", "else", "enum", "export", "extends", "for", "func", "if", "INF", "is", "master",
   "mastersync", "match", "NAN", "onready", "pass", "PI", "preload", "puppet", "puppetsync",
   "remote", "remotesync", "return", "self", "setget", "signal", "static", "TAU", "tool", "var",
   "while", "yield"]

/-- The word list `haxeWords` of `syntax.go`. -/
def haxeWords : List String :=
  ["abstract", "break", "case", "cast", "catch", "class", "continue", "default", "do", "dynamic",
   "else", "enum", "extends", "extern", "false", "final", "for", "function", "if", "implements",
   "import", "in", "inline", "interface", "macro", "new", "null", "operator", "overload",
   "override", "package", "private", "public", "return", "static", "switch", "this", "throw",
   "true", "try", "typedef", "untyped", "using", "var", "while"]

/-- The word list `hidlWords` of `syntax.go`. -/
def hidlWords : List String :=
  ["constexpr", "enum", "extends", "generates", "import", "interface", "oneway", "package",
   "safe_union", "struct", "typedef", "union"]

/-- The word list `justWords` of `syntax.go`. -/
def justWords : List String :=
  ["absolute_path", "arch", "capitalize", "clean", "env_var", "env_var_or_default", "error",
   "extension", "file_name", "file_stem", "include", "invocation_directory",
   "invocation_directory_native", "join", "just_executable", "justfile", "justfile_directory",
   "kebabcase", "lowercamelcase", "lowercase", "os", "os_family", "parent_directory",
   "path_exists", "quote", "replace", "replace_regex", "sha256", "sha256_file", "shoutykebabcase",
   "shoutysnakecase", "snakecase", "titlecase", "trim", "trim_end", "trim_end_match",
   "trim_end_matches", "trim_start", "trim_start_match", "trim_start_matches", "uppercamelcase",
   "uppercase", "uuid", "without_extension"]

/-- The word list `kokaWords` of `syntax.go`. -/
def kokaWords : List String :=
  ["abstract", "alias", "as", "behind", "break", "c", "co", "con", "continue", "cs", "ctl",
   "effect", "elif", "else", "exists", "extend", "extern", "file", "final", "finally", "fn",
   "forall", "fun", "handle", "handler", "if", "import", "in", "infix", "infixl", "infixr",
   "initially", "inline", "interface", "js", "linear", "mask", "match", "module", "named",
   "noinline", "open", "override", "pub", "raw", "rec", "reference", "return", "some", "struct",
   "then", "type", "unsafe", "val", "value", "var", "with"]

/-- The word list `kotlinWords` of `syntax.go`. -/
def kotlinWords : List String :=
  ["as", "break", "by", "catch", "class", "continue", "do", "else", "false", "for", "fun", "if",
   "import", "in", "interface", "is", "null", "object", "override", "package", "return", "super",
   "this", "throw", "true", "try", "typealias", "typeof", "val", "var", "when", "while"]

/-- The word list `luaWords` of `syntax.go`. -/
def luaWords : List String :=
  ["and", "break", "do", "else", "elseif", "end", "false", "for", "function", "goto", "if", "in",
   "local", "nil", "not", "or", "repeat", "return", "then", "true", "until", "while"]

/-- The word list `objPasWords` of `syntax.go`. -/
def objPasWords : List String :=
  ["AND", "Array", "Boolean", "Byte", "CASE", "CONST", "Char", "DO", "ELSE", "FOR", "FUNCTION",
   "IF", "Integer", "LABEL", "NOT", "OF", "PROCEDURE", "PROGRAM", "Pointer", "RECORD", "REPEAT",
   "Repeat", "String", "THEN", "TO", "TYPE", "Text", "UNTIL", "USES", "VAR", "Word", "do",
   "downto", "function", "nil", "of", "procedure", "program", "then", "to", "uses"]

/-- The word list `ocamlWords` of `syntax.go`. -/
def ocamlWords : List String :=
  ["and", "as", "assert", "asr", "begin", "class", "constraint", "do", "done", "downto", "else",
   "end", "exception", "external", "false", "for", "fun", "function", "functor", "if", "in",
   "include", "inherit", "initializer", "land", "lazy", "let", "lor", "lsl", "lsr", "lxor",
   "match", "method", "mod", "module", "mutable", "new", "nonrec", "object", "of", "open", "or",
   "private", "rec", "sig", "struct", "then", "to", "true", "try", "type", "val", "virtual",
   "when", "while", "with"]

/-- The word list `odinWords` of `syntax.go`. -/
def odinWords : List String :=
  ["align_of", "auto_cast", "bit_field", "bit_set", "break", "case", "cast", "const", "context",
   "continue", "defer", "distinct", "do", "do", "dynamic", "else", "enum", "fallthrough", "for",
   "foreign", "if", "import", "in", "inline", "macro", "map", "no_inline", "notin", "offset_of",
   "opaque", "package", "proc", "return", "size_of", "struct", "switch", "transmute", "type_of",
   "union", "using", "when"]

/-- The word list `policyLanguageWords` of `syntax.go`. -/
def policyLanguageWords : List String :=
  ["alias", "allow", "and", "attribute", "attribute_role", "auditallow", "auditdeny", "bool",
   "category", "cfalse", "class", "clone", "common", "constrain", "ctrue", "default_range",
   "default_role", "default_type", "default_user", "dom", "domby", "dominance", "dontaudit",
   "else", "equals", "false", "filename", "filesystem", "fscon", "fs_use_task", "fs_use_trans",
   "fs_use_xattr", "genfscon", "h1", "h2", "high", "identifier", "if", "incomp", "inherits",
   "iomemcon", "ioportcon", "ipv4_addr", "ipv6_addr", "l1", "l2", "level", "low", "low_high",
   "mlsconstrain", "mlsvalidatetrans", "module", "netifcon", "neverallow", "nodecon", "not",
   "notequal", "number", "object_r", "optional", "or", "path", "pcidevicecon", "permissive",
   "pirqcon", "policycap", "portcon", "r1", "r2", "r3", "range", "range_transition", "require",
   "role", "roleattribute", "roles", "role_transition", "sameuser", "sensitivity", "sid", "source",
   "t1", "t2", "t3", "target", "true", "type", "typealias", "typeattribute", "typebounds",
   "type_change", "type_member", "types", "type_transition", "u1", "u2", "u3", "user",
   "validatetrans", "version_identifier", "xor"]

/-- The word list `scalaWords` of `syntax.go`. -/
def scalaWords : List String :=
  ["abstract", "case", "catch", "class", "def", "do", "else", "extends", "false", "final",
   "finally", "for", "forSome", "if", "implicit", "import", "lazy", "match", "new", "null",
   "object", "override", "package", "private", "protected", "return", "sealed", "super", "this",
   "throw", "trait", "try", "true", "type", "val", "var", "while", "with", "yield"]

/-- The word list `zigWords` of `syntax.go`. -/
def zigWords : List String :=
  ["Frame", "OpaqueType", "TagType", "This", "Type", "TypeOf", "Vector", "addWithOverflow",
   "align", "alignCast", "alignOf", "allowzero", "and", "anyerror", "anyframe", "as", "asm",
   "async", "asyncCall", "atomicLoad", "atomicRmw", "atomicStore", "await", "bitCast",
   "bitOffsetOf", "bitReverse", "bitSizeOf", "bool", "boolToInt", "break", "breakpoint",
   "byteOffsetOf", "byteSwap", "bytesToSlice", "cDefine", "cImport", "cInclude", "cUndef", "c_int",
   "c_long", "c_longdouble", "c_longlong", "c_short", "c_uint", "c_ulong", "c_ulonglong",
   "c_ushort", "c_void", "call", "callconv", "canImplicitCast", "catch", "ceil", "clz",
   "cmpxchgStrong", "cmpxchgWeak", "compileError", "compileLog", "comptime", "comptime_float",
   "comptime_int", "const", "continue", "cos", "ctz", "defer", "divExact", "divFloor", "divTrunc",
   "else", "embedFile", "enum", "enumToInt", "errSetCast", "errdefer", "error", "errorName",
   "errorReturnTrace", "errorToInt", "exp", "exp2", "export", "export", "extern", "f128", "f16",
   "f32", "f64", "fabs", "false", "fence", "field", "fieldParentPtr", "floatCast", "floatToInt",
   "floor", "fn", "for", "frame", "frameAddress", "frameSize", "hasDecl", "hasField", "i0", "if",
   "import", "inline", "intCast", "intToEnum", "intToError", "intToFloat", "intToPtr", "isize",
   "linksection", "log", "log10", "log2", "memcpy", "memset", "mod", "mulWithOverflow",
   "newStackCall", "noalias", "noinline", "noreturn", "nosuspend", "null", "or", "orelse",
   "packed", "panic", "popCount", "ptrCast", "ptrToInt", "pub", "rem", "resume", "return",
   "returnAddress", "round", "setAlignStack", "setCold", "setEvalBranchQuota", "setFloatMode",
   "setGlobalLinkage", "setGlobalSection", "setRuntimeSafety", "shlExact", "shlWithOverflow",
   "shrExact", "shuffle", "sin", "sizeOf", "sliceToBytes", "splat", "sqrt", "struct",
   "subWithOverflow", "suspend", "switch", "tagName", "test", "threadlocal", "true", "trunc",
   "truncate", "try", "type", "typeInfo", "typeName", "u0", "undefined", "union", "unionInit",
   "unreachable", "usingnamespace", "usize", "var", "void", "volatile", "while"]

/-- The word list `dWords` of `syntax.go`. -/
def dWords : List String :=
  ["abstract", "alias", "align", "asm", "assert", "auto", "body", "bool", "break", "byte", "case",
   "cast", "catch", "cdouble", "cent", "cfloat", "char", "class", "const", "continue", "creal",
   "dchar", "debug", "default", "delegate", "delete", "deprecated", "do", "double", "else", "enum",
   "export", "extern", "false", "__FILE__", "__FILE_FULL_PATH__", "final", "finally", "float",
   "for", "foreach", "foreach_reverse", "__FUNCTION__", "function", "goto", "__gshared", "idouble",
   "if", "ifloat", "immutable", "import", "in", "inout", "int", "interface", "invariant", "ireal",
   "is", "lazy", "__LINE__", "long", "macro", "mixin", "__MODULE__", "module", "new", "nothrow",
   "null", "out", "override", "package", "__parameters", "pragma", "__PRETTY_FUNCTION__",
   "private", "protected", "public", "pure", "real", "ref", "return", "scope", "shared", "short",
   "static", "struct", "super", "switch", "synchronized", "template", "this", "throw", "__traits",
   "true", "try", "typeid", "typeof", "ubyte", "ucent", "uint", "ulong", "union", "unittest",
   "ushort", "__vector", "version", "void", "wchar", "while", "with"]

/-- The word list `smlWords` of `syntax.go`. -/
def smlWords : List String :=
  ["abstype", "and", "andalso", "as", "case", "do", "datatype", "else", "end", "eqtype",
   "exception", "fn", "fun", "functor", "handle", "if", "in", "include", "infix", "infixr", "let",
   "local", "nonfix", "of", "op", "open", "orelse", "raise", "rec", "sharing", "sig", "signature",
   "struct", "structure", "then", "type", "val", "where", "with", "withtype", "while"]

/-- The word list `erlangWords` of `syntax.go`. -/
def erlangWords : List String :=
  ["after", "and", "andalso", "band", "begin", "bnot", "bor", "bsl", "bsr", "bxor", "case",
   "catch", "cond", "div", "end", "fun", "if", "let", "not", "of", "or", "orelse", "receive",
   "rem", "try", "when", "xor"]

/-- The embedding of `clearKeywords`: the table becomes the empty set. -/
def clearKeywords (_ : Keywords) : Keywords := fun _ => false

/-- The embedding of `addKeywords`: every word of the list is put into the table. -/
def addKeywords (ws : List String) (t : Keywords) : Keywords :=
  fun w => decide (w ∈ ws) || t w

/-- The embedding of `removeKeywords`: every word of the list is deleted from the table. -/
def removeKeywords (ws : List String) (t : Keywords) : Keywords :=
  fun w => !decide (w ∈ ws) && t w

/-- The embedding of the variadic `addAndRemoveKeywords`: the first argument, if any, is
added, then the second, if any, is removed. -/
def addAndRemoveKeywords (args : List (List String)) (t : Keywords) : Keywords :=
  let t1 := match args with
    | a :: _ => addKeywords a t
    | [] => t
  match args with
  | _ :: dl :: _ => removeKeywords dl t1
  | _ => t1

/-- The embedding of the variadic `setKeywords`: clear, then add and remove. -/
def setKeywords (args : List (List String)) (t : Keywords) : Keywords :=
  addAndRemoveKeywords args (clearKeywords t)

/-- The `default` case of `adjustSyntaxHighlightingKeywords`. -/
def defaultCase (t : Keywords) : Keywords :=
  addAndRemoveKeywords
    [["elif", "endif", "ifeq", "ifneq"],
     ["build", "done", "package", "require", "set", "super", "type", "when"]] t

/-- The case `Arduino, C, Cpp`, which falls through to the `default` case. -/
def cCase (t : Keywords) : Keywords :=
  defaultCase (addAndRemoveKeywords
    [["int8_t", "uint8_t", "int16_t", "uint16_t", "int32_t", "uint32_t", "int64_t",
      "uint64_t", "size_t"], ["static"]] t)

/-- The case `Java`, which the case `AIDL` falls through to. -/
def javaCase (t : Keywords) : Keywords :=
  addAndRemoveKeywords [["package"], ["add", "bool", "get", "in", "local", "sub"]] t

/-- The case `Make, Shell`, which the case `Just` falls through to; `install` is removed
for shell scripts only. -/
def makeShellCase (m : Mode) (t : Keywords) : Keywords :=
  addAndRemoveKeywords
    [["--force", "-f", "checkout", "clean", "cmake", "configure", "dd", "do", "doas", "done",
      "endif", "exec", "fdisk", "for", "gdisk", "ifeq", "ifneq", "in", "make", "mv", "ninja",
      "rm", "rmdir", "setopt", "su", "sudo", "while"],
     ["#else", "#endif", "as", "build", "default", "del", "double", "exec", "finally", "float",
      "fn", "generic", "get", "long", "new", "no", "package", "pass", "print", "property",
      "require", "ret", "set", "super", "super", "template", "type", "var", "with"]
       ++ (if m = Mode.Shell then ["install"] else [])] t

/-- The case `Garnet, Hare, Jakt, Rust`; `end` is removed unless the mode is Garnet. -/
def rustCase (m : Mode) (t : Keywords) : Keywords :=
  addAndRemoveKeywords
    [["String", "assert_eq", "char", "fn", "i16", "i32", "i64", "i8", "impl", "loop", "mod",
      "out", "panic", "u16", "u32", "u64", "u8", "usize"],
     ["as", "build", "byte", "done", "foreach", "get", "int", "int16", "int32", "int64",
      "last", "map", "mut", "next", "pass", "print", "uint16", "uint32", "uint64", "var"]
       ++ (if m ≠ Mode.Garnet then ["end"] else [])] t

/-- The embedding of `adjustSyntaxHighlightingKeywords`, as a function of the table.
`strings.ToUpper` is `String.toUpper`, which agrees with it on the ASCII words of
`fortran77Words`. -/
def adjustSyntaxHighlightingKeywords (m : Mode) (t : Keywords) : Keywords :=
  match m with
  | Mode.Ada => addKeywords ["constant", "loop", "procedure", "project"] t
  | Mode.Assembly => setKeywords [asmWords] t
  | Mode.Battlestar => setKeywords [battlestarWords] t
  | Mode.Clojure => setKeywords [clojureWords] t
  | Mode.CMake => addAndRemoveKeywords [cmakeWords, ["build", "package"]] t
  | Mode.Config =>
    addKeywords ["DB_PASSWORD", "PASSWORD", "POSTGRES_PASSWORD", "Password", "SECRET",
      "SECRETS", "Secret", "Secrets", "password", "secret", "secrets"]
      (removeKeywords ["auto", "default", "from", "install", "int", "local", "no", "not",
        "type", "var"] t)
  | Mode.CS => setKeywords [csWords] t
  | Mode.D => setKeywords [dWords] t
  | Mode.Dart => setKeywords [dartWords] t
  | Mode.Erlang => setKeywords [erlangWords] t
  | Mode.Fortran77 =>
    addKeywords (fortran77Words.map String.toUpper) (setKeywords [fortran77Words] t)
  | Mode.Fortran90 => setKeywords [fortran90Words] t
  | Mode.FSharp => setKeywords [fsharpWords] t
  | Mode.GDScript => setKeywords [gdscriptWords] t
  | Mode.Go =>
    addAndRemoveKeywords
      [["defer", "error", "fallthrough", "func", "go", "import", "package", "print",
        "println", "range", "rune", "string", "uint", "uint16", "uint32", "uint64", "uint8"],
       ["False", "None", "True", "assert", "auto", "build", "char", "class", "def", "def",
        "del", "die", "done", "end", "fi", "final", "finally", "fn", "foreach", "from", "get",
        "in", "include", "is", "last", "let", "match", "mut", "next", "no", "pass", "redo",
        "rescue", "ret", "retry", "set", "template", "then", "this", "when", "where", "while",
        "yes"]] t
  | Mode.Haxe => setKeywords [haxeWords] t
  | Mode.HIDL => setKeywords [hidlWords] t
  | Mode.AIDL => javaCase (addKeywords ("interface" :: hidlWords) t)
  | Mode.Java => javaCase t
  | Mode.JSON => removeKeywords ["install"] t
  | Mode.Koka => setKeywords [kokaWords] t
  | Mode.Kotlin => setKeywords [kotlinWords] t
  | Mode.Lisp => setKeywords [emacsWords] t
  | Mode.Lua | Mode.Teal | Mode.Terra => setKeywords [luaWords] t
  | Mode.Nroff =>
    setKeywords
      [["B", "BR", "PP", "SH", "TP", "fB", "fI", "fP", "RB", "TH", "IR", "IP", "fI", "fR"],
       ["class"]] t
  | Mode.ManPage => clearKeywords t
  | Mode.ObjectPascal => addKeywords objPasWords t
  | Mode.Oak => addAndRemoveKeywords [["fn"], ["from", "new", "print"]] t
  | Mode.Python | Mode.Nim | Mode.Mojo =>
    removeKeywords ["append", "exit", "fn", "get", "package", "print"] t
  | Mode.Odin => setKeywords [odinWords] t
  | Mode.PolicyLanguage => setKeywords [policyLanguageWords] t
  | Mode.Garnet | Mode.Hare | Mode.Jakt | Mode.Rust => rustCase m t
  | Mode.Scala => setKeywords [scalaWords] t
  | Mode.OCaml => setKeywords [ocamlWords] t
  | Mode.Elm | Mode.StandardML => setKeywords [smlWords] t
  | Mode.SQL => addKeywords ["NOT"] t
  | Mode.Vim =>
    addKeywords ["call", "echo", "elseif", "endfunction", "map", "nmap", "redraw"] t
  | Mode.Zig => setKeywords [zigWords, ["log"]] t
  | Mode.GoAssembly =>
    setKeywords
      [["cap", "close", "complex", "complex128", "complex64", "copy", "db", "dd", "dw",
        "imag", "int", "len", "panic", "real", "recover", "resb", "resd", "resw", "section",
        "syscall", "uintptr"]] t
  | Mode.Just => makeShellCase m (addKeywords justWords t)
  | Mode.Make | Mode.Shell => makeShellCase m t
  | Mode.Shader =>
    cCase (addKeywords
      ["buffer", "bvec2", "bvec3", "bvec4", "coherent", "dvec2", "dvec3", "dvec4", "flat",
       "in", "inout", "invariant", "ivec2", "ivec3", "ivec4", "layout", "mat", "mat2", "mat3",
       "mat4", "noperspective", "out", "precision", "readonly", "restrict", "smooth",
       "uniform", "uvec2", "uvec3", "uvec4", "vec2", "vec3", "vec4", "volatile", "writeonly"]
      t)
  | Mode.Arduino | Mode.C | Mode.Cpp => cCase t
  | _ => defaultCase t

/-- The modes whose case starts by replacing the table (`setKeywords`, `clearKeywords`). -/
def resetsTable (m : Mode) : Bool :=
  match m with
  | Mode.Assembly | Mode.Battlestar | Mode.Clojure | Mode.CS | Mode.D | Mode.Dart
  | Mode.Erlang | Mode.Fortran77 | Mode.Fortran90 | Mode.FSharp | Mode.GDScript | Mode.Haxe
  | Mode.HIDL | Mode.Koka | Mode.Kotlin | Mode.Lisp | Mode.Lua | Mode.Teal | Mode.Terra
  | Mode.Nroff | Mode.ManPage | Mode.Odin | Mode.PolicyLanguage | Mode.Scala | Mode.OCaml
  | Mode.Elm | Mode.StandardML | Mode.Zig | Mode.GoAssembly => true
  | _ => false

/-- The fields of the `Editor` of `v2` that `NewEditor` and the search functions read or
assign: the line accessor `e.Line`, `e.Len()`, the cursor as returned by `e.DataY()` and
`e.DataX()` (`none` is its error), the search term, the line to return to, the columns
per tab `e.indentation.PerTab`, the mode and the flags. -/
structure Editor where
  Line : Int → GoString
  Len : Nat
  DataY : Int
  DataX : Option Nat
  searchTerm : GoString
  lineBeforeSearch : Int
  PerTab : Int
  mode : Mode
  syntaxHighlight : Bool
  rainbowParenthesis : Bool
  readOnly : Bool
  slowLoad : Bool

/-- Go `strings.Index` as an `int`: `-1` when there is no occurrence. -/
def IndexInt (s sep : GoString) : Int :=
  match Index s sep with
  | some i => (i : Int)
  | none => -1

/-- The body of the loop of `forwardSearch` and `backwardSearch` for line `y`: the byte
offset found on that line, if the line gives a match. -/
def searchLine (e : Editor) (y : Int) : Option Int :=
  let s := e.searchTerm
  let lineContents := e.Line y
  if y = e.DataY then
    match e.DataX with
    | none => none
    | some x0 =>
      let x := x0 + 1
      if x ≥ lineContents.length then none
      else if Contains (lineContents.drop x) s = true then
        some ((x : Int) + IndexInt (lineContents.drop x) s)
      else none
  else if Contains lineContents s = true then some (IndexInt lineContents s)
  else none

/-- The loop `for y := startIndex; y < stopIndex; y++` of `forwardSearch`, with `n` lines
left to visit from `y` on. -/
def forwardLoop (e : Editor) : Nat → Int → Int × Int
  | 0, _ => (-1, -1)
  | n + 1, y =>
    match searchLine e y with
    | some x => (x, y)
    | none => forwardLoop e n (y + 1)

/-- The embedding of `Editor.forwardSearch`: `(foundX, foundY)`. -/
def forwardSearch (e : Editor) (startIndex stopIndex : Int) : Int × Int :=
  if e.searchTerm = [] then (-1, -1)
  else forwardLoop e (stopIndex - startIndex).toNat startIndex

/-- The loop `for y := startIndex; y >= stopIndex; y--` of `backwardSearch`, with `n` lines
left to visit from `y` down. -/
def backwardLoop (e : Editor) : Nat → Int → Int × Int
  | 0, _ => (-1, -1)
  | n + 1, y =>
    match searchLine e y with
    | some x => (x, y)
    | none => backwardLoop e n (y - 1)

/-- The embedding of `Editor.backwardSearch`: `(foundX, foundY)`. -/
def backwardSearch (e : Editor) (startIndex stopIndex : Int) : Int × Int :=
  if e.searchTerm.length = 0 then (-1, -1)
  else backwardLoop e (startIndex - stopIndex + 1).toNat startIndex

/-- What a call of `GoToNextMatch` returns and does: the error (`none` is `nil`), the
targets of its calls of `e.GoTo` in order, and the value it assigns to `e.pos.sx`, if
any. -/
structure NextMatch where
  err : Option String
  gotoCalls : List Int
  sx : Option Int
deriving DecidableEq, Repr

/-- The first search of `GoToNextMatch`, from the current line in the given direction. -/
def directionalSearch (e : Editor) (forward : Bool) : Int × Int :=
  if forward then forwardSearch e e.DataY e.Len else backwardSearch e e.DataY 0

/-- The second search of `GoToNextMatch`, from the top or from the bottom. -/
def wrappedSearch (e : Editor) (forward : Bool) : Int × Int :=
  if forward then forwardSearch e 0 e.Len else backwardSearch e e.Len 0

/-- The embedding of `Editor.GoToNextMatch`. -/
def GoToNextMatch (e : Editor) (wrap forward : Bool) : NextMatch :=
  if e.searchTerm = [] then { err := none, gotoCalls := [], sx := none }
  else
    let found := directionalSearch e forward
    let found := if found.2 = -1 ∧ wrap = true then wrappedSearch e forward else found
    if found.2 = -1 then
      { err := some "no search match", gotoCalls := [e.lineBeforeSearch], sx := none }
    else
      { err := none, gotoCalls := [found.2],
        sx := if found.1 ≠ -1 then
            some (found.1 + (Count (e.Line found.2) [0x09] : Nat) * (e.PerTab - 1))
          else none }

/-- The collaborators of `NewEditor`: the mode detection, the constructor
`NewCustomEditor` (from the rainbow flag, the mode and the highlighting flag), the file
system (`os.Stat` succeeds, the file is a directory, it can be opened for writing, the
test file can be removed, the name starts with `/usr/share/doc`), the editor methods
`Load`, `PrepareEmpty` and `Save` (`none` is an error), `Empty`, the detection
`mode.DetectFromContents(e.mode, firstLine, e.String)` as a function of the editor, and
`finish`, which stands for everything `NewEditor` does after the last switch on the
mode. -/
structure NewEditorEnv where
  Detect : String → Mode
  hasExt : String → Bool
  NewCustomEditor : Bool → Mode → Bool → Editor
  statOk : Bool
  isDir : Bool
  Load : Editor → Option Editor
  Empty : Editor → Bool
  DetectFromContents : Editor → Mode × Bool
  canOpenForWriting : Bool
  docPrefix : Bool
  PrepareEmpty : Editor → Option (Editor × Mode)
  Save : Editor → Option Editor
  removeOk : Bool
  finish : Editor → Editor

/-- The switch `case mode.Markdown, mode.Text, mode.Blank: e.rainbowParenthesis = false`. -/
def disableRainbowForProse (e : Editor) : Editor :=
  match e.mode with
  | Mode.Markdown | Mode.Text | Mode.Blank => { e with rainbowParenthesis := false }
  | _ => e

/-- The branch of `NewEditor` for a file that exists: load it, look at its first line for
the mode, and test whether it can be written. -/
def loadExisting (x : NewEditorEnv) (e : Editor) : Option Editor :=
  if x.isDir then none
  else
    match x.Load e with
    | none => none
    | some e =>
      let e :=
        if !x.Empty e then
          let r := x.DetectFromContents e
          let e := if r.2 ∧ r.1 ≠ Mode.Blank then { e with mode := r.1 } else e
          if e.mode = Mode.Config then { e with syntaxHighlight := true } else e
        else e
      if !e.slowLoad then
        if !x.canOpenForWriting then
          let e := { e with readOnly := true }
          some (if !x.docPrefix then { e with syntaxHighlight := false } else e)
        else some e
      else some e

/-- The branch of `NewEditor` for a file that does not exist yet. -/
def prepareNew (x : NewEditorEnv) (e : Editor) : Option Editor :=
  match x.PrepareEmpty e with
  | none => none
  | some (e, newMode) =>
    let e := if newMode ≠ Mode.Blank then { e with mode := newMode } else e
    match x.Save e with
    | none => none
    | some e => if !x.removeOk then none else some e

/-- The embedding of `NewEditor`, for the mode and the flags of the editor it returns;
`none` stands for the returns with an error. -/
def NewEditor (x : NewEditorEnv) (filename : String) (origSyntaxHighlight : Bool) :
    Option Editor :=
  let m := x.Detect filename
  let syntaxHighlight :=
    origSyntaxHighlight && decide (m ≠ Mode.Text)
      && (decide (m ≠ Mode.Blank) || x.hasExt filename)
  let rainbowParenthesis :=
    match m with
    | Mode.Markdown | Mode.Text | Mode.Blank => false
    | _ => syntaxHighlight
  let readOnly := decide (m = Mode.ManPage)
  let e := x.NewCustomEditor rainbowParenthesis m syntaxHighlight
  let e := if readOnly then { e with readOnly := true } else e
  match (if x.statOk then loadExisting x e else prepareNew x e) with
  | none => none
  | some e => some (x.finish (disableRainbowForProse e))

/-- The text `s` stands at byte offset `x` of the line. -/
def occursAt (line s : GoString) (x : Nat) : Prop := HasPrefix (line.drop x) s = true

/-- An occurrence of the search term at offset `x` of line `y` counts for the forward
search: on the line of the cursor only offsets after the byte position of the cursor
do. -/
def counts (e : Editor) (y : Int) (x : Nat) : Prop :=
  occursAt (e.Line y) e.searchTerm x ∧ (y = e.DataY → ∃ x0, e.DataX = some x0 ∧ x0 < x)

/-- An editor over the given lines with the cursor at byte `dataX` of line `dataY`, in Go
mode, for evaluating the search. -/
def sampleSearchEditor (lines : List GoString) (dataY : Int) (dataX : Nat)
    (searchTerm : GoString) : Editor where
  Line := fun i => if i < 0 then [] else lines.getD i.toNat []
  Len := lines.length
  DataY := dataY
  DataX := some dataX
  searchTerm := searchTerm
  lineBeforeSearch := dataY
  PerTab := 4
  mode := Mode.Go
  syntaxHighlight := true
  rainbowParenthesis := true
  readOnly := false
  slowLoad := false

/-- Collaborators of `NewEditor` for a file that exists and can be written, whose name is
detected as Go and whose contents are detected as Markdown. -/
def sampleEnv : NewEditorEnv where
  Detect := fun _ => Mode.Go
  hasExt := fun _ => true
  NewCustomEditor := fun rp m sh =>
    { sampleSearchEditor [[0x23, 0x20, 0x61]] 0 0 [] with
      mode := m, syntaxHighlight := sh, rainbowParenthesis := rp }
  statOk := true
  isDir := false
  Load := fun e => some e
  Empty := fun _ => false
  DetectFromContents := fun _ => (Mode.Markdown, true)
  canOpenForWriting := true
  docPrefix := false
  PrepareEmpty := fun e => some (e, Mode.Blank)
  Save := fun e => some e
  removeOk := true
  finish := fun e => e

/-- A change of the keyword table that decides each word on its own: a word is in the new
table when it was in the old one and `k` keeps it, or when `g` puts it there. Every case of
`adjustSyntaxHighlightingKeywords` is of this shape. -/
def WordWise (f : Keywords → Keywords) : Prop :=
  ∃ k g : String → Bool, ∀ (t : Keywords) (w : String), f t w = ((t w && k w) || g w)

/-! ### The search history (`v2/seahist_test.go`) -/

/-- Modelled from the spec: the type `SearchHistory` of `v2`, which `seahist_test.go` uses
and whose source is not among the files. Its field `entries` maps a time stamp to a search
term; here it is the list of the pairs of the map, a time stamp being an integer (a later
time is a greater number). The time stamps of a map are distinct. -/
structure SearchHistory where
  entries : List (Int × String)

/-- Modelled from the spec: the entries from the newest time stamp to the oldest. -/
def SearchHistory.newestToOldest (sh : SearchHistory) : List (Int × String) :=
  sh.entries.insertionSort (fun a b => b.1 ≤ a.1)

/-- Modelled from the spec: `SearchHistory.Len`, the number of entries. -/
def SearchHistory.Len (sh : SearchHistory) : Nat := sh.entries.length

/-- Modelled from the spec: `SearchHistory.KeepNewest`, which keeps the `n` entries with
the newest time stamps and drops the others. -/
def SearchHistory.KeepNewest (sh : SearchHistory) (n : Nat) : SearchHistory :=
  ⟨sh.newestToOldest.take n⟩

/-- Modelled from the spec: `SearchHistory.GetIndex` for an index that is not negative. With
`newestFirst` the entries are counted from the newest one, without it from the oldest
one; an index past the last entry gives the empty string. -/
def SearchHistory.GetIndex (sh : SearchHistory) (i : Nat) (newestFirst : Bool) : String :=
  let ordered := if newestFirst then sh.newestToOldest else sh.newestToOldest.reverse
  match ordered[i]? with
  | some entry => entry.2
  | none => ""

/-- The history that `TestGetIndex` and `TestKeepNewest` build: three searches, one, two
and three hours before now (time stamps in hours relative to now). -/
def sampleHistory : SearchHistory :=
  ⟨[(-2, "search2"), (-1, "search1"), (-3, "search3")]⟩

end V2

/-! ## File type detection (`ftdetect.go`) and `utils.go` -/

/-- The bytes of an ASCII string literal of the source. -/
def str (s : String) : GoString := s.toList.map Char.toNat

/-- The last path element, read from the reversed path: the bytes up to the first `/`. -/
def lastElementRev : GoString → GoString
  | [] => []
  | c :: rest => if c = 0x2F then [] else c :: lastElementRev rest

/-- Go `filepath.Base` on a system whose separator is `/`: trailing slashes are dropped,
the last element is taken; the empty path gives `.`, a path of slashes only gives `/`. -/
def Base (path : GoString) : GoString :=
  if path = [] then [0x2E]
  else
    let stripped := (path.reverse.dropWhile fun c => c = 0x2F)
    let b := (lastElementRev stripped).reverse
    if b = [] then [0x2F] else b

/-- Worker of `Ext` on the reversed path: the extension, from its dot on, when a dot comes
before any `/`. -/
def extRev : GoString → GoString
  | [] => []
  | c :: rest =>
    if c = 0x2F then []
    else if c = 0x2E then [c]
    else
      let e := extRev rest
      if e = [] then [] else e ++ [c]

/-- Go `filepath.Ext`: the suffix of the last path element that starts at its last dot,
empty when there is no dot. -/
def Ext (path : GoString) : GoString := extRev path.reverse

/-- The embedding of `hasS`. -/
def hasS (sl : List GoString) (s : GoString) : Bool :=
  match sl with
  | [] => false
  | e :: rest => if e = s then true else hasS rest s

/-- The configuration file names without an extension, `configFilenames`. -/
def configFilenames : List GoString :=
  [str "fstab", str "config", str "BUILD", str "WORKSPACE", str "passwd", str "group",
   str "environment", str "shadow", str "gshadow", str "hostname", str "hosts", str "issue",
   str "mirrorlist"]

/-- The first case of the switch of `detectEditorMode`: a Git commit or rebase file. -/
def isGitFile (baseFilename : GoString) : Bool :=
  decide (baseFilename = str "COMMIT_EDITMSG") || decide (baseFilename = str "MERGE_MSG")
    || (HasPrefix baseFilename (str "git-") && !Contains baseFilename (str ".")
        && decide (Count baseFilename (str "-") ≥ 2))

/-- The second case: a Vim file. -/
def isVimFile (ext : GoString) : Bool :=
  decide (ext = str ".vimrc") || decide (ext = str ".vim") || decide (ext = str ".nvim")

/-- The third case: a Makefile. -/
def isMakefile (baseFilename : GoString) : Bool :=
  HasPrefix baseFilename (str "Makefile") || HasPrefix baseFilename (str "makefile")
    || decide (baseFilename = str "GNUmakefile")

/-- The fourth and fifth case, which both end in `modeConfig`. -/
def isConfigFile (filename baseFilename ext : GoString) : Bool :=
  (HasSuffix filename (str ".git/config") || decide (ext = str ".ini")
      || decide (ext = str ".cfg") || decide (ext = str ".conf")
      || decide (ext = str ".service") || decide (ext = str ".target")
      || decide (ext = str ".socket") || HasPrefix ext (str "rc"))
    || (decide (ext = str ".yml") || decide (ext = str ".toml") || decide (ext = str ".ini")
      || decide (ext = str ".bp") || HasSuffix filename (str ".git/config")
      || (decide (ext = []) && (HasSuffix baseFilename (str "file")
            || HasSuffix baseFilename (str "rc") || hasS configFilenames baseFilename)))

/-- The sixth case: a shell script. -/
def isShellFile (baseFilename ext : GoString) : Bool :=
  decide (ext = str ".sh") || decide (ext = str ".ksh") || decide (ext = str ".tcsh")
    || decide (ext = str ".bash") || decide (ext = str ".zsh") || decide (ext = str ".local")
    || decide (ext = str ".profile") || decide (baseFilename = str "PKGBUILD")
    || (HasPrefix baseFilename (str ".") && Contains baseFilename (str "sh"))

/-- The seventh case: a CMake file. -/
def isCMakeFile (baseFilename ext : GoString) : Bool :=
  decide (baseFilename = str "CMakeLists.txt") || decide (ext = str ".cmake")

/-- The inner `switch ext` of the default case. -/
def modeOfExt (ext : GoString) : Mode :=
  if hasS [str ".asm", str ".S", str ".s", str ".inc"] ext then modeAssembly
  else if ext = str ".go" then modeGo
  else if ext = str ".odin" then modeOdin
  else if ext = str ".hs" then modeHaskell
  else if ext = str ".sml" then modeStandardML
  else if ext = str ".ml" then modeOCaml
  else if ext = str ".py" then modePython
  else if ext = str ".md" then modeMarkdown
  else if hasS [str ".cpp", str ".cc", str ".c++", str ".cxx", str ".hpp", str ".h"] ext then
    modeCpp
  else if ext = str ".c" then modeC
  else if hasS [str ".adoc", str ".rst", str ".scdoc", str ".scd"] ext then modeMarkdown
  else if hasS [str ".txt", str ".text", str ".nfo", str ".diz"] ext then modeText
  else if hasS [str ".lsp", str ".emacs", str ".el", str ".elisp", str ".clojure", str ".clj",
      str ".lisp", str ".cl", str ".l"] ext then modeLisp
  else if hasS [str ".zig", str ".zir"] ext then modeZig
  else if hasS [str ".kt", str ".kts"] ext then modeKotlin
  else if hasS [str ".java", str ".gradle"] ext then modeJava
  else if ext = str ".hal" then modeHIDL
  else if ext = str ".sql" then modeSQL
  else if ext = str ".ok" then modeOak
  else if ext = str ".rs" then modeRust
  else if ext = str ".lua" then modeLua
  else if ext = str ".cr" then modeCrystal
  else if ext = str ".nim" then modeNim
  else if hasS [str ".pas", str ".pp", str ".lpr"] ext then modeObjectPascal
  else if ext = str ".bat" then modeBat
  else if hasS [str ".adb", str ".gpr", str ".ads", str ".ada"] ext then modeAda
  else if hasS [str ".htm", str ".html"] ext then modeHTML
  else if ext = str ".xml" then modeXML
  else if ext = str ".te" then modePolicyLanguage
  else if hasS [str ".1", str ".2", str ".3", str ".4", str ".5", str ".6", str ".7",
      str ".8"] ext then modeNroff
  else if ext = str ".scala" then modeScala
  else if hasS [str ".json", str ".ipynb"] ext then modeJSON
  else modeBlank

/-- The outer switch of `detectEditorMode`: the mode before the two adjustments. -/
def switchMode (filename : GoString) : Mode :=
  let baseFilename := Base filename
  let ext := Ext baseFilename
  if isGitFile baseFilename then modeGit
  else if isVimFile ext then modeVim
  else if isMakefile baseFilename then modeMakefile
  else if isConfigFile filename baseFilename ext then modeConfig
  else if isShellFile baseFilename ext then modeShell
  else if isCMakeFile baseFilename ext then modeCMake
  else modeOfExt ext

/-- The embedding of `detectEditorMode`: the mode and whether syntax highlighting is on by
default. `ToUpper` is `strings.ToUpper`. -/
def detectEditorMode (ToUpper : GoString → GoString) (filename : GoString) : Mode × Bool :=
  let baseFilename := Base filename
  let ext := Ext baseFilename
  let mode := switchMode filename
  let mode := if mode = modeText then modeMarkdown else mode
  let mode :=
    if mode = modeBlank ∧ Contains baseFilename (str ".") = false
        ∧ baseFilename = ToUpper baseFilename then modeMarkdown
    else mode
  (mode, (decide (mode ≠ modeBlank) || decide (ext ≠ [])) && decide (mode ≠ modeText))

/-- Go `strings.ToUpper` on ASCII text: the letters `a` to `z` become `A` to `Z`. -/
def asciiToUpper (s : GoString) : GoString :=
  s.map fun c => if 0x61 ≤ c ∧ c ≤ 0x7A then c - 0x20 else c

/-- The switch of `Editor.Mode`: the name of a mode. -/
def modeString (m : Mode) : String :=
  match m with
  | modeBlank => "-"
  | modeGit => "Git"
  | modeMarkdown => "Markdown"
  | modeMakefile => "Make"
  | modeShell => "Shell"
  | modeConfig => "Configuration"
  | modeAssembly => "Assembly"
  | modeGo => "Go"
  | modeHaskell => "Haskell"
  | modeOCaml => "Ocaml"
  | modeStandardML => "Standard ML"
  | modePython => "Python"
  | modeText => "Text"
  | modeCMake => "Cmake"
  | modeVim => "ViM"
  | modeLisp => "Lisp"
  | modeZig => "Zig"
  | modeKotlin => "Kotlin"
  | modeJava => "Java"
  | modeHIDL => "HIDL"
  | modeSQL => "SQL"
  | modeOak => "Oak"
  | modeRust => "Rust"
  | modeLua => "Lua"
  | modeCrystal => "Crystal"
  | modeNim => "Nim"
  | modeObjectPascal => "Pas"
  | modeBat => "Bat"
  | modeCpp => "C++"
  | modeC => "C"
  | modeAda => "Ada"
  | modeHTML => "HTML"
  | modeOdin => "Odin"
  | modeXML => "XML"
  | modePolicyLanguage => "SELinux"
  | modeNroff => "Man"
  | modeScala => "Scala"
  | modeJSON => "JSON"

/-- The embedding of `Editor.Mode`. -/
def Editor.Mode (e : Editor) : String := modeString e.mode

/-- The string holds an uppercase letter (`unicode.IsUpper` on its ASCII letters). -/
def hasUpper (s : String) : Bool := s.toList.any Char.isUpper

/-- The collaborators of `aBinDirectory`: `filepath.Abs` (`none` is its error),
`filepath.Dir`, `os.Getenv` and `filepath.Join`. -/
structure PathEnv where
  Abs : GoString → Option GoString
  Dir : GoString → GoString
  Getenv : GoString → GoString
  Join : List GoString → GoString

/-- The embedding of `aBinDirectory`. -/
def aBinDirectory (x : PathEnv) (filename : GoString) : Bool :=
  match x.Abs (x.Dir filename) with
  | none => false
  | some p =>
    let home := x.Getenv (str "HOME")
    let username := x.Getenv (str "LOGNAME")
    if home.length = 0 ∧ username.length = 0 then false
    else
      let home := if home.length = 0 then str "/home/" ++ username else home
      if hasS [str "/bin", str "/sbin", str "/usr/bin", str "/usr/sbin", str "/usr/local/bin",
          str "/usr/local/sbin"] p then true
      else if hasS [x.Join [home, str ".bin"], x.Join [home, str "bin"],
          x.Join [str "local/bin"]] p then true
      else false

/-- Collaborators of `aBinDirectory` for absolute, clean paths with `HOME=/home/u`: `Abs`
returns the path, `Dir` cuts the last element off, `Join` puts `/` between the parts. -/
def samplePathEnv : PathEnv where
  Abs := fun p => some p
  Dir := fun p => (p.reverse.dropWhile (fun c => c ≠ 0x2F)).reverse.dropLast
  Getenv := fun name => if name = str "HOME" then str "/home/u" else []
  Join := fun parts => List.intercalate [0x2F] parts

/-! ## The index expressions of `WriteLines`, checked

The same steps of the drawing loop with every slice and index expression evaluated as Go
evaluates it: `none` stands for the run-time panic of an index or a slice bound out of
range. -/

/-- The slice expression `s[:w]` on a string: it panics when `w` exceeds the number of
bytes of `s`. -/
def sliceTo (s : GoString) (w : Nat) : Option GoString :=
  if w ≤ s.length then some (s.take w) else none

/-- The displayed copy, with the slice `screenLine[:w]` checked. -/
def screenLineChecked (w : Nat) (line : GoString) : Option GoString :=
  let screenLine := TrimRightSpace line
  if (runes screenLine).length ≥ w then sliceTo screenLine w else some screenLine

/-- The inner loop `for i := characterIndex; i < characterIndex + length; i++` with the
reads `charactersAndAttributes[i]` and `[]rune(e.searchTerm)[counter]` checked; the first
argument counts the iterations that are left, and the result is the final `match`. -/
def matchLoopChecked (term : List Rune) (cas : List CharAttribute) :
    Nat → Nat → Nat → Option Bool
  | 0, _, _ => some true
  | n + 1, i, counter =>
    if i ≥ cas.length then some false
    else
      match cas[i]?, term[counter]? with
      | some ca2, some r =>
        if ca2.R ≠ r then some false else matchLoopChecked term cas n (i + 1) (counter + 1)
      | _, _ => none

/-- The foreground of the character at `characterIndex` and the new `matchForAnotherN`,
with the read `searchTermRunes[0]` and the inner loop checked; `cas` is the whole slice
`charactersAndAttributes`. -/
def searchFgStepChecked (e : Editor) (matchForAnotherN : Nat) (cas : List CharAttribute)
    (characterIndex : Nat) (ca : CharAttribute) : Option (AttributeColor × Nat) :=
  let searchTermRunes := runes e.searchTerm
  let fg := if ca.R = 0x20 then e.fg else ca.A
  if matchForAnotherN > 0 then some (e.searchFg, matchForAnotherN - 1)
  else if e.searchTerm.length > 0 then
    match searchTermRunes[0]? with
    | none => none
    | some r0 =>
      if ca.R = r0 then
        match matchLoopChecked searchTermRunes cas searchTermRunes.length characterIndex 0 with
        | none => none
        | some true => some (e.searchFg, searchTermRunes.length - 1)
        | some false => some (fg, matchForAnotherN)
      else some (fg, matchForAnotherN)
  else some (fg, matchForAnotherN)

/-- The loop `for characterIndex, ca := range charactersAndAttributes` with the checked
step: `all` is the whole slice, the next argument the characters still to draw. -/
def writeCellsChecked (e : Editor) (cx cy : Int) (y : Nat) (all : List CharAttribute) :
    List CharAttribute → Nat → Nat → Nat → Option (List Effect × Nat)
  | [], _, counter, _ => some ([], counter)
  | ca :: rest, characterIndex, counter, matchForAnotherN =>
    match searchFgStepChecked e matchForAnotherN all characterIndex ca with
    | none => none
    | some s =>
      if ca.R = 0x09 then
        match writeCellsChecked e cx cy y all rest (characterIndex + 1)
          (if e.drawMode then counter + 1 else counter + e.spacesPerTab) s.2 with
        | none => none
        | some r =>
          some (Effect.Write (cx + counter) (cy + y) s.1 e.bg (tabString e) :: r.1, r.2)
      else
        let letter := if IsControl ca.R = true then controlRuneReplacement else ca.R
        match writeCellsChecked e cx cy y all rest (characterIndex + 1) (counter + 1) s.2 with
        | none => none
        | some r => some (Effect.WriteRune (cx + counter) (cy + y) s.1 e.bg letter :: r.1, r.2)

/-! ## Stand-ins for the collaborators, for evaluating the renderer on concrete lines -/

/-- A tokenizer and painter that tag nothing: every character of the line comes back as
one cell of colour `7`, the quote state never changes and no rainbow colour is applied. -/
def plainDeps : Deps where
  noColor := false
  AsText := fun s _ => some s
  DarkTags := fun s => s
  Extract := fun s => (runes s).map fun r => { R := r, A := 7 }
  Get := fun _ s => s
  Escape := fun s => s
  UnEscape := fun s => s
  gitHighlight := fun s => s
  markdownHighlight := fun s _ _ => (s, false, false)
  isListItem := fun _ => false
  SingleLineCommentMarker := fun _ => [0x2F, 0x2F]
  NewQuoteState := fun _ =>
    { singleLineComment := false, multiLineComment := false, startedMultiLineString := false,
      backtick := 0, doubleQuote := 0, singleQuote := 0, parCount := 0, rest := [] }
  Process := fun q _ p pp _ => (q, p, pp)
  None := fun _ => true
  rainbowParen := fun n cas _ _ => (n, cas)

/-- The same collaborators with a tokenizer that fails on every line. -/
def failingDeps : Deps := { plainDeps with AsText := fun _ _ => none }

/-- An editor in Go mode over the given lines, with foreground `1`, background `2`,
search colour `3`, tab width `4`, and the given highlighting flag, draw mode and
search term. -/
def sampleEditor (lines : List GoString) (syntaxHighlight drawMode : Bool)
    (searchTerm : GoString) : Editor where
  Line := fun i => if i < 0 then [] else lines.getD i.toNat []
  mode := modeGo
  drawMode := drawMode
  spacesPerTab := 4
  syntaxHighlight := syntaxHighlight
  rainbowParenthesis := false
  searchTerm := searchTerm
  fg := 1
  bg := 2
  searchFg := 3
  multiLineComment := 4
  multiLineString := 5

/-- The collaborators of `plainDeps` with a `Process` that tracks the bracket depth: it
adds the opening parentheses of the line to `parCount` and takes the closing ones off. -/
def parenDeps : Deps :=
  { plainDeps with
    Process := fun q line p pp _ =>
      ({ q with parCount := q.parCount + (line.count 0x28 : Nat) - (line.count 0x29 : Nat) },
        p, pp) }

/-- The collaborators of `plainDeps` with a painter that leaves marks: `DarkTags` puts the
byte `02` before the text it paints, `Get` the byte `03` before the text it colours. -/
def taggingDeps : Deps :=
  { plainDeps with
    DarkTags := fun s => 0x02 :: s
    Get := fun _ s => 0x03 :: s }

/-! ## Theorems -/

/-- C1: `WriteLines` returns an error exactly when `fromline >= toline`, and `nil`
exactly when `fromline < toline`, whatever the lines, the editor and the collaborators
are, a tokenizer that fails included. -/
theorem WriteLines_error_iff_invalid_range (d : Deps) (e : Editor) (w : Nat)
    (fromline toline cx cy : Int) :
    ((WriteLines d e w fromline toline cx cy).err ≠ none ↔ fromline ≥ toline) ∧
      ((WriteLines d e w fromline toline cx cy).err = none ↔ fromline < toline) := by
  unfold WriteLines
  by_cases h : fromline ≥ toline
  · simp [h]
  · simp only [h, if_false]
    constructor
    · simp
    · simp only [true_iff]
      omega

/-- C2: with `fromline >= toline` the call issues no canvas write and no other output at
all before it returns the error. The editor is only read by `WriteLines`. -/
theorem WriteLines_invalid_range_no_output (d : Deps) (e : Editor) (w : Nat)
    (fromline toline cx cy : Int) (h : fromline ≥ toline) :
    (WriteLines d e w fromline toline cx cy).effects = [] ∧
      (WriteLines d e w fromline toline cx cy).err
        = some "fromline >= toline in WriteLines" := by
  unfold WriteLines
  simp [h]

/-- Witness of C2: the range `[3, 3)` over a one-line buffer. -/
theorem WriteLines_invalid_range_no_output_witness :
    (3 : Int) ≥ 3 ∧
      (WriteLines plainDeps (sampleEditor [[0x61]] true false []) 80 3 3 0 0).effects = [] ∧
      (WriteLines plainDeps (sampleEditor [[0x61]] true false []) 80 3 3 0 0).err
        = some "fromline >= toline in WriteLines" :=
  ⟨by decide, WriteLines_invalid_range_no_output _ _ _ _ _ _ _ (by decide)⟩

/-! ### The search overlay -/

theorem runes_ne_nil (s : GoString) (h : s ≠ []) : runes s ≠ [] := by
  cases s with
  | nil => exact absurd rfl h
  | cons b rest => simp [runes, runesAux]

theorem matchAt_eq_isPrefixOf (t : List Rune) (cas : List CharAttribute) :
    matchAt t cas = t.isPrefixOf (cas.map (·.R)) := by
  induction t generalizing cas with
  | nil => simp [matchAt]
  | cons a t ih =>
    cases cas with
    | nil => simp [matchAt]
    | cons c cs =>
      simp only [matchAt, List.map_cons, List.isPrefixOf_cons₂, ih]
      by_cases hc : c.R = a
      · simp [hc]
      · have hc2 : ¬ a = c.R := fun h => hc h.symm
        simp [hc, hc2]

theorem searchFgStep_zero (e : Editor) (ca : CharAttribute) (rest : List CharAttribute)
    (h : e.searchTerm ≠ []) :
    searchFgStep e 0 (ca :: rest) ca =
      if (runes e.searchTerm).isPrefixOf ((ca :: rest).map (·.R)) = true then
        (e.searchFg, (runes e.searchTerm).length - 1)
      else (baseFg e ca, 0) := by
  have hlen : e.searchTerm.length > 0 := List.length_pos.mpr h
  have hne := runes_ne_nil _ h
  simp only [searchFgStep, baseFg, matchAt_eq_isPrefixOf, gt_iff_lt, Nat.lt_irrefl, if_false]
  cases ht : runes e.searchTerm with
  | nil => exact absurd ht hne
  | cons a t =>
    by_cases hc : a = ca.R
    · simp [hlen, hc]
    · simp [hlen, hc, List.isPrefixOf_cons₂]

theorem searchFgStep_succ (e : Editor) (k : Nat) (cas : List CharAttribute)
    (ca : CharAttribute) : searchFgStep e (k + 1) cas ca = (e.searchFg, k) := by
  simp [searchFgStep]

theorem writeCells_fg (e : Editor) (cx cy : Int) (y : Nat) :
    ∀ (cas : List CharAttribute) (counter k : Nat),
      (writeCells e cx cy y cas counter k).1.map Effect.fg = (cellFgs e cas k).map some := by
  intro cas
  induction cas with
  | nil => intro counter k; simp [writeCells, cellFgs]
  | cons c rest ih =>
    intro counter k
    simp only [writeCells, cellFgs]
    split
    · simp [Effect.fg, ih]
    · simp [Effect.fg, ih]

theorem scanFrom_ge (t : List Rune) :
    ∀ (rs : List Rune) (k pos m : Nat), m ∈ scanFrom t k pos rs → pos + k ≤ m := by
  intro rs
  induction rs with
  | nil => intro k pos m hm; simp [scanFrom] at hm
  | cons r rest ih =>
    intro k pos m hm
    cases k with
    | zero =>
      simp only [scanFrom] at hm
      split at hm
      · rcases List.mem_cons.mp hm with h | h
        · omega
        · have := ih _ _ _ h
          omega
      · have := ih _ _ _ hm
        omega
    | succ k =>
      simp only [scanFrom] at hm
      have := ih _ _ _ hm
      omega

theorem inSpans_eq_false (ms : List Nat) (n i : Nat) (h : ∀ m ∈ ms, i < m) :
    inSpans ms n i = false := by
  unfold inSpans
  rw [List.any_eq_false]
  intro m hm
  have := h m hm
  simp
  omega

theorem cellFgs_getElem? (e : Editor) (h : e.searchTerm ≠ []) :
    ∀ (cas : List CharAttribute) (k pos j : Nat) (ca : CharAttribute), cas[j]? = some ca →
      (cellFgs e cas k)[j]? = some
        (if j < k ∨ inSpans (scanFrom (runes e.searchTerm) k pos (cas.map (·.R)))
            (runes e.searchTerm).length (pos + j) = true
         then e.searchFg else baseFg e ca) := by
  intro cas
  induction cas with
  | nil => intro k pos j ca hj; simp at hj
  | cons c rest ih =>
    intro k pos j ca hj
    have hn : 0 < (runes e.searchTerm).length := List.length_pos.mpr (runes_ne_nil _ h)
    cases k with
    | zero =>
      by_cases hp : (runes e.searchTerm).isPrefixOf ((c :: rest).map (·.R)) = true
      · have hp2 : (runes e.searchTerm).isPrefixOf (c.R :: rest.map (·.R)) = true := by
          simpa using hp
        cases j with
        | zero =>
          simp only [List.getElem?_cons_zero, Option.some.injEq] at hj
          subst hj
          simp [cellFgs, searchFgStep_zero e c rest h, hp2, scanFrom, inSpans, hn]
        | succ j =>
          simp only [List.getElem?_cons_succ] at hj
          have key := ih ((runes e.searchTerm).length - 1) (pos + 1) j ca hj
          simp only [cellFgs, searchFgStep_zero e c rest h, hp, if_true,
            List.getElem?_cons_succ, key, List.map_cons, scanFrom, hp2]
          congr 1
          apply if_congr _ rfl rfl
          simp only [inSpans, List.any_cons, Bool.or_eq_true, Bool.and_eq_true,
            decide_eq_true_eq]
          constructor
          · rintro (h1 | h1)
            · right; left; omega
            · right; right
              rw [show pos + (j + 1) = pos + 1 + j by omega]; exact h1
          · rintro (h1 | h1 | h1)
            · omega
            · left; omega
            · right
              rw [show pos + 1 + j = pos + (j + 1) by omega]; exact h1
      · have hp3 : (runes e.searchTerm).isPrefixOf ((c :: rest).map (·.R)) = false :=
          Bool.eq_false_iff.mpr hp
        have hp2 : (runes e.searchTerm).isPrefixOf (c.R :: rest.map (·.R)) = false := hp3
        cases j with
        | zero =>
          simp only [List.getElem?_cons_zero, Option.some.injEq] at hj
          subst hj
          have hfalse : inSpans (scanFrom (runes e.searchTerm) 0 (pos + 1) (rest.map (·.R)))
              (runes e.searchTerm).length pos = false := by
            apply inSpans_eq_false
            intro m hm
            have := scanFrom_ge _ _ _ _ _ hm
            omega
          simp [cellFgs, searchFgStep_zero e c rest h, hp2, scanFrom, hfalse]
        | succ j =>
          simp only [List.getElem?_cons_succ] at hj
          have key := ih 0 (pos + 1) j ca hj
          simp only [cellFgs, searchFgStep_zero e c rest h, hp3, Bool.false_eq_true, if_false,
            List.getElem?_cons_succ, key, List.map_cons, scanFrom, hp2]
          congr 1
          apply if_congr _ rfl rfl
          rw [show pos + (j + 1) = pos + 1 + j by omega]
          simp
    | succ k =>
      cases j with
      | zero =>
        simp only [List.getElem?_cons_zero, Option.some.injEq] at hj
        subst hj
        simp [cellFgs, searchFgStep_succ]
      | succ j =>
        simp only [List.getElem?_cons_succ] at hj
        have key := ih k (pos + 1) j ca hj
        simp only [cellFgs, searchFgStep_succ, List.getElem?_cons_succ, key, List.map_cons,
          scanFrom]
        congr 1
        apply if_congr _ rfl rfl
        rw [show pos + (j + 1) = pos + 1 + j by omega]
        simp

theorem scanFrom_eq_scanAt (t : List Rune) (ht : t ≠ []) :
    ∀ (rs : List Rune) (k pos fuel : Nat), (rs.drop k).length < fuel →
      scanFrom t k pos rs = scanAt t fuel (pos + k) (rs.drop k) := by
  have hn : 0 < t.length := List.length_pos.mpr ht
  intro rs
  induction rs with
  | nil =>
    intro k pos fuel _
    cases fuel <;> simp [scanFrom, scanAt]
  | cons r rest ih =>
    intro k pos fuel hfuel
    cases k with
    | zero =>
      cases fuel with
      | zero => simp at hfuel
      | succ f =>
        simp only [List.drop_zero, List.length_cons, Nat.add_lt_add_iff_right] at hfuel
        simp only [scanFrom, scanAt, List.drop_zero, Nat.add_zero]
        have hdrop : (r :: rest).drop t.length = rest.drop (t.length - 1) := by
          obtain ⟨n, hn2⟩ : ∃ n, t.length = n + 1 := ⟨t.length - 1, by omega⟩
          rw [hn2]; simp
        have hlen : (rest.drop (t.length - 1)).length < f := by
          simp only [List.length_drop]; omega
        split
        · rw [ih (t.length - 1) (pos + 1) f hlen, hdrop]
          rw [show pos + 1 + (t.length - 1) = pos + t.length by omega]
        · have := ih 0 (pos + 1) f (by simpa using hfuel)
          simpa using this
    | succ k =>
      simp only [List.drop_succ_cons] at hfuel
      simp only [scanFrom, List.drop_succ_cons]
      rw [ih k (pos + 1) fuel hfuel]
      rw [show pos + 1 + k = pos + (k + 1) by omega]

theorem searchMatches_eq_scanFrom (t rs : List Rune) (ht : t ≠ []) :
    searchMatches t rs = scanFrom t 0 0 rs := by
  unfold searchMatches
  have := scanFrom_eq_scanAt t ht rs 0 0 (rs.length + 1) (by simp)
  simpa using this.symm

theorem scanFrom_pairwise (t : List Rune) (ht : t ≠ []) :
    ∀ (rs : List Rune) (k pos : Nat),
      (scanFrom t k pos rs).Pairwise (fun a b => a + t.length ≤ b) := by
  have hn : 0 < t.length := List.length_pos.mpr ht
  intro rs
  induction rs with
  | nil => intro k pos; simp [scanFrom]
  | cons r rest ih =>
    intro k pos
    cases k with
    | zero =>
      simp only [scanFrom]
      split
      · refine List.Pairwise.cons ?_ (ih _ _)
        intro b hb
        have := scanFrom_ge t _ _ _ _ hb
        omega
      · exact ih _ _
    | succ k =>
      simp only [scanFrom]
      exact ih _ _

theorem scanFrom_full_match (t : List Rune) :
    ∀ (rs : List Rune) (k pos m : Nat), m ∈ scanFrom t k pos rs →
      t.isPrefixOf (rs.drop (m - pos)) = true := by
  intro rs
  induction rs with
  | nil => intro k pos m hm; simp [scanFrom] at hm
  | cons r rest ih =>
    intro k pos m hm
    have hstep : ∀ k2, m ∈ scanFrom t k2 (pos + 1) rest →
        t.isPrefixOf ((r :: rest).drop (m - pos)) = true := by
      intro k2 h2
      have hge := scanFrom_ge t _ _ _ _ h2
      have := ih k2 (pos + 1) m h2
      rw [show m - pos = (m - (pos + 1)) + 1 by omega, List.drop_succ_cons]
      exact this
    cases k with
    | zero =>
      simp only [scanFrom] at hm
      split at hm
      · rcases List.mem_cons.mp hm with h | h
        · subst h
          simpa using ‹t.isPrefixOf (r :: rest) = true›
        · exact hstep _ h
      · exact hstep _ hm
    | succ k =>
      simp only [scanFrom] at hm
      exact hstep _ hm

/-- C3: with a non-empty search term `t`, the loop over the characters of a highlighted
line paints character `j` with the search foreground exactly when `j` lies in a span
`[m, m + |t|)` of a match `m` found by the left-to-right scan of the specification, and
with its own colour otherwise; the matches do not overlap, each one is a full match
rune by rune (hence case-sensitive), and `ab` in `ababab` matches at 0, 2 and 4. -/
theorem search_overlay_paints_scan_matches (e : Editor) (cx cy : Int) (y : Nat)
    (cas : List CharAttribute) (hterm : e.searchTerm ≠ []) :
    (∀ (j : Nat) (ca : CharAttribute), cas[j]? = some ca →
      ((writeCells e cx cy y cas 0 0).1[j]?).bind Effect.fg = some
        (if inSpans (searchMatches (runes e.searchTerm) (cas.map (·.R)))
            (runes e.searchTerm).length j = true
         then e.searchFg else baseFg e ca)) ∧
    (searchMatches (runes e.searchTerm) (cas.map (·.R))).Pairwise
      (fun a b => a + (runes e.searchTerm).length ≤ b) ∧
    (∀ m ∈ searchMatches (runes e.searchTerm) (cas.map (·.R)),
      (runes e.searchTerm).isPrefixOf ((cas.map (·.R)).drop m) = true) ∧
    searchMatches [0x61, 0x62] [0x61, 0x62, 0x61, 0x62, 0x61, 0x62] = [0, 2, 4] := by
  have ht := runes_ne_nil _ hterm
  rw [searchMatches_eq_scanFrom _ _ ht]
  refine ⟨?_, scanFrom_pairwise _ ht _ _ _, ?_, by decide⟩
  · intro j ca hj
    have h1 := cellFgs_getElem? e hterm cas 0 0 j ca hj
    have h2 : ((writeCells e cx cy y cas 0 0).1.map Effect.fg)[j]?
        = ((cellFgs e cas 0).map some)[j]? := by rw [writeCells_fg]
    simp only [List.getElem?_map, h1, Option.map_some', Nat.not_lt_zero, false_or,
      Nat.zero_add] at h2
    cases hw : (writeCells e cx cy y cas 0 0).1[j]? with
    | none => rw [hw] at h2; simp at h2
    | some eff =>
      rw [hw] at h2
      simp only [Option.map_some', Option.some.injEq] at h2
      simpa using h2
  · intro m hm
    simpa using scanFrom_full_match _ _ _ _ _ hm

/-- Witness of C3: the term `ab` on the line `ababab`, as drawn by `writeCells`. -/
theorem search_overlay_paints_scan_matches_witness :
    (sampleEditor [] true false [0x61, 0x62]).searchTerm ≠ [] ∧
    ((writeCells (sampleEditor [] true false [0x61, 0x62]) 0 0 0
        (plainDeps.Extract [0x61, 0x62, 0x61, 0x62, 0x61, 0x62]) 0 0).1.map Effect.fg
      = [some 3, some 3, some 3, some 3, some 3, some 3]) ∧
    searchMatches [0x61, 0x62] [0x61, 0x62, 0x61, 0x62, 0x61, 0x62] = [0, 2, 4] :=
  ⟨by decide, by decide,
    (search_overlay_paints_scan_matches (sampleEditor [] true false [0x61, 0x62]) 0 0 0
      (plainDeps.Extract [0x61, 0x62, 0x61, 0x62, 0x61, 0x62]) (by decide)).2.2.2⟩

/-! ### The search term only changes foregrounds -/

theorem writeCells_searchTerm (e : Editor) (s : GoString) (cx cy : Int) (y : Nat) :
    ∀ (cas : List CharAttribute) (counter k k2 : Nat),
      (writeCells { e with searchTerm := s } cx cy y cas counter k).1.map Effect.eraseFg
          = (writeCells e cx cy y cas counter k2).1.map Effect.eraseFg ∧
        (writeCells { e with searchTerm := s } cx cy y cas counter k).2
          = (writeCells e cx cy y cas counter k2).2 := by
  intro cas
  induction cas with
  | nil => intro counter k k2; simp [writeCells]
  | cons c rest ih =>
    intro counter k k2
    have ht : tabString { e with searchTerm := s } = tabString e := rfl
    simp only [writeCells, ht]
    split
    · refine ⟨?_, (ih _ _ _).2⟩
      simp only [List.map_cons, Effect.eraseFg]
      exact congrArg _ (ih _ _ _).1
    · refine ⟨?_, (ih _ _ _).2⟩
      simp only [List.map_cons, Effect.eraseFg]
      exact congrArg _ (ih _ _ _).1

theorem lineContent_searchTerm (d : Deps) (e : Editor) (s : GoString) (w : Nat)
    (offset cx cy : Int) (st : LoopState) (y : Nat) :
    (lineContent d { e with searchTerm := s } w offset cx cy st y).1.map Effect.eraseFg
        = (lineContent d e w offset cx cy st y).1.map Effect.eraseFg ∧
      (lineContent d { e with searchTerm := s } w offset cx cy st y).2
        = (lineContent d e w offset cx cy st y).2 := by
  have h1 : ∀ l, expandLine { e with searchTerm := s } l = expandLine e l := fun _ => rfl
  have h2 : ∀ st l t, lineCells d { e with searchTerm := s } st l t
      = lineCells d e st l t := fun _ _ _ => rfl
  by_cases hc : (e.syntaxHighlight && !d.noColor) = true
  · cases hA : d.AsText (d.Escape (expandLine e (e.Line (↑y + offset))))
        (decide (e.mode = modeAssembly) || decide (e.mode = modeLisp)) with
    | none =>
      simp only [lineContent, h1, h2, hc, hA, if_true]
      all_goals (constructor <;> first | rfl | trivial)
    | some tw =>
      simp only [lineContent, h1, h2, hc, hA, if_true]
      have hw := writeCells_searchTerm e s cx cy y
        (lineCells d e st (expandLine e (e.Line (↑y + offset))) tw).1 0 0 0
      exact ⟨hw.1, by rw [hw.2]⟩
  · have hc2 : (e.syntaxHighlight && !d.noColor) = false := Bool.eq_false_iff.mpr hc
    simp only [lineContent, h1, h2, hc2, Bool.false_eq_true, if_false]
    trivial

theorem drawLine_searchTerm (d : Deps) (e : Editor) (s : GoString) (w : Nat)
    (offset cx cy : Int) (st : LoopState) (y : Nat) :
    (drawLine d { e with searchTerm := s } w offset cx cy st y).1.map Effect.eraseFg
        = (drawLine d e w offset cx cy st y).1.map Effect.eraseFg ∧
      (drawLine d { e with searchTerm := s } w offset cx cy st y).2
        = (drawLine d e w offset cx cy st y).2 := by
  have h := lineContent_searchTerm d e s w offset cx cy st y
  have hb : ∀ c, blanks { e with searchTerm := s } w cx cy y c = blanks e w cx cy y c :=
    fun _ => rfl
  simp only [drawLine, List.map_append, h.1, h.2, hb]
  all_goals (constructor <;> first | rfl | trivial)

theorem drawLoop_searchTerm (d : Deps) (e : Editor) (s : GoString) (w : Nat)
    (offset cx cy : Int) :
    ∀ (ys : List Nat) (st : LoopState),
      (drawLoop d { e with searchTerm := s } w offset cx cy ys st).1.map Effect.eraseFg
          = (drawLoop d e w offset cx cy ys st).1.map Effect.eraseFg ∧
        (drawLoop d { e with searchTerm := s } w offset cx cy ys st).2
          = (drawLoop d e w offset cx cy ys st).2 := by
  intro ys
  induction ys with
  | nil => intro st; simp [drawLoop]
  | cons y ys ih =>
    intro st
    have h := drawLine_searchTerm d e s w offset cx cy st y
    simp only [drawLoop, List.map_append, h.1, h.2, (ih _).1, (ih _).2]
    all_goals (constructor <;> first | rfl | trivial)

/-- C4: the search term only decides foregrounds. For any two search terms, all other
inputs equal, `WriteLines` issues the same calls at the same coordinates with the same
text or rune and the same background; the calls differ at most in their foreground.
The returned error is the same too. -/
theorem search_term_changes_only_foreground (d : Deps) (e : Editor) (w : Nat)
    (fromline toline cx cy : Int) (s1 s2 : GoString) :
    (WriteLines d { e with searchTerm := s1 } w fromline toline cx cy).effects.map
        Effect.eraseFg
      = (WriteLines d { e with searchTerm := s2 } w fromline toline cx cy).effects.map
        Effect.eraseFg ∧
    (WriteLines d { e with searchTerm := s1 } w fromline toline cx cy).err
      = (WriteLines d { e with searchTerm := s2 } w fromline toline cx cy).err := by
  have hp : ∀ s, prescan d { e with searchTerm := s } fromline = prescan d e fromline :=
    fun _ => rfl
  unfold WriteLines
  split
  · exact ⟨rfl, rfl⟩
  · simp only [hp, (drawLoop_searchTerm d e s1 w fromline cx cy _ _).1,
      (drawLoop_searchTerm d e s2 w fromline cx cy _ _).1]
    trivial

/-! ### Tab expansion -/

theorem not_mem_of_countAux_tab :
    ∀ (l : GoString), countAux [0x09] 0 l = 0 → (0x09 : Nat) ∉ l := by
  intro l
  induction l with
  | nil => intro _; simp
  | cons b rest ih =>
    intro h
    simp only [countAux, HasPrefix] at h
    by_cases hb : b = 0x09
    · subst hb
      simp at h
    · have h2 : ((b :: rest).take [0x09].length == [0x09]) = false := by
        simp [hb]
      simp only [h2, Bool.false_eq_true, if_false] at h
      simp only [List.mem_cons, not_or]
      exact ⟨fun h3 => hb h3.symm, ih h⟩

theorem ReplaceTabs_of_not_mem (line ts : GoString) (h : (0x09 : Nat) ∉ line) :
    ReplaceTabs line ts = line := by
  induction line with
  | nil => rfl
  | cons b rest ih =>
    simp only [List.mem_cons, not_or] at h
    have hb : ¬ b = 0x09 := fun h3 => h.1 h3.symm
    simp only [ReplaceTabs, List.flatMap_cons, hb, if_false, List.singleton_append]
    exact congrArg _ (ih h.2)

theorem tabString_eq (e : Editor) : tabString e = List.replicate (tabWidth e) 0x20 := by
  unfold tabString tabWidth RepeatSpace
  split <;> rfl

theorem expandLine_eq (e : Editor) (line : GoString) :
    expandLine e line = ReplaceTabs line (tabString e) := by
  unfold expandLine
  split
  · rfl
  · rename_i h
    have h0 : countAux [0x09] 0 line = 0 := by
      simpa [Contains, Count] using h
    exact (ReplaceTabs_of_not_mem _ _ (not_mem_of_countAux_tab _ h0)).symm

theorem tab_not_mem_expandLine (e : Editor) (line : GoString) :
    (0x09 : Nat) ∉ expandLine e line := by
  rw [expandLine_eq, tabString_eq]
  unfold ReplaceTabs
  intro h
  rw [List.mem_flatMap] at h
  obtain ⟨b, _, hb⟩ := h
  by_cases hb9 : b = 0x09
  · simp only [hb9, if_true] at hb
    have := List.eq_of_mem_replicate hb
    omega
  · simp only [hb9, if_false, List.mem_singleton] at hb
    exact hb9 hb.symm

theorem writeCells_Line (e : Editor) (L : Int → GoString) (cx cy : Int) (y : Nat) :
    ∀ (cas : List CharAttribute) (counter k : Nat),
      writeCells { e with Line := L } cx cy y cas counter k
        = writeCells e cx cy y cas counter k := by
  intro cas
  induction cas with
  | nil => intro counter k; rfl
  | cons c rest ih =>
    intro counter k
    have ht : tabString { e with Line := L } = tabString e := rfl
    have hs : ∀ k cas ca, searchFgStep { e with Line := L } k cas ca
        = searchFgStep e k cas ca := fun _ _ _ => rfl
    simp only [writeCells, ht, hs, ih]

/-- C5: at the top of every iteration the line is replaced by its tab expansion, in which
each tab byte has become the same run of spaces, one space in draw mode and
`spacesPerTab` spaces otherwise, whatever the column of the tab; no tab remains in it;
and the iteration sees the stored line through this expansion only: two buffers whose
lines at the row have the same expansion are drawn alike (same calls, same counter,
same state), so trimming, clipping, tokenizing and counting work on the expanded text. -/
theorem tabs_are_expanded_first (d : Deps) (e : Editor) (w : Nat) (offset cx cy : Int)
    (st : LoopState) (y : Nat) (line : GoString) :
    expandLine e line
        = line.flatMap (fun b =>
            if b = 0x09 then List.replicate (if e.drawMode then 1 else e.spacesPerTab) 0x20
            else [b]) ∧
      (0x09 : Nat) ∉ expandLine e line ∧
      (∀ L : Int → GoString,
        expandLine e (L (y + offset)) = expandLine e (e.Line (y + offset)) →
          lineContent d { e with Line := L } w offset cx cy st y
              = lineContent d e w offset cx cy st y ∧
            drawLine d { e with Line := L } w offset cx cy st y
              = drawLine d e w offset cx cy st y) := by
  refine ⟨?_, tab_not_mem_expandLine e line, ?_⟩
  · rw [expandLine_eq, tabString_eq]
    rfl
  · intro L hL
    have h1 : ∀ l, expandLine { e with Line := L } l = expandLine e l := fun _ => rfl
    have h2 : ∀ st l t, lineCells d { e with Line := L } st l t = lineCells d e st l t :=
      fun _ _ _ => rfl
    have hb : ∀ c, blanks { e with Line := L } w cx cy y c = blanks e w cx cy y c :=
      fun _ => rfl
    have hc : lineContent d { e with Line := L } w offset cx cy st y
        = lineContent d e w offset cx cy st y := by
      simp only [lineContent, h1, h2, hL, writeCells_Line]
    exact ⟨hc, by simp only [drawLine, hc, hb]⟩

/-- Witness of C5: a buffer holding `a<tab>b` and a buffer holding `a    b` are drawn alike
with tab width 4. -/
theorem tabs_are_expanded_first_witness :
    drawLine plainDeps
        { sampleEditor [[0x61, 0x09, 0x62]] true false [] with
          Line := fun _ => [0x61, 0x20, 0x20, 0x20, 0x20, 0x62] } 8 0 0 0
        (prescan plainDeps (sampleEditor [[0x61, 0x09, 0x62]] true false []) 0) 0
      = drawLine plainDeps (sampleEditor [[0x61, 0x09, 0x62]] true false []) 8 0 0 0
        (prescan plainDeps (sampleEditor [[0x61, 0x09, 0x62]] true false []) 0) 0 :=
  ((tabs_are_expanded_first plainDeps (sampleEditor [[0x61, 0x09, 0x62]] true false []) 8 0 0 0
    (prescan plainDeps (sampleEditor [[0x61, 0x09, 0x62]] true false []) 0) 0 []).2.2
    (fun _ => [0x61, 0x20, 0x20, 0x20, 0x20, 0x62]) (by decide)).2

/-- C6, as amended: with tab width 4 the line `a<tab>b` is expanded to `a`, four spaces,
`b` in expanded mode and to `a b` in draw (compact) mode; on a canvas wider than six
columns the plain path writes exactly this text, followed by the blanks. -/
theorem tab_example_renders_fixed_width (d : Deps) (e : Editor) (w : Nat)
    (offset cx cy : Int) (st : LoopState) (y : Nat)
    (h4 : e.spacesPerTab = 4) (hl : e.Line (y + offset) = [0x61, 0x09, 0x62])
    (hp : (e.syntaxHighlight && !d.noColor) = false) (hw : 6 < w) :
    expandLine e [0x61, 0x09, 0x62]
        = (if e.drawMode then [0x61, 0x20, 0x62]
           else [0x61, 0x20, 0x20, 0x20, 0x20, 0x62]) ∧
      (drawLine d e w offset cx cy st y).1
        = Effect.Write cx (cy + y) e.fg e.bg
            (if e.drawMode then [0x61, 0x20, 0x62] else [0x61, 0x20, 0x20, 0x20, 0x20, 0x62])
          :: blanks e w cx cy y (if e.drawMode then 3 else 6) := by
  have hx : expandLine e [0x61, 0x09, 0x62]
      = (if e.drawMode then [0x61, 0x20, 0x62]
         else [0x61, 0x20, 0x20, 0x20, 0x20, 0x62]) := by
    rw [expandLine_eq, tabString_eq]
    cases hdm : e.drawMode <;> simp [tabWidth, hdm, h4, ReplaceTabs, List.replicate]
  refine ⟨hx, ?_⟩
  have t3 : TrimRightSpace [0x61, 0x20, 0x62] = [0x61, 0x20, 0x62] := by decide
  have t6 : TrimRightSpace [0x61, 0x20, 0x20, 0x20, 0x20, 0x62]
      = [0x61, 0x20, 0x20, 0x20, 0x20, 0x62] := by decide
  have r3 : runes [0x61, 0x20, 0x62] = [0x61, 0x20, 0x62] := by decide
  have r6 : runes [0x61, 0x20, 0x20, 0x20, 0x20, 0x62]
      = [0x61, 0x20, 0x20, 0x20, 0x20, 0x62] := by decide
  have h3w : ¬ 3 ≥ w := by omega
  have h6w : ¬ 6 ≥ w := by omega
  simp only [drawLine, lineContent, hl, hx, hp, Bool.false_eq_true, if_false]
  cases hdm : e.drawMode
  · simp [screenLineOf, t6, r6, h6w]
  · simp [screenLineOf, t3, r3, h3w]

/-- Witness of C6 as amended: the line `a<tab>b` on a canvas of eight columns. -/
theorem tab_example_renders_fixed_width_witness :
    (drawLine plainDeps (sampleEditor [[0x61, 0x09, 0x62]] false false []) 8 0 0 0
        (prescan plainDeps (sampleEditor [[0x61, 0x09, 0x62]] false false []) 0) 0).1
      = [Effect.Write 0 0 1 2 [0x61, 0x20, 0x20, 0x20, 0x20, 0x62],
         Effect.WriteRune 6 0 1 2 0x20, Effect.WriteRune 7 0 1 2 0x20] :=
  (tab_example_renders_fixed_width plainDeps (sampleEditor [[0x61, 0x09, 0x62]] false false [])
    8 0 0 0 (prescan plainDeps (sampleEditor [[0x61, 0x09, 0x62]] false false []) 0) 0
    (by decide) (by decide) (by decide) (by decide)).2

/-- C6, counterexample: in expanded mode with tab width 4, `a<tab>b` is drawn as `a`, four
spaces, `b`, in the plain path and in the highlighted path; its first five columns are
not `a`, three spaces, `b`. -/
theorem tab_example_is_not_three_spaces :
    (WriteLines plainDeps (sampleEditor [[0x61, 0x09, 0x62]] false false []) 6 0 1 0 0).effects
        = [Effect.Write 0 0 1 2 [0x61, 0x20, 0x20, 0x20, 0x20, 0x62]] ∧
      ((WriteLines plainDeps (sampleEditor [[0x61, 0x09, 0x62]] true false []) 6 0 1 0
          0).effects.flatMap Effect.shown) = [0x61, 0x20, 0x20, 0x20, 0x20, 0x62] ∧
      ((WriteLines plainDeps (sampleEditor [[0x61, 0x09, 0x62]] false false []) 6 0 1 0
          0).effects.flatMap Effect.shown).take 5 ≠ [0x61, 0x20, 0x20, 0x20, 0x62] := by
  decide

/-- C7, the code at the failing input: the line `éa` (bytes C3 A9 61) has two code points;
for width 1 the cut `screenLine[:w]` keeps the single byte C3, which is not the first code
point `é` but half of it and reads back as `RuneError`; and for width 2 the line `éé` is
cut to the one code point `é` although its two code points fit. -/
theorem screenLine_cut_is_in_bytes :
    runes [0xC3, 0xA9, 0x61] = [0xE9, 0x61] ∧
      screenLineOf 1 (expandLine (sampleEditor [] false false []) [0xC3, 0xA9, 0x61])
        = [0xC3] ∧
      runes (screenLineOf 1 (expandLine (sampleEditor [] false false []) [0xC3, 0xA9, 0x61]))
        = [RuneError] ∧
      (WriteLines plainDeps (sampleEditor [[0xC3, 0xA9, 0x61]] false false []) 1 0 1 0
          0).effects = [Effect.Write 0 0 1 2 [0xC3]] ∧
      runes (screenLineOf 2 [0xC3, 0xA9, 0xC3, 0xA9]) = [0xE9] := by
  decide

/-! ### Columns written in a row -/

theorem runesAux_length_le : ∀ (s : GoString) (k : Nat), (runesAux k s).length ≤ s.length := by
  intro s
  induction s with
  | nil => intro k; simp [runesAux]
  | cons b rest ih =>
    intro k
    cases k with
    | zero =>
      simp only [runesAux, List.length_cons]
      exact Nat.succ_le_succ (ih _)
    | succ k =>
      simp only [runesAux, List.length_cons]
      exact Nat.le_succ_of_le (ih _)

theorem runes_length_le (s : GoString) : (runes s).length ≤ s.length :=
  runesAux_length_le s 0

theorem screenLineOf_runes_length_le (w : Nat) (line : GoString) :
    (runes (screenLineOf w line)).length ≤ w := by
  simp only [screenLineOf]
  split
  · calc (runes ((TrimRightSpace line).take w)).length
        ≤ ((TrimRightSpace line).take w).length := runes_length_le _
      _ ≤ w := by simp [List.length_take]
  · omega

theorem runes_replicate_space (n : Nat) :
    runes (List.replicate n 0x20) = List.replicate n 0x20 := by
  induction n with
  | zero => rfl
  | succ n ih =>
    have : runes (List.replicate (n + 1) 0x20)
        = 0x20 :: runes (List.replicate n 0x20) := by
      simp [runes, runesAux, List.replicate_succ, DecodeRune]
    rw [this, ih, List.replicate_succ]

theorem cells_range (cx r : Int) (c n : Nat) :
    (List.range n).map (fun (i : Nat) => (cx + ((c : Nat) : Int) + (i : Int), r))
      = (List.range' c n).map (fun (x : Nat) => (cx + (x : Int), r)) := by
  rw [List.range'_eq_map_range, List.map_map]
  apply List.map_congr_left
  intro i _
  simp only [Function.comp, Nat.cast_add]
  rw [Int.add_assoc]

theorem blanks_cells (e : Editor) (w : Nat) (cx cy : Int) (y c : Nat) :
    (blanks e w cx cy y c).flatMap Effect.cells
      = (List.range' c (w - c)).map (fun (x : Nat) => (cx + (x : Int), cy + (y : Int))) := by
  unfold blanks
  induction (List.range' c (w - c)) with
  | nil => rfl
  | cons a l ih => simp [Effect.cells, ih]

theorem writeCells_cells (e : Editor) (cx cy : Int) (y : Nat) :
    ∀ (cas : List CharAttribute) (counter k : Nat),
      (writeCells e cx cy y cas counter k).1.flatMap Effect.cells
          = (List.range' counter (cellsWidth e cas)).map
              (fun (x : Nat) => (cx + (x : Int), cy + (y : Int))) ∧
        (writeCells e cx cy y cas counter k).2 = counter + cellsWidth e cas := by
  intro cas
  induction cas with
  | nil => intro counter k; simp [writeCells, cellsWidth]
  | cons c rest ih =>
    intro counter k
    by_cases hc : c.R = 0x09
    · have hcw : cellsWidth e (c :: rest) = tabWidth e + cellsWidth e rest := by
        simp [cellsWidth, hc]
      have hadv : (if e.drawMode = true then counter + 1 else counter + e.spacesPerTab)
          = counter + tabWidth e := by
        unfold tabWidth; split <;> rfl
      simp only [writeCells, hc, if_true, hadv, List.flatMap_cons, (ih _ _).1, (ih _ _).2,
        hcw]
      refine ⟨?_, by omega⟩
      have hlen : (runes (tabString e)).length = tabWidth e := by
        rw [tabString_eq, runes_replicate_space, List.length_replicate]
      simp only [Effect.cells, hlen, cells_range]
      rw [← List.map_append, List.range'_append_1, Nat.add_comm (cellsWidth e rest)]
    · have hcw : cellsWidth e (c :: rest) = 1 + cellsWidth e rest := by
        simp [cellsWidth, hc]
      simp only [writeCells, hc, if_false, List.flatMap_cons, (ih _ _).1, (ih _ _).2, hcw]
      refine ⟨?_, by omega⟩
      simp only [Effect.cells, List.singleton_append]
      rw [Nat.add_comm 1 (cellsWidth e rest), List.range'_succ, List.map_cons]

theorem range_append_range' (cx r : Int) (n w : Nat) (h : n ≤ w) :
    (List.range' 0 n).map (fun (x : Nat) => (cx + (x : Int), r))
        ++ (List.range' n (w - n)).map (fun (x : Nat) => (cx + (x : Int), r))
      = (List.range w).map (fun (i : Nat) => (cx + (i : Int), r)) := by
  rw [← List.map_append]
  have := List.range'_append_1 0 n (w - n)
  rw [Nat.zero_add] at this
  rw [this, List.range_eq_range', show w - n + n = w by omega]

theorem drawLine_cells_plain (d : Deps) (e : Editor) (w : Nat) (offset cx cy : Int)
    (st : LoopState) (y : Nat) (hp : (e.syntaxHighlight && !d.noColor) = false) :
    (drawLine d e w offset cx cy st y).1.flatMap Effect.cells
      = (List.range w).map (fun (i : Nat) => (cx + (i : Int), cy + (y : Int))) := by
  have hle := screenLineOf_runes_length_le w (expandLine e (e.Line (y + offset)))
  simp only [drawLine, lineContent, hp, Bool.false_eq_true, if_false, List.flatMap_append,
    blanks_cells, List.flatMap_cons, List.flatMap_nil, List.append_nil, Effect.cells]
  rw [List.range_eq_range']
  exact range_append_range' cx (cy + y) _ w hle

theorem drawLine_cells_highlighted (d : Deps) (e : Editor) (w : Nat) (offset cx cy : Int)
    (st : LoopState) (y : Nat) (tw : GoString)
    (hh : (e.syntaxHighlight && !d.noColor) = true)
    (ht : d.AsText (d.Escape (expandLine e (e.Line (y + offset))))
      (decide (e.mode = modeAssembly) || decide (e.mode = modeLisp)) = some tw) :
    (drawLine d e w offset cx cy st y).1.flatMap Effect.cells
      = (List.range (max w (cellsWidth e
          (lineCells d e st (expandLine e (e.Line (y + offset))) tw).1))).map
          (fun (i : Nat) => (cx + (i : Int), cy + (y : Int))) := by
  have hc := writeCells_cells e cx cy y
    (lineCells d e st (expandLine e (e.Line (y + offset))) tw).1 0 0
  simp only [drawLine, lineContent, hh, ht, if_true, List.flatMap_append, blanks_cells, hc.1,
    hc.2, Nat.zero_add]
  by_cases hw : cellsWidth e (lineCells d e st (expandLine e (e.Line (y + offset))) tw).1 ≤ w
  · rw [Nat.max_eq_left hw]
    exact range_append_range' cx (cy + y) _ w hw
  · have hw2 : w ≤ cellsWidth e (lineCells d e st (expandLine e (e.Line (y + offset))) tw).1 :=
      by omega
    rw [Nat.max_eq_right hw2, show w - cellsWidth e
      (lineCells d e st (expandLine e (e.Line (y + offset))) tw).1 = 0 by omega]
    simp [List.range_eq_range']

/-- C8, as amended: in the plain path the calls of a row address exactly the `w` cells
`cx .. cx+w-1` of row `cy+y`, whatever the line; in the highlighted path every extracted
character is written, unclipped, so the calls address the cells `cx .. cx+max(w,n)-1` of
the row, `n` being the columns the extracted characters take: beyond `cx+w` whenever
`n > w`. No call addresses another row. -/
theorem width_clipping_by_path (d : Deps) (e : Editor) (w : Nat) (offset cx cy : Int)
    (st : LoopState) (y : Nat) :
    ((e.syntaxHighlight && !d.noColor) = false →
      (drawLine d e w offset cx cy st y).1.flatMap Effect.cells
        = (List.range w).map (fun (i : Nat) => (cx + (i : Int), cy + (y : Int)))) ∧
    (∀ tw : GoString, (e.syntaxHighlight && !d.noColor) = true →
      d.AsText (d.Escape (expandLine e (e.Line (y + offset))))
        (decide (e.mode = modeAssembly) || decide (e.mode = modeLisp)) = some tw →
      (drawLine d e w offset cx cy st y).1.flatMap Effect.cells
        = (List.range (max w (cellsWidth e
            (lineCells d e st (expandLine e (e.Line (y + offset))) tw).1))).map
            (fun (i : Nat) => (cx + (i : Int), cy + (y : Int)))) :=
  ⟨drawLine_cells_plain d e w offset cx cy st y,
    fun tw hh ht => drawLine_cells_highlighted d e w offset cx cy st y tw hh ht⟩

/-- Witness of C8 as amended: the line `abc` on a canvas of width 2, in the plain path. -/
theorem width_clipping_by_path_witness :
    (drawLine plainDeps (sampleEditor [[0x61, 0x62, 0x63]] false false []) 2 0 0 0
        (prescan plainDeps (sampleEditor [[0x61, 0x62, 0x63]] false false []) 0)
        0).1.flatMap Effect.cells = [(0, 0), (1, 0)] :=
  (width_clipping_by_path plainDeps (sampleEditor [[0x61, 0x62, 0x63]] false false []) 2 0 0 0
    (prescan plainDeps (sampleEditor [[0x61, 0x62, 0x63]] false false []) 0) 0).1 (by decide)

/-- C8, counterexample: in the highlighted path the line `abc` on a canvas of width 2, at
`cx = 0`, gets a call for column 2, which is at `cx + W`; the plain path stops at
column 1. -/
theorem highlighted_path_writes_past_width :
    (WriteLines plainDeps (sampleEditor [[0x61, 0x62, 0x63]] true false []) 2 0 1 0 0).effects
        = [Effect.WriteRune 0 0 7 2 0x61, Effect.WriteRune 1 0 7 2 0x62,
           Effect.WriteRune 2 0 7 2 0x63] ∧
      ((2 : Int), (0 : Int)) ∈
        (WriteLines plainDeps (sampleEditor [[0x61, 0x62, 0x63]] true false []) 2 0 1 0
          0).effects.flatMap Effect.cells ∧
      (WriteLines plainDeps (sampleEditor [[0x61, 0x62, 0x63]] false false []) 2 0 1 0
          0).effects.flatMap Effect.cells = [(0, 0), (1, 0)] := by
  decide

/-! ### Control characters -/

theorem writeCells_shown (e : Editor) (cx cy : Int) (y : Nat) :
    ∀ (cas : List CharAttribute) (counter k : Nat),
      (writeCells e cx cy y cas counter k).1.map Effect.shown
        = cas.map (fun ca =>
            if ca.R = 0x09 then List.replicate (tabWidth e) 0x20
            else if IsControl ca.R = true then [controlRuneReplacement] else [ca.R]) := by
  intro cas
  induction cas with
  | nil => intro counter k; simp [writeCells]
  | cons c rest ih =>
    intro counter k
    by_cases hc : c.R = 0x09
    · simp only [writeCells, hc, if_true, List.map_cons, ih, Effect.shown, tabString_eq,
        runes_replicate_space]
    · simp only [writeCells, hc, if_false, List.map_cons, ih, Effect.shown]
      split <;> rfl

/-- The loop of the highlighted path, the sibling of the plain path: a control character
other than tab and newline is written as the placeholder `¿`, a tab is written as the
spaces of the tab string, and a character that is not a control character is written as
itself. -/
theorem highlighted_loop_replaces_control_runes (e : Editor) (cx cy : Int) (y : Nat)
    (cas : List CharAttribute) (counter k j : Nat) (ca : CharAttribute)
    (hj : cas[j]? = some ca) :
    (ca.R ≠ 0x09 → ca.R ≠ 0x0A → IsControl ca.R = true →
      ((writeCells e cx cy y cas counter k).1[j]?).map Effect.shown
        = some [controlRuneReplacement]) ∧
    (ca.R = 0x09 →
      ((writeCells e cx cy y cas counter k).1[j]?).map Effect.shown
        = some (List.replicate (tabWidth e) 0x20)) ∧
    (IsControl ca.R = false →
      ((writeCells e cx cy y cas counter k).1[j]?).map Effect.shown = some [ca.R]) := by
  have h := congrArg (fun l => l[j]?) (writeCells_shown e cx cy y cas counter k)
  simp only [List.getElem?_map, hj, Option.map_some'] at h
  refine ⟨?_, ?_, ?_⟩
  · intro h9 _ hctl
    rw [h]; simp [h9, hctl]
  · intro h9
    rw [h]; simp [h9]
  · intro hctl
    have h9 : ca.R ≠ 0x09 := by
      intro h9
      rw [h9] at hctl
      exact absurd hctl (by decide)
    rw [h]; simp [h9, hctl]

/-- C9, the code at the failing inputs. With highlighting off the line `U+0001`, `a` is
written by the plain path as it is: the control character reaches the canvas and no
placeholder appears in the row, while the loop of the highlighted path writes the same
character as the placeholder. In that loop a newline character is written as the
placeholder too. -/
theorem plain_path_keeps_control_runes :
    ((WriteLines plainDeps (sampleEditor [[0x01, 0x61]] false false []) 4 0 1 0
        0).effects.flatMap Effect.shown) = [0x01, 0x61, 0x20, 0x20] ∧
      controlRuneReplacement ∉
        (WriteLines plainDeps (sampleEditor [[0x01, 0x61]] false false []) 4 0 1 0
          0).effects.flatMap Effect.shown ∧
      (writeCells (sampleEditor [] true false []) 0 0 0
          [{ R := 0x01, A := 7 }, { R := 0x61, A := 7 }] 0 0).1.flatMap Effect.shown
        = [controlRuneReplacement, 0x61] ∧
      (writeCells (sampleEditor [] true false []) 0 0 0 [{ R := 0x0A, A := 7 }] 0 0).1
        = [Effect.WriteRune 0 0 7 2 controlRuneReplacement] := by
  decide

/-! ### Blanks up to the width -/

/-- C10, as amended: in every branch the closing loop writes a space with the editor's
colours to each column `x` with `counter <= x < w` of the row; and unless the tokenizer
failed on the line (plain path, or highlighted path with a tokenized line) every cell
`cx + x`, `x < w`, of the row is addressed by a call of the iteration, so none keeps an
older content. -/
theorem blanks_fill_the_row (d : Deps) (e : Editor) (w : Nat) (offset cx cy : Int)
    (st : LoopState) (y : Nat) :
    (∀ x : Nat, (lineContent d e w offset cx cy st y).2.1 ≤ x → x < w →
      Effect.WriteRune (cx + x) (cy + y) e.fg e.bg 0x20
        ∈ (drawLine d e w offset cx cy st y).1) ∧
    (((e.syntaxHighlight && !d.noColor) = true →
        d.AsText (d.Escape (expandLine e (e.Line (y + offset))))
          (decide (e.mode = modeAssembly) || decide (e.mode = modeLisp)) ≠ none) →
      ∀ x : Nat, x < w →
        (cx + (x : Int), cy + (y : Int))
          ∈ (drawLine d e w offset cx cy st y).1.flatMap Effect.cells) := by
  constructor
  · intro x hx hw
    simp only [drawLine, List.mem_append]
    right
    simp only [blanks, List.mem_map, List.mem_range'_1]
    exact ⟨x, ⟨hx, by omega⟩, rfl⟩
  · intro hok x hx
    by_cases hh : (e.syntaxHighlight && !d.noColor) = true
    · cases ht : d.AsText (d.Escape (expandLine e (e.Line (y + offset))))
          (decide (e.mode = modeAssembly) || decide (e.mode = modeLisp)) with
      | none => exact absurd ht (hok hh)
      | some tw =>
        rw [drawLine_cells_highlighted d e w offset cx cy st y tw hh ht, List.mem_map]
        exact ⟨x, List.mem_range.mpr (lt_of_lt_of_le hx (Nat.le_max_left _ _)), rfl⟩
    · rw [drawLine_cells_plain d e w offset cx cy st y (Bool.eq_false_iff.mpr hh),
        List.mem_map]
      exact ⟨x, List.mem_range.mpr hx, rfl⟩

/-- Witness of C10 as amended: the line `ab` on a canvas of width 4, in the plain path. -/
theorem blanks_fill_the_row_witness :
    ((0 : Int) + ((3 : Nat) : Int), (0 : Int) + ((0 : Nat) : Int)) ∈
      (drawLine plainDeps (sampleEditor [[0x61, 0x62]] false false []) 4 0 0 0
        (prescan plainDeps (sampleEditor [[0x61, 0x62]] false false []) 0)
        0).1.flatMap Effect.cells :=
  (blanks_fill_the_row plainDeps (sampleEditor [[0x61, 0x62]] false false []) 4 0 0 0
    (prescan plainDeps (sampleEditor [[0x61, 0x62]] false false []) 0) 0).2
    (by decide) 3 (by decide)

/-- C10, counterexample: when the tokenizer fails on the line `ab` (canvas width 3) the
content goes to `fmt.Println` and only column 2 of the row gets a canvas call; columns 0
and 1 keep whatever they held. -/
theorem tokenizer_failure_leaves_columns :
    (WriteLines failingDeps (sampleEditor [[0x61, 0x62]] true false []) 3 0 1 0 0).effects
        = [Effect.Println [0x61, 0x62], Effect.WriteRune 2 0 1 2 0x20] ∧
      ((0 : Int), (0 : Int)) ∉
        (WriteLines failingDeps (sampleEditor [[0x61, 0x62]] true false []) 3 0 1 0
          0).effects.flatMap Effect.cells := by
  decide

/-! ### The plain path -/

theorem lineContent_plain (d : Deps) (e : Editor) (w : Nat) (offset cx cy : Int)
    (st : LoopState) (y : Nat) (hp : (e.syntaxHighlight && !d.noColor) = false) :
    drawLine d e w offset cx cy st y = (plainRow e w offset cx cy y, st) := by
  simp only [drawLine, lineContent, hp, Bool.false_eq_true, if_false, plainRow,
    List.singleton_append]

theorem drawLoop_plain (d : Deps) (e : Editor) (w : Nat) (offset cx cy : Int)
    (hp : (e.syntaxHighlight && !d.noColor) = false) :
    ∀ (ys : List Nat) (st : LoopState),
      drawLoop d e w offset cx cy ys st = (ys.flatMap (plainRow e w offset cx cy), st) := by
  intro ys
  induction ys with
  | nil => intro st; rfl
  | cons y ys ih =>
    intro st
    simp only [drawLoop, lineContent_plain d e w offset cx cy st y hp, ih,
      List.flatMap_cons]

/-- C11: with `NO_COLOR` set and non-empty, a call over a valid range issues, row by row,
exactly the calls of the plain path (the trimmed, clipped line with `e.fg` and `e.bg`,
then the blanks), and the calls do not change when the mode, the `syntaxHighlight` flag,
the `rainbowParenthesis` flag and the search term of the editor are replaced by any
others. -/
theorem no_color_forces_plain_path (d : Deps) (e : Editor) (w : Nat)
    (fromline toline cx cy : Int) (hnc : d.noColor = true) (hr : fromline < toline) :
    (WriteLines d e w fromline toline cx cy).effects
        = (List.range (toline - fromline).toNat).flatMap (plainRow e w fromline cx cy) ∧
      (WriteLines d e w fromline toline cx cy).err = none ∧
      ∀ (m : Mode) (sh rp : Bool) (s : GoString),
        (WriteLines d
            { e with
              mode := m, syntaxHighlight := sh, rainbowParenthesis := rp, searchTerm := s }
            w fromline toline cx cy).effects
          = (WriteLines d e w fromline toline cx cy).effects := by
  have hr2 : ¬ fromline ≥ toline := by omega
  have key : ∀ e2 : Editor, (WriteLines d e2 w fromline toline cx cy).effects
      = (List.range (toline - fromline).toNat).flatMap (plainRow e2 w fromline cx cy) := by
    intro e2
    have hp : (e2.syntaxHighlight && !d.noColor) = false := by simp [hnc]
    simp only [WriteLines, hr2, if_false, drawLoop_plain d e2 w fromline cx cy hp]
  refine ⟨key e, by simp [WriteLines, hr2], ?_⟩
  intro m sh rp s
  rw [key, key]
  rfl

/-- Witness of C11: two lines drawn with `NO_COLOR` set, highlighting switched on. -/
theorem no_color_forces_plain_path_witness :
    (WriteLines { plainDeps with noColor := true }
        (sampleEditor [[0x61], [0x62, 0x63]] true false [0x61]) 3 0 2 0 0).effects
      = (List.range ((2 : Int) - 0).toNat).flatMap
          (plainRow (sampleEditor [[0x61], [0x62, 0x63]] true false [0x61]) 3 0 0 0) :=
  (no_color_forces_plain_path { plainDeps with noColor := true }
    (sampleEditor [[0x61], [0x62, 0x63]] true false [0x61]) 3 0 2 0 0 rfl (by decide)).1

/-- C12, the code at the failing input: with a tokenizer that fails, the lines `ab` and
`c` on a canvas of width 3 are sent to `fmt.Println`, and the canvas only gets the blanks
behind them, cells (2,0), (1,1) and (2,1); the plain path writes the lines to the canvas
and addresses all six cells. The second line is handled after the first failed. -/
theorem tokenizer_failure_prints_to_stdout :
    (WriteLines failingDeps (sampleEditor [[0x61, 0x62], [0x63]] true false []) 3 0 2 0
        0).effects
      = [Effect.Println [0x61, 0x62], Effect.WriteRune 2 0 1 2 0x20,
         Effect.Println [0x63], Effect.WriteRune 1 1 1 2 0x20,
         Effect.WriteRune 2 1 1 2 0x20] ∧
    (WriteLines plainDeps (sampleEditor [[0x61, 0x62], [0x63]] false false []) 3 0 2 0
        0).effects
      = [Effect.Write 0 0 1 2 [0x61, 0x62], Effect.WriteRune 2 0 1 2 0x20,
         Effect.Write 0 1 1 2 [0x63], Effect.WriteRune 1 1 1 2 0x20,
         Effect.WriteRune 2 1 1 2 0x20] ∧
    (WriteLines failingDeps (sampleEditor [[0x61, 0x62], [0x63]] true false []) 3 0 2 0
        0).effects.flatMap Effect.cells = [(2, 0), (1, 1), (2, 1)] ∧
    (WriteLines plainDeps (sampleEditor [[0x61, 0x62], [0x63]] false false []) 3 0 2 0
        0).effects.flatMap Effect.cells
      = [(0, 0), (1, 0), (2, 0), (0, 1), (1, 1), (2, 1)] := by
  decide

/-! ### The code block flag of Markdown -/

theorem scanCodeBlock_succ (e : Editor) (n : Nat) (hm : e.mode = modeMarkdown) :
    scanCodeBlock e ((n + 1 : Nat) : Int)
      = xor (scanCodeBlock e (n : Int)) (startsWithFence (e.Line (n : Int))) := by
  simp only [scanCodeBlock, hm, if_true, Int.toNat_ofNat, List.range_succ, List.foldl_append,
    List.foldl_cons, List.foldl_nil]
  cases hf : startsWithFence (e.Line (n : Int))
  · have hf2 : (HasPrefix (e.Line (n : Int)) [0x7E, 0x7E, 0x7E]
        || HasPrefix (e.Line (n : Int)) [0x60, 0x60, 0x60]) = false := hf
    simp only [hf2, Bool.false_eq_true, if_false, Bool.xor_false]
  · have hf2 : (HasPrefix (e.Line (n : Int)) [0x7E, 0x7E, 0x7E]
        || HasPrefix (e.Line (n : Int)) [0x60, 0x60, 0x60]) = true := hf
    simp only [hf2, if_true, Bool.xor_true]

theorem scanCodeBlock_parity (e : Editor) (hm : e.mode = modeMarkdown) :
    ∀ n : Nat, scanCodeBlock e (n : Int) = decide (fenceCount e n % 2 = 1) := by
  intro n
  induction n with
  | zero => simp [scanCodeBlock, hm, fenceCount]
  | succ n ih =>
    rw [scanCodeBlock_succ e n hm, ih]
    have hc : fenceCount e (n + 1)
        = fenceCount e n + (if startsWithFence (e.Line (n : Int)) = true then 1 else 0) := by
      simp only [fenceCount, List.range_succ, List.countP_append, List.countP_singleton]
    rw [hc]
    cases startsWithFence (e.Line (n : Int))
    · simp
    · simp only [if_true, Bool.xor_true]
      by_cases h : fenceCount e n % 2 = 1
      · have h2 : ¬ (fenceCount e n + 1) % 2 = 1 := by omega
        simp [h, h2]
      · have h2 : (fenceCount e n + 1) % 2 = 1 := by omega
        simp [h, h2]

/-- C13, as amended: in Markdown mode the code block flag with which the drawing starts at
`fromline` is the parity of the number of lines `i` in `[0, fromline)` whose stored,
untrimmed text starts with three tildes or three backticks: each such line toggles the
flag and every other line leaves it as it is. In the other modes the flag starts unset. -/
theorem code_block_flag_is_fence_parity (d : Deps) (e : Editor) (n : Nat) :
    (e.mode = modeMarkdown →
      (prescan d e (n : Int)).inCodeBlock = decide (fenceCount e n % 2 = 1) ∧
      (prescan d e ((n + 1 : Nat) : Int)).inCodeBlock
        = xor (prescan d e (n : Int)).inCodeBlock (startsWithFence (e.Line (n : Int)))) ∧
    (e.mode ≠ modeMarkdown → (prescan d e (n : Int)).inCodeBlock = false) := by
  constructor
  · intro hm
    exact ⟨scanCodeBlock_parity e hm n, scanCodeBlock_succ e n hm⟩
  · intro hm
    simp [prescan, scanCodeBlock, hm]

/-- Witness of C13 as amended: a fence, a text line and a fence, then `fromline = 3`. -/
theorem code_block_flag_is_fence_parity_witness :
    (prescan plainDeps
        { sampleEditor [[0x60, 0x60, 0x60], [0x61], [0x7E, 0x7E, 0x7E]] true false [] with
          mode := modeMarkdown } ((3 : Nat) : Int)).inCodeBlock
      = decide (fenceCount
          { sampleEditor [[0x60, 0x60, 0x60], [0x61], [0x7E, 0x7E, 0x7E]] true false [] with
            mode := modeMarkdown } 3 % 2 = 1) :=
  ((code_block_flag_is_fence_parity plainDeps
    { sampleEditor [[0x60, 0x60, 0x60], [0x61], [0x7E, 0x7E, 0x7E]] true false [] with
      mode := modeMarkdown } 3).1 rfl).1

/-- C13, counterexample: the line of two spaces and three backticks has a trimmed text
that starts with a fence marker, so one line of `[0, 1)` counts for the claim; yet the
flag at `fromline = 1` is unset, the stored line does not start with the marker. -/
theorem indented_fence_is_not_counted :
    trimmedFenceCount
        { sampleEditor [[0x20, 0x20, 0x60, 0x60, 0x60]] true false [] with
          mode := modeMarkdown } 1 = 1 ∧
      (prescan plainDeps
        { sampleEditor [[0x20, 0x20, 0x60, 0x60, 0x60]] true false [] with
          mode := modeMarkdown } 1).inCodeBlock = false ∧
      (prescan plainDeps
        { sampleEditor [[0x20, 0x20, 0x60, 0x60, 0x60]] true false [] with
          mode := modeMarkdown } 1).inCodeBlock
        ≠ decide (trimmedFenceCount
            { sampleEditor [[0x20, 0x20, 0x60, 0x60, 0x60]] true false [] with
              mode := modeMarkdown } 1 % 2 = 1) := by
  decide

/-! ### Replaying the quote state -/

/-- C15, the code at the failing input: a buffer `(`, `x` in Shell mode with highlighting
on, and a `Process` that counts brackets. Started at line 1, the loop over `[0, 1)` has
passed the `(` and line 1 is drawn with depth 1; started at line 0, the drawing of line 0
takes the Shell case, which never calls `Process`, and line 1 is drawn with depth 0. The
same happens in any mode with highlighting off. -/
theorem replay_differs_from_drawing :
    (prescan parenDeps
        { sampleEditor [[0x28], [0x78]] true false [] with mode := modeShell } 1).q.parCount
      = 1 ∧
    (stateAtLine parenDeps
        { sampleEditor [[0x28], [0x78]] true false [] with mode := modeShell } 8 0 0 0
        1).q.parCount = 0 ∧
    (stateAtLine parenDeps
        { sampleEditor [[0x28], [0x78]] true false [] with mode := modeShell } 8 0 0 0 1).q
      ≠ (prescan parenDeps
        { sampleEditor [[0x28], [0x78]] true false [] with mode := modeShell } 1).q ∧
    (stateAtLine parenDeps (sampleEditor [[0x28], [0x78]] false false []) 8 0 0 0 1).q
      ≠ (prescan parenDeps (sampleEditor [[0x28], [0x78]] false false []) 1).q ∧
    (stateAtLine parenDeps (sampleEditor [[0x28], [0x78]] true false []) 8 0 0 0 1).q
      = (prescan parenDeps (sampleEditor [[0x28], [0x78]] true false []) 1).q := by
  decide

/-! ### Occurrences of a text in a line -/

theorem HasPrefix_nil (sep : GoString) (h : sep ≠ []) : HasPrefix [] sep = false := by
  cases sep with
  | nil => exact absurd rfl h
  | cons a t => simp [HasPrefix]

theorem Index_some_spec (sep : GoString) :
    ∀ (l : GoString) (i : Nat), Index l sep = some i →
      HasPrefix (l.drop i) sep = true ∧ ∀ j, j < i → HasPrefix (l.drop j) sep = false := by
  intro l
  induction l with
  | nil => intro i h; simp [Index] at h
  | cons b rest ih =>
    intro i h
    simp only [Index] at h
    by_cases hp : HasPrefix (b :: rest) sep = true
    · simp only [hp, if_true, Option.some.injEq] at h
      subst h
      exact ⟨hp, fun j hj => absurd hj (Nat.not_lt_zero j)⟩
    · have hp2 : HasPrefix (b :: rest) sep = false := Bool.eq_false_iff.mpr hp
      simp only [hp2, Bool.false_eq_true, if_false] at h
      cases hi : Index rest sep with
      | none => rw [hi] at h; simp at h
      | some i2 =>
        rw [hi] at h
        simp only [Option.map_some', Option.some.injEq] at h
        subst h
        have := ih i2 hi
        refine ⟨by simpa using this.1, ?_⟩
        intro j hj
        cases j with
        | zero => simpa using hp2
        | succ j => simpa using this.2 j (by omega)

theorem Index_none_spec (sep : GoString) (hsep : sep ≠ []) :
    ∀ (l : GoString), Index l sep = none → ∀ j, HasPrefix (l.drop j) sep = false := by
  intro l
  induction l with
  | nil => intro _ j; simpa using HasPrefix_nil sep hsep
  | cons b rest ih =>
    intro h j
    simp only [Index] at h
    by_cases hp : HasPrefix (b :: rest) sep = true
    · simp [hp] at h
    · have hp2 : HasPrefix (b :: rest) sep = false := Bool.eq_false_iff.mpr hp
      simp only [hp2, Bool.false_eq_true, if_false, Option.map_eq_none'] at h
      cases j with
      | zero => simpa using hp2
      | succ j => simpa using ih h j

theorem Index_isSome_of_occurs (sep : GoString) (hsep : sep ≠ []) (l : GoString) (j : Nat)
    (h : HasPrefix (l.drop j) sep = true) : ∃ i, Index l sep = some i := by
  cases hi : Index l sep with
  | some i => exact ⟨i, rfl⟩
  | none =>
    have := Index_none_spec sep hsep l hi j
    rw [h] at this
    exact absurd this (by decide)

theorem Contains_eq_isSome (sep : GoString) :
    ∀ l : GoString, Contains l sep = (Index l sep).isSome := by
  intro l
  induction l with
  | nil => simp [Contains, Count, countAux, Index]
  | cons b rest ih =>
    simp only [Contains, Count] at ih
    simp only [Contains, Count, countAux, Index]
    by_cases hp : HasPrefix (b :: rest) sep = true
    · simp only [hp, if_true, Option.isSome_some, decide_eq_true_eq]
      omega
    · have hp2 : HasPrefix (b :: rest) sep = false := Bool.eq_false_iff.mpr hp
      simp only [hp2, Bool.false_eq_true, if_false, ih, Option.isSome_map']

theorem HasPrefix_eq_append (x sep : GoString) (h : HasPrefix x sep = true) :
    x = sep ++ x.drop sep.length := by
  have h2 : x.take sep.length = sep := by simpa [HasPrefix] using h
  calc x = x.take sep.length ++ x.drop sep.length := (List.take_append_drop _ _).symm
    _ = sep ++ x.drop sep.length := by rw [h2]

theorem HasPrefix_of_take (x sep : GoString) (b i : Nat)
    (h : HasPrefix ((x.take b).drop i) sep = true) : HasPrefix (x.drop i) sep = true := by
  have h2 : ((x.take b).drop i).take sep.length = sep := by simpa [HasPrefix] using h
  rw [List.drop_take, List.take_take] at h2
  have hlen := congrArg List.length h2
  simp only [List.length_take, List.length_drop] at hlen
  have hmin : min sep.length (b - i) = sep.length := by omega
  rw [hmin] at h2
  simp [HasPrefix, h2]

theorem trimLeftAux_eq_drop : ∀ (l : GoString) (k : Nat), ∃ a, trimLeftAux k l = l.drop a := by
  intro l
  induction l with
  | nil => intro k; exact ⟨0, by cases k <;> rfl⟩
  | cons b rest ih =>
    intro k
    cases k with
    | zero =>
      simp only [trimLeftAux]
      split
      · obtain ⟨a, ha⟩ := ih ((DecodeRune (b :: rest)).2 - 1)
        exact ⟨a + 1, by simpa using ha⟩
      · exact ⟨0, rfl⟩
    | succ k =>
      obtain ⟨a, ha⟩ := ih k
      exact ⟨a + 1, by simpa [trimLeftAux] using ha⟩

theorem TrimRightSpace_eq_take (s : GoString) : ∃ b, TrimRightSpace s = s.take b := by
  unfold TrimRightSpace
  split
  · split
    · exact ⟨_, rfl⟩
    · exact ⟨_, rfl⟩
  · exact ⟨0, rfl⟩

theorem TrimSpace_eq_take_drop (l : GoString) : ∃ a b, TrimSpace l = (l.drop a).take b := by
  obtain ⟨a, ha⟩ := trimLeftAux_eq_drop l 0
  obtain ⟨b, hb⟩ := TrimRightSpace_eq_take (TrimLeftSpace l)
  refine ⟨a, b, ?_⟩
  unfold TrimSpace
  rw [hb]
  unfold TrimLeftSpace
  rw [ha]

/-- A text that the trimmed line contains is found in the line itself. -/
theorem Index_isSome_of_Count_trim (line sep : GoString) (hsep : sep ≠ [])
    (h : 0 < Count (TrimSpace line) sep) : ∃ i, Index line sep = some i := by
  have hc : Contains (TrimSpace line) sep = true := by simp [Contains, h]
  rw [Contains_eq_isSome] at hc
  obtain ⟨i, hi⟩ := Option.isSome_iff_exists.mp hc
  have hocc := (Index_some_spec sep _ i hi).1
  obtain ⟨a, b, hab⟩ := TrimSpace_eq_take_drop line
  rw [hab] at hocc
  have h3 := HasPrefix_of_take (line.drop a) sep b i hocc
  rw [List.drop_drop] at h3
  exact Index_isSome_of_occurs sep hsep line _ h3


/-! ### The comment marker of Vim and Lisp -/

theorem splitComment_eq (d : Deps) (e : Editor) (line tw marker : GoString) (i : Nat)
    (hi : Index line marker = some i) :
    splitComment d e line tw marker
        = splitColoring d e tw (line.take i) marker (line.drop (i + marker.length)) ∧
      line = line.take i ++ marker ++ line.drop (i + marker.length) := by
  constructor
  · simp only [splitComment, SplitN2, hi, splitColoring, List.getD_cons_zero,
      List.getD_cons_succ]
  · have h := HasPrefix_eq_append _ _ (Index_some_spec marker line i hi).1
    rw [List.drop_drop] at h
    calc line = line.take i ++ line.drop i := (List.take_append_drop _ _).symm
      _ = line.take i ++ (marker ++ line.drop (i + marker.length)) := by rw [← h]
      _ = line.take i ++ marker ++ line.drop (i + marker.length) := by
        rw [List.append_assoc]

/-- C14, as amended. In Vim mode the override is applied exactly when the trimmed line
holds one `"`: the whole line gets the comment colour when the trimmed line starts with
`"`, else the line is split at its first `"`, the part before it is tokenized on its own
and the `"` with the rest gets the comment colour (the regular painting of the whole line
when that tokenizing fails); with no or several `"` the line takes the default path, from
the untouched state. In Lisp mode `q.singleQuote` is reset first, in every case; then the
override is applied exactly when the trimmed line holds one `;;`: the whole line gets
the comment colour when the trimmed line starts with a single `;`, else the line is split
at its first `;;`; with no or several `;;` the line takes the default path. -/
theorem marker_comment_override (d : Deps) (e : Editor) (st : LoopState)
    (line tw : GoString) :
    (e.mode = modeVim →
      (Count (TrimSpace line) [0x22] ≠ 1 →
        highlightLine d e st line tw = runDefaultBlock d e st line tw) ∧
      (Count (TrimSpace line) [0x22] = 1 →
        (highlightLine d e st line tw).st = st ∧
        (HasPrefix (TrimSpace line) [0x22] = true →
          (highlightLine d e st line tw).coloredString
            = d.UnEscape (d.Get e.multiLineComment line)) ∧
        (HasPrefix (TrimSpace line) [0x22] = false →
          ∃ i, Index line [0x22] = some i ∧
            line = line.take i ++ [0x22] ++ line.drop (i + 1) ∧
            (highlightLine d e st line tw).coloredString
              = splitColoring d e tw (line.take i) [0x22] (line.drop (i + 1))))) ∧
    (e.mode = modeLisp →
      (Count (TrimSpace line) [0x3B, 0x3B] ≠ 1 →
        highlightLine d e st line tw
          = runDefaultBlock d e { st with q := { st.q with singleQuote := 0 } } line tw) ∧
      (Count (TrimSpace line) [0x3B, 0x3B] = 1 →
        (highlightLine d e st line tw).st = { st with q := { st.q with singleQuote := 0 } } ∧
        (HasPrefix (TrimSpace line) [0x3B] = true →
          (highlightLine d e st line tw).coloredString
            = d.UnEscape (d.Get e.multiLineComment line)) ∧
        (HasPrefix (TrimSpace line) [0x3B] = false →
          ∃ i, Index line [0x3B, 0x3B] = some i ∧
            line = line.take i ++ [0x3B, 0x3B] ++ line.drop (i + 2) ∧
            (highlightLine d e st line tw).coloredString
              = splitColoring d e tw (line.take i) [0x3B, 0x3B] (line.drop (i + 2))))) := by
  constructor
  · intro hm
    constructor
    · intro hc
      simp only [highlightLine, hm, hc, if_false]
    · intro hc
      obtain ⟨i, hi⟩ := Index_isSome_of_Count_trim line [0x22] (by simp) (by omega)
      have hsplit := splitComment_eq d e line tw [0x22] i hi
      refine ⟨?_, ?_, ?_⟩
      · simp only [highlightLine, hm, hc, if_true]
        split <;> rfl
      · intro hp
        simp only [highlightLine, hm, hc, hp, if_true]
      · intro hp
        refine ⟨i, hi, hsplit.2, ?_⟩
        simp only [highlightLine, hm, hc, hp, if_true, Bool.false_eq_true, if_false]
        exact hsplit.1
  · intro hm
    constructor
    · intro hc
      simp only [highlightLine, hm, hc, if_false]
    · intro hc
      obtain ⟨i, hi⟩ := Index_isSome_of_Count_trim line [0x3B, 0x3B] (by simp) (by omega)
      have hsplit := splitComment_eq d e line tw [0x3B, 0x3B] i hi
      refine ⟨?_, ?_, ?_⟩
      · simp only [highlightLine, hm, hc, if_true]
        split <;> rfl
      · intro hp
        simp only [highlightLine, hm, hc, hp, if_true]
      · intro hp
        refine ⟨i, hi, hsplit.2, ?_⟩
        simp only [highlightLine, hm, hc, hp, if_true, Bool.false_eq_true, if_false]
        exact hsplit.1

/-- Witness of C14 as amended: the Vim line `a"b` is split at the quote. -/
theorem marker_comment_override_witness :
    ∃ i, Index [0x61, 0x22, 0x62] [0x22] = some i ∧
      [0x61, 0x22, 0x62]
        = List.take i [0x61, 0x22, 0x62] ++ [0x22] ++ List.drop (i + 1) [0x61, 0x22, 0x62] ∧
      (highlightLine taggingDeps { sampleEditor [] true false [] with mode := modeVim }
          (prescan taggingDeps { sampleEditor [] true false [] with mode := modeVim } 0)
          [0x61, 0x22, 0x62] [0x61, 0x22, 0x62]).coloredString
        = splitColoring taggingDeps { sampleEditor [] true false [] with mode := modeVim }
            [0x61, 0x22, 0x62] (List.take i [0x61, 0x22, 0x62]) [0x22]
            (List.drop (i + 1) [0x61, 0x22, 0x62]) :=
  (((marker_comment_override taggingDeps
      { sampleEditor [] true false [] with mode := modeVim }
      (prescan taggingDeps { sampleEditor [] true false [] with mode := modeVim } 0)
      [0x61, 0x22, 0x62] [0x61, 0x22, 0x62]).1 rfl).2 (by decide)).2.2 (by decide)

/-- C14, counterexample: the Lisp line `;x;;y` holds the marker `;;` once and does not
start with it, yet it is not split: the whole line gets the comment colour, where the
split would paint `;x` and colour `;;y`. And the Lisp line `a`, without a marker, reaches
the default path with `q.singleQuote` reset from 1 to 0. -/
theorem lisp_override_differs_from_split :
    Count (TrimSpace [0x3B, 0x78, 0x3B, 0x3B, 0x79]) [0x3B, 0x3B] = 1 ∧
      HasPrefix (TrimSpace [0x3B, 0x78, 0x3B, 0x3B, 0x79]) [0x3B, 0x3B] = false ∧
      (highlightLine taggingDeps { sampleEditor [] true false [] with mode := modeLisp }
          (prescan taggingDeps { sampleEditor [] true false [] with mode := modeLisp } 0)
          [0x3B, 0x78, 0x3B, 0x3B, 0x79] [0x3B, 0x78, 0x3B, 0x3B, 0x79]).coloredString
        = [0x03, 0x3B, 0x78, 0x3B, 0x3B, 0x79] ∧
      splitColoring taggingDeps { sampleEditor [] true false [] with mode := modeLisp }
          [0x3B, 0x78, 0x3B, 0x3B, 0x79] [0x3B, 0x78] [0x3B, 0x3B] [0x79]
        = [0x02, 0x3B, 0x78, 0x03, 0x3B, 0x3B, 0x79] ∧
      (highlightLine plainDeps { sampleEditor [] true false [] with mode := modeLisp }
          { prescan plainDeps { sampleEditor [] true false [] with mode := modeLisp } 0 with
            q := { singleLineComment := false, multiLineComment := false,
                   startedMultiLineString := false, backtick := 0, doubleQuote := 0,
                   singleQuote := 1, parCount := 0, rest := [] } }
          [0x61] [0x61]).st.q.singleQuote = 0 := by
  decide


/-! ### File type detection -/

/-- C23: a file whose base name starts with `Makefile` or `makefile`, or is `GNUmakefile`,
and that is neither a Git file nor a Vim file by the two earlier cases, is detected as
`modeMakefile`, not as `modeConfig`, with highlighting on: the Makefile case stands before
the case for names without an extension that end in `file`. -/
theorem makefile_rule_precedes_config (ToUpper : GoString → GoString) (filename : GoString)
    (hgit : isGitFile (Base filename) = false)
    (hvim : isVimFile (Ext (Base filename)) = false)
    (hmk : HasPrefix (Base filename) (str "Makefile") = true
      ∨ HasPrefix (Base filename) (str "makefile") = true
      ∨ Base filename = str "GNUmakefile") :
    (detectEditorMode ToUpper filename).1 = modeMakefile ∧
      (detectEditorMode ToUpper filename).1 ≠ modeConfig ∧
      (detectEditorMode ToUpper filename).2 = true := by
  have hm : isMakefile (Base filename) = true := by
    unfold isMakefile
    rcases hmk with h | h | h
    · simp [h]
    · simp [h]
    · simp [h]
  have hs : switchMode filename = modeMakefile := by
    simp [switchMode, hgit, hvim, hm]
  simp [detectEditorMode, hs]

/-- Witness of C23: the file name `Makefile`, which has no extension and ends in `file`. -/
theorem makefile_rule_precedes_config_witness :
    Ext (Base (str "Makefile")) = [] ∧ HasSuffix (Base (str "Makefile")) (str "file") = true ∧
      (detectEditorMode asciiToUpper (str "Makefile")).1 = modeMakefile :=
  ⟨by decide, by decide,
    (makefile_rule_precedes_config asciiToUpper (str "Makefile") (by decide) (by decide)
      (Or.inl (by decide))).1⟩

/-- C30: `detectEditorMode` never returns `modeText`, a file that the switch classifies as
plain text comes back as `modeMarkdown`, and the second result is `false` exactly when
the returned mode is `modeBlank` and the base name has no extension. -/
theorem detectEditorMode_never_text (ToUpper : GoString → GoString) (filename : GoString) :
    (detectEditorMode ToUpper filename).1 ≠ modeText ∧
      (switchMode filename = modeText →
        (detectEditorMode ToUpper filename).1 = modeMarkdown) ∧
      ((detectEditorMode ToUpper filename).2 = false ↔
        (detectEditorMode ToUpper filename).1 = modeBlank ∧ Ext (Base filename) = []) := by
  simp only [detectEditorMode]
  generalize switchMode filename = m
  by_cases h1 : m = modeText
  · simp [h1]
  · by_cases h2 : m = modeBlank
    · by_cases h3 : Contains (Base filename) (str ".") = false
          ∧ Base filename = ToUpper (Base filename)
      · subst h2
        have hcond : (if modeBlank = modeText then modeMarkdown else modeBlank) = modeBlank
            ∧ Contains (Base filename) (str ".") = false
            ∧ Base filename = ToUpper (Base filename) := ⟨by decide, h3.1, h3.2⟩
        rw [if_pos hcond]
        simp
      · subst h2
        have hcond : ¬ ((if modeBlank = modeText then modeMarkdown else modeBlank) = modeBlank
            ∧ Contains (Base filename) (str ".") = false
            ∧ Base filename = ToUpper (Base filename)) := fun h => h3 h.2
        rw [if_neg hcond]
        simp
    · simp [h1, h2]

/-- C24, the code at the failing input: for `modeGit` the method returns `Git`, which holds
an uppercase letter; the only mode whose name holds none is `modeBlank`, named `-`. -/
theorem Mode_names_are_capitalised :
    ({ sampleEditor [] true false [] with mode := modeGit }).Mode = "Git" ∧
      hasUpper ({ sampleEditor [] true false [] with mode := modeGit }).Mode = true ∧
      ∀ m : Mode, (hasUpper (modeString m) = false ↔ m = modeBlank) := by
  refine ⟨rfl, by decide, ?_⟩
  intro m
  cases m <;> decide

/-- C25, the code at the failing input: with `HOME=/home/u` a file in `/home/u/.local/bin`
gives `false`, the third alternative of the switch being the relative path `local/bin`;
files in `/home/u/bin`, `/home/u/.bin` and `/usr/bin` give `true`. -/
theorem aBinDirectory_misses_local_bin :
    aBinDirectory samplePathEnv (str "/home/u/.local/bin/tool") = false ∧
      samplePathEnv.Join [str "local/bin"] = str "local/bin" ∧
      aBinDirectory samplePathEnv (str "/home/u/bin/tool") = true ∧
      aBinDirectory samplePathEnv (str "/home/u/.bin/tool") = true ∧
      aBinDirectory samplePathEnv (str "/usr/bin/tool") = true := by
  decide

/-! ### Index expressions stay in range -/

theorem sliceTo_of_runes_le (s : GoString) (w : Nat) (h : (runes s).length ≥ w) :
    sliceTo s w = some (s.take w) := by
  have hw : w ≤ s.length := Nat.le_trans h (runes_length_le s)
  simp [sliceTo, hw]

theorem matchLoopChecked_eq (term : List Rune) (cas : List CharAttribute) :
    ∀ (n i counter : Nat), counter + n = term.length →
      matchLoopChecked term cas n i counter
        = some (matchAt (term.drop counter) (cas.drop i)) := by
  intro n
  induction n with
  | zero =>
    intro i counter h
    have hd : term.drop counter = [] := List.drop_eq_nil_of_le (by omega)
    simp [matchLoopChecked, hd, matchAt]
  | succ n ih =>
    intro i counter h
    have hc : counter < term.length := by omega
    have hterm : term.drop counter = term[counter] :: term.drop (counter + 1) :=
      List.drop_eq_getElem_cons hc
    by_cases hi : i ≥ cas.length
    · have hd : cas.drop i = [] := List.drop_eq_nil_of_le hi
      simp only [matchLoopChecked, hi, if_true, hterm, hd, matchAt]
    · have hi2 : i < cas.length := Nat.lt_of_not_le hi
      have hcas : cas.drop i = cas[i] :: cas.drop (i + 1) := List.drop_eq_getElem_cons hi2
      have hrec := ih (i + 1) (counter + 1) (by omega)
      simp only [matchLoopChecked, hi, if_false, List.getElem?_eq_getElem hi2,
        List.getElem?_eq_getElem hc, hterm, hcas, matchAt, hrec]
      by_cases hr : cas[i].R = term[counter] <;> simp [hr]

theorem searchFgStepChecked_eq (e : Editor) (matchForAnotherN : Nat)
    (cas : List CharAttribute) (characterIndex : Nat) (ca : CharAttribute) :
    searchFgStepChecked e matchForAnotherN cas characterIndex ca
      = some (searchFgStep e matchForAnotherN (cas.drop characterIndex) ca) := by
  by_cases hm : matchForAnotherN > 0
  · simp [searchFgStepChecked, searchFgStep, hm]
  · by_cases hl : e.searchTerm.length > 0
    · have hne : e.searchTerm ≠ [] := List.length_pos.mp hl
      have hr := runes_ne_nil _ hne
      have hloop := matchLoopChecked_eq (runes e.searchTerm) cas (runes e.searchTerm).length
        characterIndex 0 (by omega)
      rw [List.drop_zero] at hloop
      cases ht : runes e.searchTerm with
      | nil => exact absurd ht hr
      | cons r0 t =>
        rw [ht] at hloop
        simp only [List.length_cons] at hloop
        by_cases hc : ca.R = r0
        · have hc2 : r0 = ca.R := hc.symm
          cases hv : matchAt (r0 :: t) (List.drop characterIndex cas) <;>
            rw [hv] at hloop <;>
            simp [searchFgStepChecked, searchFgStep, hm, hl, ht, hc, hloop, hv]
        · have hc2 : ¬ r0 = ca.R := fun h => hc h.symm
          simp [searchFgStepChecked, searchFgStep, hm, hl, ht, hc, hc2]
    · simp [searchFgStepChecked, searchFgStep, hm, hl]

theorem writeCellsChecked_eq (e : Editor) (cx cy : Int) (y : Nat)
    (all : List CharAttribute) :
    ∀ (rest : List CharAttribute) (characterIndex counter k : Nat),
      all.drop characterIndex = rest →
      writeCellsChecked e cx cy y all rest characterIndex counter k
        = some (writeCells e cx cy y rest counter k) := by
  intro rest
  induction rest with
  | nil => intro i counter k _; simp [writeCellsChecked, writeCells]
  | cons ca rest ih =>
    intro i counter k h
    have hnext : all.drop (i + 1) = rest := by
      have h2 := congrArg (List.drop 1) h
      simpa [List.drop_drop, Nat.add_comm] using h2
    simp only [writeCellsChecked, writeCells, searchFgStepChecked_eq, h]
    by_cases ht : ca.R = 0x09
    · simp only [ht, if_true, ih _ _ _ hnext]
    · simp only [ht, if_false, ih _ _ _ hnext]

/-- C29: the per-line indexing of `WriteLines` never goes out of range. For every line,
width and search term the checked byte slice `screenLine[:w]` is defined and is the
displayed copy of the model; for every slice of characters the loop with the reads
`searchTermRunes[0]`, `charactersAndAttributes[i]` and the rune of the term at `counter`
checked raises no panic and issues the calls of the unchecked loop, and so does the inner
match loop at every character index. -/
theorem WriteLines_indexing_in_range (e : Editor) (w : Nat) (line : GoString)
    (cx cy : Int) (y counter matchForAnotherN characterIndex : Nat)
    (cas : List CharAttribute) (ca : CharAttribute) :
    screenLineChecked w line = some (screenLineOf w line) ∧
      writeCellsChecked e cx cy y cas cas 0 counter matchForAnotherN
        = some (writeCells e cx cy y cas counter matchForAnotherN) ∧
      searchFgStepChecked e matchForAnotherN cas characterIndex ca
        = some (searchFgStep e matchForAnotherN (cas.drop characterIndex) ca) ∧
      matchLoopChecked (runes e.searchTerm) cas (runes e.searchTerm).length characterIndex 0
        = some (matchAt (runes e.searchTerm) (cas.drop characterIndex)) := by
  refine ⟨?_, writeCellsChecked_eq e cx cy y cas cas 0 counter matchForAnotherN rfl,
    searchFgStepChecked_eq e matchForAnotherN cas characterIndex ca, ?_⟩
  · simp only [screenLineChecked, screenLineOf]
    split
    · next h => exact sliceTo_of_runes_le _ _ h
    · rfl
  · have h := matchLoopChecked_eq (runes e.searchTerm) cas (runes e.searchTerm).length
      characterIndex 0 (by omega)
    rwa [List.drop_zero] at h


namespace V2

/-! ### The keyword table -/

theorem setKeywords_independent (args : List (List String)) (t t2 : Keywords) :
    setKeywords args t = setKeywords args t2 := rfl

/-- C17: `setKeywords` replaces the table wholesale. After `setKeywords(add, del)` a word is
in the table exactly when it is in `add` and not in `del`, after `setKeywords(add)` exactly
when it is in `add`; the table that was there before has no influence on the result. -/
theorem setKeywords_replaces_table (t : Keywords) (add del : List String) (w : String) :
    (setKeywords [add, del] t w = true ↔ w ∈ add ∧ w ∉ del) ∧
      (setKeywords [add] t w = true ↔ w ∈ add) ∧
      (∀ t2 : Keywords,
        setKeywords [add, del] t = setKeywords [add, del] t2 ∧
          setKeywords [add] t = setKeywords [add] t2) := by
  refine ⟨?_, ?_, fun t2 => ⟨rfl, rfl⟩⟩
  · simp only [setKeywords, addAndRemoveKeywords, removeKeywords, addKeywords, clearKeywords,
      Bool.or_false, Bool.and_eq_true, Bool.not_eq_true', decide_eq_false_iff_not,
      decide_eq_true_eq]
    exact ⟨fun h => ⟨h.2, h.1⟩, fun h => ⟨h.2, h.1⟩⟩
  · simp only [setKeywords, addAndRemoveKeywords, addKeywords, clearKeywords, Bool.or_false,
      decide_eq_true_eq]

/-- C16, as amended: for every mode `A` whose case starts by replacing the table
(`setKeywords` or `clearKeywords`), the table after `A` does not depend on the table
before it, so for every mode `B` and every initial table the switch `A`, `B`, `A` leaves
the table that `A` alone leaves. -/
theorem mode_switch_reset_for_replacing_modes (A B : Mode) (t : Keywords)
    (h : resetsTable A = true) :
    adjustSyntaxHighlightingKeywords A
        (adjustSyntaxHighlightingKeywords B (adjustSyntaxHighlightingKeywords A t))
      = adjustSyntaxHighlightingKeywords A t ∧
    ∀ t2 : Keywords,
      adjustSyntaxHighlightingKeywords A t2 = adjustSyntaxHighlightingKeywords A t := by
  have key : ∀ t2 : Keywords,
      adjustSyntaxHighlightingKeywords A t2 = adjustSyntaxHighlightingKeywords A t := by
    intro t2
    cases A <;> first | rfl | exact absurd h (by decide)
  exact ⟨key _, key⟩

/-- Witness of C16 as amended: Lisp, then Ada, then Lisp again, from the empty table. -/
theorem mode_switch_reset_for_replacing_modes_witness :
    adjustSyntaxHighlightingKeywords Mode.Lisp
        (adjustSyntaxHighlightingKeywords Mode.Ada
          (adjustSyntaxHighlightingKeywords Mode.Lisp (fun _ => false)))
      = adjustSyntaxHighlightingKeywords Mode.Lisp (fun _ => false) :=
  (mode_switch_reset_for_replacing_modes Mode.Lisp Mode.Ada (fun _ => false) rfl).1

/-- C16, counterexample: Ada only adds words. From the empty table, Ada alone leaves a
table without `defun`; Ada, Lisp, Ada leaves the words of Lisp in it, `defun` among
them. -/
theorem mode_switch_keeps_words_of_other_mode :
    adjustSyntaxHighlightingKeywords Mode.Ada (fun _ => false) "defun" = false ∧
      adjustSyntaxHighlightingKeywords Mode.Ada
        (adjustSyntaxHighlightingKeywords Mode.Lisp
          (adjustSyntaxHighlightingKeywords Mode.Ada (fun _ => false))) "defun" = true ∧
      adjustSyntaxHighlightingKeywords Mode.Ada
          (adjustSyntaxHighlightingKeywords Mode.Lisp
            (adjustSyntaxHighlightingKeywords Mode.Ada (fun _ => false)))
        ≠ adjustSyntaxHighlightingKeywords Mode.Ada (fun _ => false) :=
  ⟨by decide, by decide, fun h => absurd (congrFun h "defun") (by decide)⟩


/-! ### Rainbow parentheses -/

theorem disableRainbowForProse_spec (e : Editor) :
    (disableRainbowForProse e).mode = e.mode ∧
      ((e.mode = Mode.Markdown ∨ e.mode = Mode.Text ∨ e.mode = Mode.Blank) →
        (disableRainbowForProse e).rainbowParenthesis = false) := by
  unfold disableRainbowForProse
  constructor
  · split <;> rfl
  · intro h
    rcases h with h | h | h <;> simp [h]

/-- C18: the rainbow step changes the characters of a line only if the flag
`rainbowParenthesis` of the editor is set and `q.None()` holds: otherwise it returns the
characters and the state as they are. And, provided the part of `NewEditor` after its last
switch on the mode leaves the mode and the flag alone, an editor returned by `NewEditor`
in mode Markdown, Text or Blank has `rainbowParenthesis` unset. -/
theorem rainbow_only_when_enabled_and_outside :
    (∀ (d : Deps) (e : OEditor.Editor) (q : QuoteState) (addedPar : Int)
        (cas : List CharAttribute),
      ¬ (e.rainbowParenthesis = true ∧ d.None q = true) →
        rainbowStep d e q addedPar cas = (q, cas)) ∧
    (∀ (x : NewEditorEnv) (filename : String) (origSyntaxHighlight : Bool) (e : Editor),
      (∀ e0 : Editor, (x.finish e0).mode = e0.mode ∧
          (x.finish e0).rainbowParenthesis = e0.rainbowParenthesis) →
      NewEditor x filename origSyntaxHighlight = some e →
      (e.mode = Mode.Markdown ∨ e.mode = Mode.Text ∨ e.mode = Mode.Blank) →
        e.rainbowParenthesis = false) := by
  constructor
  · intro d e q addedPar cas h
    have h2 : (e.rainbowParenthesis && d.None q) = false := by
      cases hr : e.rainbowParenthesis <;> cases hn : d.None q <;> simp_all
    simp only [rainbowStep, h2, Bool.false_eq_true, if_false]
  · intro x filename orig e hfin hnew hmode
    simp only [NewEditor] at hnew
    split at hnew
    · exact absurd hnew (by simp)
    · rename_i e1 _
      simp only [Option.some.injEq] at hnew
      subst hnew
      have h1 := hfin (disableRainbowForProse e1)
      have h2 := disableRainbowForProse_spec e1
      rw [h1.2]
      apply h2.2
      rw [← h2.1, ← h1.1]
      exact hmode

/-- Witness of C18: a file detected as Go by its name and as Markdown by its contents is
opened in Markdown mode with the rainbow flag unset. -/
theorem rainbow_only_when_enabled_and_outside_witness :
    ∃ e : Editor, NewEditor sampleEnv "notes.go" true = some e ∧ e.mode = Mode.Markdown ∧
      e.rainbowParenthesis = false :=
  ⟨_, rfl, rfl,
    rainbow_only_when_enabled_and_outside.2 sampleEnv "notes.go" true _
      (fun _ => ⟨rfl, rfl⟩) rfl (Or.inl rfl)⟩

/-! ### Going to the next match -/

/-- C19: with an empty search term `GoToNextMatch` returns `nil` and calls no `GoTo`; with
a non-empty term it returns `errNoSearchMatch` exactly when the search in the given
direction finds nothing (`foundY == -1`) and, if `wrap` is set, the search from the top or
the bottom finds nothing either, and it returns `nil` in every other case. -/
theorem GoToNextMatch_error_iff_nothing_found (e : Editor) (wrap forward : Bool) :
    (e.searchTerm = [] →
      GoToNextMatch e wrap forward = { err := none, gotoCalls := [], sx := none }) ∧
    (e.searchTerm ≠ [] →
      ((GoToNextMatch e wrap forward).err = some "no search match" ↔
        (directionalSearch e forward).2 = -1 ∧
          (wrap = true → (wrappedSearch e forward).2 = -1)) ∧
      ((GoToNextMatch e wrap forward).err = none ↔
        ¬ ((directionalSearch e forward).2 = -1 ∧
          (wrap = true → (wrappedSearch e forward).2 = -1)))) := by
  constructor
  · intro h
    simp [GoToNextMatch, h]
  · intro h
    have key : (GoToNextMatch e wrap forward).err = some "no search match" ↔
        (directionalSearch e forward).2 = -1 ∧
          (wrap = true → (wrappedSearch e forward).2 = -1) := by
      simp only [GoToNextMatch, h, if_false]
      by_cases hd : (directionalSearch e forward).2 = -1
      · cases wrap
        · simp [hd]
        · by_cases hw : (wrappedSearch e forward).2 = -1
          · simp [hd, hw]
          · simp [hd, hw]
      · simp [hd]
    refine ⟨key, ?_⟩
    rw [← key]
    simp only [GoToNextMatch, h, if_false]
    split <;> split <;> simp

/-- Witness of C19: the term `zz` in a buffer that does not hold it, with wrap-around. -/
theorem GoToNextMatch_error_iff_nothing_found_witness :
    (GoToNextMatch (sampleSearchEditor [[0x61, 0x62], [0x63]] 0 0 [0x7A, 0x7A]) true true).err
        = some "no search match" ↔
      (directionalSearch (sampleSearchEditor [[0x61, 0x62], [0x63]] 0 0 [0x7A, 0x7A]) true).2
          = -1 ∧
        (true = true →
          (wrappedSearch (sampleSearchEditor [[0x61, 0x62], [0x63]] 0 0 [0x7A, 0x7A])
            true).2 = -1) :=
  ((GoToNextMatch_error_iff_nothing_found
    (sampleSearchEditor [[0x61, 0x62], [0x63]] 0 0 [0x7A, 0x7A]) true true).2
    (by decide)).1


/-! ### The forward search -/

theorem drop_add_HasPrefix (line s : GoString) (a j : Nat) :
    HasPrefix ((line.drop a).drop j) s = HasPrefix (line.drop (a + j)) s := by
  rw [List.drop_drop, Nat.add_comm]

theorem searchLine_some (e : Editor) (y x : Int) (h : searchLine e y = some x) :
    ∃ xn : Nat, x = (xn : Int) ∧ counts e y xn ∧ ∀ x2, x2 < xn → ¬ counts e y x2 := by
  simp only [searchLine] at h
  by_cases hy : y = e.DataY
  · simp only [hy, if_true] at h
    cases hx : e.DataX with
    | none => simp [hx] at h
    | some x0 =>
      simp only [hx] at h
      by_cases hlen : x0 + 1 ≥ (e.Line e.DataY).length
      · simp [hlen] at h
      · simp only [hlen, if_false, Contains_eq_isSome] at h
        cases hi : Index ((e.Line e.DataY).drop (x0 + 1)) e.searchTerm with
        | none => simp [hi] at h
        | some i =>
          simp only [hi, Option.isSome_some, if_true, IndexInt, Option.some.injEq] at h
          have hspec := Index_some_spec e.searchTerm _ i hi
          refine ⟨x0 + 1 + i, by rw [← h]; push_cast; ring, ?_, ?_⟩
          · refine ⟨?_, fun _ => ⟨x0, hx, by omega⟩⟩
            simp only [occursAt, hy]
            rw [← drop_add_HasPrefix]
            exact hspec.1
          · intro x2 hx2 hc
            obtain ⟨x0b, hx0b, hlt⟩ := hc.2 hy
            rw [hx] at hx0b
            simp only [Option.some.injEq] at hx0b
            subst hx0b
            have hj := hspec.2 (x2 - (x0 + 1)) (by omega)
            rw [drop_add_HasPrefix, show x0 + 1 + (x2 - (x0 + 1)) = x2 by omega] at hj
            have hocc := hc.1
            simp only [occursAt, hy] at hocc
            rw [hocc] at hj
            exact absurd hj (by decide)
  · simp only [hy, if_false, Contains_eq_isSome] at h
    cases hi : Index (e.Line y) e.searchTerm with
    | none => simp [hi] at h
    | some i =>
      simp only [hi, Option.isSome_some, if_true, IndexInt, Option.some.injEq] at h
      have hspec := Index_some_spec e.searchTerm _ i hi
      refine ⟨i, h.symm, ⟨hspec.1, fun hy2 => absurd hy2 hy⟩, ?_⟩
      intro x2 hx2 hc
      have hj := hspec.2 x2 hx2
      have hocc := hc.1
      simp only [occursAt] at hocc
      rw [hocc] at hj
      exact absurd hj (by decide)

theorem searchLine_none (e : Editor) (hs : e.searchTerm ≠ []) (y : Int)
    (h : searchLine e y = none) : ∀ x, ¬ counts e y x := by
  intro x hc
  have hocc := hc.1
  simp only [occursAt] at hocc
  simp only [searchLine] at h
  by_cases hy : y = e.DataY
  · obtain ⟨x0, hx, hlt⟩ := hc.2 hy
    simp only [hy, if_true, hx] at h
    rw [hy] at hocc
    by_cases hlen : x0 + 1 ≥ (e.Line e.DataY).length
    · have hnil : (e.Line e.DataY).drop x = [] := List.drop_eq_nil_of_le (by omega)
      rw [hnil, HasPrefix_nil _ hs] at hocc
      exact absurd hocc (by decide)
    · simp only [hlen, if_false, Contains_eq_isSome] at h
      cases hi : Index ((e.Line e.DataY).drop (x0 + 1)) e.searchTerm with
      | some i => simp [hi] at h
      | none =>
        have hj := Index_none_spec e.searchTerm hs _ hi (x - (x0 + 1))
        rw [drop_add_HasPrefix, show x0 + 1 + (x - (x0 + 1)) = x by omega, hocc] at hj
        exact absurd hj (by decide)
  · simp only [hy, if_false, Contains_eq_isSome] at h
    cases hi : Index (e.Line y) e.searchTerm with
    | some i => simp [hi] at h
    | none =>
      have hj := Index_none_spec e.searchTerm hs _ hi x
      rw [hocc] at hj
      exact absurd hj (by decide)

theorem forwardLoop_spec (e : Editor) :
    ∀ (n : Nat) (y0 : Int),
      (forwardLoop e n y0 = (-1, -1) ∧
          ∀ y, y0 ≤ y → y < y0 + n → searchLine e y = none) ∨
        (∃ x y, forwardLoop e n y0 = (x, y) ∧ y0 ≤ y ∧ y < y0 + n ∧
          searchLine e y = some x ∧ ∀ y2, y0 ≤ y2 → y2 < y → searchLine e y2 = none) := by
  intro n
  induction n with
  | zero =>
    intro y0
    left
    exact ⟨rfl, fun y h1 h2 => absurd h2 (by simp; omega)⟩
  | succ n ih =>
    intro y0
    cases hs : searchLine e y0 with
    | some x =>
      right
      refine ⟨x, y0, by simp [forwardLoop, hs], le_refl _, by push_cast; omega, hs, ?_⟩
      intro y2 h1 h2
      omega
    | none =>
      have hstep : forwardLoop e (n + 1) y0 = forwardLoop e n (y0 + 1) := by
        simp [forwardLoop, hs]
      rcases ih (y0 + 1) with ⟨h1, h2⟩ | ⟨x, y, h1, h2, h3, h4, h5⟩
      · left
        refine ⟨by rw [hstep, h1], ?_⟩
        intro y hy1 hy2
        by_cases hy : y = y0
        · rw [hy]; exact hs
        · exact h2 y (by omega) (by push_cast at hy2; omega)
      · right
        refine ⟨x, y, by rw [hstep, h1], by omega, by push_cast; omega, h4, ?_⟩
        intro y2 hy1 hy2
        by_cases hy : y2 = y0
        · rw [hy]; exact hs
        · exact h5 y2 (by omega) hy2

/-- C20: for a start index that is not negative, `forwardSearch` with an empty search term
returns `(-1, -1)`; with a non-empty term `s` it returns `(-1, -1)` exactly when no line
of `[startIndex, stopIndex)` has a counting occurrence of `s` (on the line of the cursor
only occurrences that start after the byte position of the cursor count), and otherwise
it returns `(x, y)` where `y` is the smallest line index of the range with a counting
occurrence and `x` the smallest byte offset of one on that line, so `s` stands at offset
`x` of line `y`. -/
theorem forwardSearch_finds_first_counting_occurrence (e : Editor)
    (startIndex stopIndex : Int) (h0 : 0 ≤ startIndex) :
    (e.searchTerm = [] → forwardSearch e startIndex stopIndex = (-1, -1)) ∧
    (e.searchTerm ≠ [] →
      (forwardSearch e startIndex stopIndex = (-1, -1) ↔
        ∀ y, startIndex ≤ y → y < stopIndex → ∀ x, ¬ counts e y x) ∧
      (∀ x y, forwardSearch e startIndex stopIndex = (x, y) → (x, y) ≠ (-1, -1) →
        startIndex ≤ y ∧ y < stopIndex ∧
          ∃ xn : Nat, x = (xn : Int) ∧ counts e y xn ∧ (∀ x2, x2 < xn → ¬ counts e y x2) ∧
            ∀ y2, startIndex ≤ y2 → y2 < y → ∀ x2, ¬ counts e y2 x2)) := by
  constructor
  · intro h
    simp [forwardSearch, h]
  · intro hs
    have hfs : forwardSearch e startIndex stopIndex
        = forwardLoop e (stopIndex - startIndex).toNat startIndex := by
      simp [forwardSearch, hs]
    have hbound : ∀ y : Int, startIndex ≤ y →
        (y < startIndex + ((stopIndex - startIndex).toNat : Int) ↔ y < stopIndex) := by
      intro y hy
      omega
    rw [hfs]
    rcases forwardLoop_spec e (stopIndex - startIndex).toNat startIndex with
      ⟨h1, h2⟩ | ⟨x, y, h1, h2, h3, h4, h5⟩
    · refine ⟨⟨fun _ y hy1 hy2 => ?_, fun _ => h1⟩, ?_⟩
      · exact searchLine_none e hs y (h2 y hy1 ((hbound y hy1).mpr hy2))
      · intro x y hxy hne
        rw [h1] at hxy
        exact absurd hxy.symm hne
    · obtain ⟨xn, hxn, hc, hmin⟩ := searchLine_some e y x h4
      refine ⟨⟨fun hneg => ?_, fun hall => ?_⟩, ?_⟩
      · rw [h1] at hneg
        have : y = -1 := congrArg Prod.snd hneg
        omega
      · exact absurd hc (hall y h2 ((hbound y h2).mp h3) xn)
      · intro x2 y2 hxy _
        rw [h1] at hxy
        have hx : x = x2 := congrArg Prod.fst hxy
        have hy : y = y2 := congrArg Prod.snd hxy
        subst hx; subst hy
        refine ⟨h2, (hbound y h2).mp h3, xn, hxn, hc, hmin, ?_⟩
        intro y3 hy1 hy2
        exact searchLine_none e hs y3 (h5 y3 hy1 hy2)

/-- Witness of C20: the term `ab` in the buffer `ab`, `xab` with the cursor on the first
byte of line 0: the occurrence under the cursor does not count, the search returns
offset 1 of line 1. -/
theorem forwardSearch_finds_first_counting_occurrence_witness :
    forwardSearch (sampleSearchEditor [[0x61, 0x62], [0x78, 0x61, 0x62]] 0 0 [0x61, 0x62]) 0 2
        = (1, 1) ∧
      ((1 : Int) < 2 ∧ ∃ xn : Nat, (1 : Int) = (xn : Int) ∧
        counts (sampleSearchEditor [[0x61, 0x62], [0x78, 0x61, 0x62]] 0 0 [0x61, 0x62]) 1 xn) :=
  ⟨by decide,
    let h := ((forwardSearch_finds_first_counting_occurrence
      (sampleSearchEditor [[0x61, 0x62], [0x78, 0x61, 0x62]] 0 0 [0x61, 0x62]) 0 2
      (by decide)).2 (by decide)).2 1 1 (by decide) (by decide)
    ⟨h.2.1, h.2.2.imp fun _ hx => ⟨hx.1, hx.2.1⟩⟩⟩

/-! ### Applying a mode twice -/

theorem wordWise_id : WordWise (fun t => t) :=
  ⟨fun _ => true, fun _ => false, fun t w => by simp⟩

theorem wordWise_clear (f : Keywords → Keywords) : WordWise (fun t => clearKeywords (f t)) :=
  ⟨fun _ => false, fun _ => false, fun t w => by simp [clearKeywords]⟩

theorem wordWise_add (ws : List String) {f : Keywords → Keywords} (hf : WordWise f) :
    WordWise (fun t => addKeywords ws (f t)) := by
  obtain ⟨k, g, h⟩ := hf
  refine ⟨k, fun w => decide (w ∈ ws) || g w, fun t w => ?_⟩
  simp only [addKeywords, h]
  cases t w <;> cases k w <;> cases g w <;> cases decide (w ∈ ws) <;> rfl

theorem wordWise_remove (ws : List String) {f : Keywords → Keywords} (hf : WordWise f) :
    WordWise (fun t => removeKeywords ws (f t)) := by
  obtain ⟨k, g, h⟩ := hf
  refine ⟨fun w => !decide (w ∈ ws) && k w, fun w => !decide (w ∈ ws) && g w, fun t w => ?_⟩
  simp only [removeKeywords, h]
  cases t w <;> cases k w <;> cases g w <;> cases decide (w ∈ ws) <;> rfl

theorem wordWise_addAndRemove (args : List (List String)) {f : Keywords → Keywords}
    (hf : WordWise f) : WordWise (fun t => addAndRemoveKeywords args (f t)) := by
  match args with
  | [] => exact hf
  | [a] => exact wordWise_add a hf
  | a :: dl :: _ => exact wordWise_remove dl (wordWise_add a hf)

theorem wordWise_set (args : List (List String)) (f : Keywords → Keywords) :
    WordWise (fun t => setKeywords args (f t)) :=
  wordWise_addAndRemove args (wordWise_clear f)

theorem wordWise_twice {f : Keywords → Keywords} (hf : WordWise f) (t : Keywords) :
    f (f t) = f t := by
  obtain ⟨k, g, h⟩ := hf
  funext w
  rw [h (f t) w, h t w]
  cases t w <;> cases k w <;> cases g w <;> rfl

theorem wordWise_adjust (m : Mode) :
    WordWise (fun t => adjustSyntaxHighlightingKeywords m t) := by
  cases m <;>
    simp only [adjustSyntaxHighlightingKeywords, defaultCase, cCase, javaCase, makeShellCase,
      rustCase] <;>
    repeat (first
      | with_reducible exact wordWise_id
      | with_reducible exact wordWise_set _ _
      | with_reducible exact wordWise_clear _
      | with_reducible apply wordWise_add
      | with_reducible apply wordWise_remove
      | with_reducible apply wordWise_addAndRemove)

/-- C28: `adjustSyntaxHighlightingKeywords` is idempotent. For every mode and every initial
keyword table, applying the adjustment of the mode twice in a row leaves the table that one
application leaves; this covers the modes that only add and remove words and the modes
whose case falls through to another case. -/
theorem adjustSyntaxHighlightingKeywords_idempotent (m : Mode) (t : Keywords) :
    adjustSyntaxHighlightingKeywords m (adjustSyntaxHighlightingKeywords m t)
      = adjustSyntaxHighlightingKeywords m t :=
  wordWise_twice (wordWise_adjust m) t

/-! ### Wrapping around -/

theorem GoToNextMatch_wrap_forward_other_line (e : Editor) (hs : e.searchTerm ≠ [])
    (y : Int) (h0 : 0 ≤ y) (hlen : y < e.Len) (hy : y ≠ e.DataY)
    (hc : Contains (e.Line y) e.searchTerm = true) :
    (GoToNextMatch e true true).err = none := by
  have hline : searchLine e y ≠ none := by simp [searchLine, hy, hc]
  have hw : (wrappedSearch e true).2 ≠ -1 := by
    simp only [wrappedSearch, if_true, forwardSearch, hs, if_false]
    rcases forwardLoop_spec e ((e.Len : Int) - 0).toNat 0 with
      ⟨_, hnone⟩ | ⟨x, y2, heq, hge, _, _, _⟩
    · exact absurd (hnone y h0 (by simp; omega)) hline
    · rw [heq]
      show y2 ≠ -1
      omega
  simp only [GoToNextMatch, hs, if_false]
  by_cases hd : (directionalSearch e true).2 = -1
  · simp [hd, hw]
  · simp [hd]

/-- C21, evaluated where the code misses: the buffer is the one line `ab ab`, the cursor is
at byte 3 of it, on the second `ab`, and the search term is `ab`. The line contains the
term, yet `GoToNextMatch` with `wrap` returns `errNoSearchMatch`, forward and backward:
both searches, the one after wrapping included, look at the line of the cursor only
after the cursor. -/
theorem GoToNextMatch_wrap_misses_before_cursor :
    Contains ((sampleSearchEditor [[0x61, 0x62, 0x20, 0x61, 0x62]] 0 3 [0x61, 0x62]).Line 0)
        [0x61, 0x62] = true ∧
      (GoToNextMatch (sampleSearchEditor [[0x61, 0x62, 0x20, 0x61, 0x62]] 0 3 [0x61, 0x62])
        true true).err = some "no search match" ∧
      (GoToNextMatch (sampleSearchEditor [[0x61, 0x62, 0x20, 0x61, 0x62]] 0 3 [0x61, 0x62])
        true false).err = some "no search match" := by
  decide

/-! ### The search history -/

theorem newestToOldest_perm (sh : SearchHistory) : sh.newestToOldest.Perm sh.entries :=
  List.perm_insertionSort _ _

theorem newestToOldest_sorted (sh : SearchHistory) :
    sh.newestToOldest.Pairwise (fun a b => b.1 ≤ a.1) := by
  haveI : IsTotal (Int × String) (fun a b => b.1 ≤ a.1) := ⟨fun a b => Int.le_total b.1 a.1⟩
  haveI : IsTrans (Int × String) (fun a b => b.1 ≤ a.1) :=
    ⟨fun _ _ _ hab hbc => Int.le_trans hbc hab⟩
  exact List.sorted_insertionSort _ _

theorem newestToOldest_length (sh : SearchHistory) : sh.newestToOldest.length = sh.Len :=
  List.length_insertionSort _ _

theorem countP_newer_of_decreasing :
    ∀ (s : List (Int × String)), s.Pairwise (fun a b => b.1 < a.1) →
      ∀ (i : Nat) (hi : i < s.length),
        s.countP (fun y => decide ((s.get ⟨i, hi⟩).1 < y.1)) = i := by
  intro s
  induction s with
  | nil => intro _ i hi; exact absurd hi (Nat.not_lt_zero _)
  | cons a t ih =>
    intro hp i hi
    rw [List.pairwise_cons] at hp
    cases i with
    | zero =>
      have h0 : List.countP (fun y => decide (a.1 < y.1)) t = 0 := by
        rw [List.countP_eq_zero]
        intro b hb
        have := hp.1 b hb
        simp only [decide_eq_true_eq]
        omega
      simp [List.countP_cons, h0]
    | succ j =>
      have hj : j < t.length := by simpa using hi
      have hlt : (t.get ⟨j, hj⟩).1 < a.1 := hp.1 _ (List.get_mem t j hj)
      have := ih hp.2 j hj
      simp only [List.get_cons_succ, List.countP_cons, this, hlt, decide_True, if_true]

theorem TestKeepNewest_holds :
    (sampleHistory.KeepNewest 2).Len = 2 ∧ (sampleHistory.KeepNewest 1).Len = 1 ∧
      (sampleHistory.KeepNewest 3).Len = 3 ∧ (sampleHistory.KeepNewest 0).Len = 0 := by
  decide

theorem TestGetIndex_holds :
    sampleHistory.GetIndex 0 true = "search1" ∧ sampleHistory.GetIndex 1 true = "search2" ∧
      sampleHistory.GetIndex 2 true = "search3" ∧ sampleHistory.GetIndex 3 true = "" := by
  decide

/-- C26: for every search history with `m` entries and every `n`, `KeepNewest n` leaves
exactly `min n m` entries, and they are the newest ones: the entries kept together with
the entries dropped are the entries that were there, and no dropped entry is newer than a
kept one. `KeepNewest 0` leaves no entry. -/
theorem KeepNewest_keeps_the_newest (sh : SearchHistory) (n : Nat) :
    (sh.KeepNewest n).Len = min n sh.Len ∧
      (∃ dropped : List (Int × String),
        ((sh.KeepNewest n).entries ++ dropped).Perm sh.entries ∧
          ∀ x ∈ (sh.KeepNewest n).entries, ∀ y ∈ dropped, y.1 ≤ x.1) ∧
      (sh.KeepNewest 0).Len = 0 := by
  refine ⟨?_, ⟨sh.newestToOldest.drop n, ?_, ?_⟩, ?_⟩
  · have h := newestToOldest_length sh
    simp only [SearchHistory.Len] at h
    simp only [SearchHistory.KeepNewest, SearchHistory.Len, List.length_take, h]
  · simp only [SearchHistory.KeepNewest, List.take_append_drop]
    exact newestToOldest_perm sh
  · have h := newestToOldest_sorted sh
    rw [← List.take_append_drop n sh.newestToOldest, List.pairwise_append] at h
    exact h.2.2
  · simp [SearchHistory.KeepNewest, SearchHistory.Len]

/-- C27: `GetIndex i true` is the empty string when `i` is at least `Len`; when `i` is
below `Len` (the time stamps being distinct, as the keys of a map are) it is the search
term of the entry with the `i`-th newest time stamp, the entry that exactly `i` entries of
the history are newer than, so that index 0 gives the newest entry. -/
theorem GetIndex_newest_first (sh : SearchHistory) (i : Nat) :
    (sh.Len ≤ i → sh.GetIndex i true = "") ∧
      (i < sh.Len → (sh.entries.map Prod.fst).Nodup →
        ∃ x ∈ sh.entries, sh.GetIndex i true = x.2 ∧
          sh.entries.countP (fun y => decide (x.1 < y.1)) = i) := by
  constructor
  · intro h
    have : sh.newestToOldest[i]? = none :=
      List.getElem?_eq_none (by rw [newestToOldest_length]; exact h)
    simp [SearchHistory.GetIndex, this]
  · intro h hn
    have hi : i < sh.newestToOldest.length := by rw [newestToOldest_length]; exact h
    have hperm := newestToOldest_perm sh
    have hnd : (sh.newestToOldest.map Prod.fst).Nodup :=
      ((hperm.map Prod.fst).nodup_iff).mpr hn
    have hne : sh.newestToOldest.Pairwise (fun a b => a.1 ≠ b.1) := by
      have := hnd
      rw [List.Nodup, List.pairwise_map] at this
      exact this
    have hs : sh.newestToOldest.Pairwise (fun a b => b.1 < a.1) :=
      ((newestToOldest_sorted sh).and hne).imp
        (fun h => lt_of_le_of_ne h.1 (fun e => h.2 e.symm))
    refine ⟨sh.newestToOldest.get ⟨i, hi⟩, hperm.subset (List.get_mem _ i hi), ?_, ?_⟩
    · have : sh.newestToOldest[i]? = some (sh.newestToOldest.get ⟨i, hi⟩) := by
        simp [List.getElem?_eq_getElem hi]
      simp [SearchHistory.GetIndex, this]
    · rw [← hperm.countP_eq]
      exact countP_newer_of_decreasing _ hs i hi

/-- Witness of C27 on the history of `TestGetIndex`: index 3 gives the empty string, and
index 1 gives the term of an entry that exactly one entry is newer than. -/
theorem GetIndex_newest_first_witness :
    sampleHistory.GetIndex 3 true = "" ∧
      ∃ x ∈ sampleHistory.entries, sampleHistory.GetIndex 1 true = x.2 ∧
        sampleHistory.entries.countP (fun y => decide (x.1 < y.1)) = 1 :=
  ⟨(GetIndex_newest_first sampleHistory 3).1 (by decide),
    (GetIndex_newest_first sampleHistory 1).2 (by decide) (by decide)⟩

end V2

end OEditor
